import Mathlib

/-!
# tvisor: the supervisor core (package `supervisor/core`)

A shallow embedding of `supervisor/core/instance.go` and
`supervisor/core/supervisor.go`.

* Go pointers to an `Instance` held in the registry map are modelled by
  storing the instance value in the map and writing every mutation back
  under the same key (`Supervisor.store`).
* The operating system is an explicit `World`: the ambient environment,
  the PIDs that answer the null signal, and a log of the effectful calls
  made so far.  What the OS and the child processes decide on their own
  during a call (launch result, signal delivery result, when a process
  exits) is an explicit argument of the operation (`Launch`,
  `StartEvents`, `StopEvents`).
* A nil-pointer dereference and a receive that can never be served are
  results of their own (`Exit.panic`, `Exit.block`), with the state in
  which they happen.
* Go `int` is `Int`: identifiers and PIDs stay far below `2^63`.
* In the embedding of the operations the mutexes are not modelled:
  operations are executed one after another.  The protocol of `termMutex`
  is modelled on its own: goroutines run the lock, defer, work, launch and
  wait statements of the four bodies, in the order of the source, under an
  arbitrary schedule.  `instMapMutex` is not modelled.
* `handleZombie` of `main.go` is embedded with the result of `Wait4` as an
  argument.
* `parseCommand` of `api/supervisorhttp/parser.go` is embedded from the
  result of `decoder.Decode` on; the orders of its two `range` loops are
  arguments.  `mapstructure.Decode` is modelled for the field types of
  `commandParams` (Go `int` of 64 bits), the text of its error is an
  argument.
* `Cmd.Start` is logged with the `Env` field of the command; the list
  `os/exec` hands to the child is `dedupEnv` of it.
* `parseCfg` of `main.go` is embedded with the outcome of the file
  operations and the JSON document of the file as arguments; Go `int64`
  arithmetic is arithmetic modulo `2^64`.
-/

namespace core

/-! ## Errors and results -/

/-- A Go `error` value that is not nil: either built in this package with
`errors.New`, or handed up from `os`, `os/exec` or `syscall` (told apart
by a code). -/
inductive Err
  | new (msg : String)
  | sys (code : Nat)
deriving DecidableEq, Repr

/-- The Go `error` for what a library call reports: nil, or the library's
error with that code. -/
def sysErr (code : Option Nat) : Option Err :=
  code.map Err.sys

/-- How a call ends: it returns a value, it panics (a nil dereference, a
write into a nil map), or it blocks for ever on a channel receive. -/
inductive Exit (α : Type)
  | ret (a : α)
  | panic
  | block
deriving DecidableEq, Repr

/-! ## The operating system boundary -/

/-- Signals the supervisor delivers to a child (`os.Interrupt`, `os.Kill`). -/
inductive Sig
  | interrupt
  | kill
deriving DecidableEq, Repr

/-- Effectful calls into `os` / `os/exec`, as logged in the world. -/
inductive Call
  | lookPath (file : String)
  /-- The call `Cmd.Start` of a command with this `Path` and this `Env`
  field; what the child receives is `Call.childEnv`. -/
  | start (path : String) (env : List String)
  | wait (pid : Int)
  | signal (pid : Int) (sig : Sig)
  /-- The non-blocking reap `syscall.Wait4(-1, nil, syscall.WNOHANG, nil)`. -/
  | wait4
deriving DecidableEq, Repr

/-- The part of the operating system the supervisor core talks to. -/
structure World where
  /-- Value of `os.Environ()`. -/
  environ : List String
  /-- PIDs on which `Process.Signal(syscall.Signal(0))` returns nil. -/
  live : List Int
  /-- Calls made so far, oldest first. -/
  calls : List Call
deriving DecidableEq, Repr

/-- Liveness probe: does the null signal reach `pid`? -/
def World.probe (w : World) (pid : Int) : Bool :=
  w.live.contains pid

/-- Append a call to the log. -/
def World.log (w : World) (c : Call) : World :=
  { w with calls := w.calls ++ [c] }

/-- The process `pid` has exited and has been waited for: it no longer
answers the null signal. -/
def World.reap (w : World) (pid : Int) : World :=
  { w with live := w.live.filter (fun p => p != pid) }

/-- Outcome of `Cmd.Start`: an error, or a new child whose PID the kernel
chose (always at least 1). -/
inductive Launch
  | failed (code : Nat)
  | started (pid : Int) (pos : 0 < pid)

/-- What happens around one `StartInstance` call. -/
structure StartEvents where
  /-- Code of the error returned by `exec.LookPath(instPath)`, if any. -/
  look : Option Nat
  /-- Outcome of `Cmd.Start`. -/
  launch : Launch

/-- What the OS and the awaited process do during one `Stop` call. -/
structure StopEvents where
  /-- Code of the error returned by `Process.Signal(os.Interrupt)`, if any. -/
  intr : Option Nat
  /-- When the awaited process, still running at the interrupt, exits on
  its own: `some d` is `d` nanoseconds after the interrupt, `none` never. -/
  exit : Option Nat
  /-- What `Cmd.Wait` returns once the awaited process is gone: nil, or
  the error with this code. -/
  wait : Option Nat
  /-- Choice made by `select` when the timer and the exit-wait are ready
  together: `true` picks the timer. -/
  tie : Bool
  /-- Code of the error returned by `Process.Kill()`, if any. -/
  kill : Option Nat
deriving DecidableEq, Repr

/-! ## `path.Join` and `strconv.Itoa` (Go standard library) -/

/-- One step of `path.Clean` over the stack of kept components (top first). -/
def cleanStep (rooted : Bool) (st : List String) (c : String) : List String :=
  if c == ".." then
    match st with
    | top :: rest => if top == ".." then c :: st else rest
    | [] => if rooted then [] else [c]
  else c :: st

/-- The pieces of a path between its slashes, empty ones included. -/
def splitSlash : List Char → List (List Char)
  | [] => [[]]
  | c :: cs =>
    if c = '/' then [] :: splitSlash cs
    else
      match splitSlash cs with
      | [] => [[c]]
      | x :: xs => (c :: x) :: xs

/-- The slash-separated components of a path. -/
def components (p : String) : List String :=
  (splitSlash p.data).map String.mk

/-- Go `path.Clean`, in component form. -/
def pathClean (p : String) : String :=
  let rooted := p.data.head? == some '/'
  let comps := (components p).filter (fun c => c != "" && c != ".")
  let body := "/".intercalate (comps.foldl (cleanStep rooted) []).reverse
  if rooted then "/" ++ body else if body == "" then "." else body

/-- Go `path.Join`: empty elements are ignored, the rest is joined with
slashes and cleaned; no element at all gives the empty string. -/
def pathJoin (elems : List String) : String :=
  match elems.filter (fun e => e != "") with
  | [] => ""
  | es => pathClean ("/".intercalate es)

/-- No component of the path is "..". -/
def noDotDot (p : String) : Bool :=
  !(components p).contains ".."

/-- Go `strconv.Itoa`. -/
def Itoa : Int → String
  | Int.ofNat n => Nat.repr n
  | Int.negSucc n => "-" ++ Nat.repr (n + 1)

/-! ## `os/exec`: the environment of the child -/

/-- The key of an environment entry as `os/exec` reads it: the text before
the first `=`, where a `=` in first position counts as part of the key;
`none` for an entry without any `=`. -/
def envKey (kv : String) : Option String :=
  match kv.data with
  | '=' :: rest =>
    if '=' ∈ rest then some (String.mk ('=' :: rest.takeWhile (fun c => c != '=')))
    else some ""
  | cs => if '=' ∈ cs then some (String.mk (cs.takeWhile (fun c => c != '='))) else none

/-- The scan of `dedupEnv` over the reversed list: an entry whose key was
seen already is dropped, an entry without a key is kept unless it is
empty. -/
def dedupScan (saw : List String) : List String → List String
  | [] => []
  | kv :: rest =>
    match envKey kv with
    | none => if kv = "" then dedupScan saw rest else kv :: dedupScan saw rest
    | some k => if k ∈ saw then dedupScan saw rest else kv :: dedupScan (k :: saw) rest

/-- Go `dedupEnv` of `os/exec` (case-sensitive keys): of the entries with
the same key only the last stays, in its place.  `Cmd.Start` passes
`Cmd.Env` through it before the child is executed.  This is the scan of
the current Go releases; older ones leave the last value in the place of
the first entry of the key.  The entries are taken to hold no NUL byte:
with one, `Cmd.Start` fails. -/
def dedupEnv (env : List String) : List String :=
  (dedupScan [] env.reverse).reverse

/-- The environment of the child a launch call executes. -/
def Call.childEnv : Call → Option (List String)
  | Call.start _ env => some (dedupEnv env)
  | _ => none

/-! ## `instance.go` -/

/-- Instance state `stateTerminated`. -/
def stateTerminated : String := "terminated"

/-- Instance state `stateRunning`. -/
def stateRunning : String := "running"

/-- Go `os.Process`, as far as the core reads it. -/
structure Process where
  Pid : Int
deriving DecidableEq, Repr

/-- Go `exec.Cmd`: `Process` is nil until `Start` has succeeded. -/
structure Cmd where
  Path : String
  Env : List String
  Process : Option core.Process
deriving DecidableEq, Repr

/-- The `done` channel of an instance together with the goroutine that
sends `Cmd.Wait()` into it: the process that goroutine waits for, and
whether the one value it sends has already been received. -/
structure Chan where
  pid : Int
  drained : Bool
deriving DecidableEq, Repr

/-- Go `Instance` (the mutex is not modelled). -/
structure Instance where
  Name : String
  Cmd : core.Cmd
  Restartable : Bool
  Env : List String
  done : Option Chan
deriving DecidableEq, Repr

/-- Go `InstanceStatus`. -/
structure InstanceStatus where
  Name : String
  State : String
  Pid : Int
  Restartable : Bool
  Env : List String
deriving DecidableEq, Repr

/-- Go `exec.Command(path)` (no arguments), for a path that contains a
slash, as every path joined from a directory other than "" and "." does;
a name without a slash `exec.Command` replaces by the file found through
`$PATH`. -/
def Command (path : String) : Cmd :=
  { Path := path, Env := [], Process := none }

/-- Go `Cmd.Start`.  The call is logged with the `Env` field as it
stands; `os/exec` drops the repeated keys of that list before the child
is executed (`Call.childEnv`). -/
def Cmd.Start (c : Cmd) (w : World) (l : Launch) : Cmd × World × Option Err :=
  let w1 := w.log (Call.start c.Path c.Env)
  match l with
  | Launch.failed code => (c, w1, some (Err.sys code))
  | Launch.started pid _ =>
    ({ c with Process := some { Pid := pid } }, { w1 with live := pid :: w1.live }, none)

/-- Go `NewInstance`. -/
def NewInstance (name : String) (cmd : Cmd) (env : List String) (restart : Bool) : Instance :=
  { Name := name, Cmd := cmd, Env := env, Restartable := restart, done := none }

/-- Go `Instance.IsAlive`: dereferences `Cmd.Process`. -/
def Instance.IsAlive (inst : Instance) (w : World) : Exit Bool :=
  match inst.Cmd.Process with
  | none => Exit.panic
  | some p => Exit.ret (w.probe p.Pid)

/-- Go `Instance.Start`. -/
def Instance.Start (inst : Instance) (w : World) (l : Launch) : Instance × World × Option Err :=
  let r := inst.Cmd.Start w l
  ({ inst with Cmd := r.1 }, r.2.1, r.2.2)

/-- Go `Instance.Restart`: a fresh command for the same path, the ambient
environment followed by the stored one, started at once. -/
def Instance.Restart (inst : Instance) (w : World) (l : Launch) : Instance × World × Option Err :=
  let cmd := { Command inst.Cmd.Path with Env := w.environ ++ inst.Env }
  let r := cmd.Start w l
  ({ inst with Cmd := r.1 }, r.2.1, r.2.2)

/-- The error `Stop` returns when the grace period ends without `force`. -/
def errTimeout : Err := Err.new "The process couldn't be terminated correctly."

/-- When the `done` channel can be received from, counted from the
interrupt, and the value received; `none` when nothing ever arrives. -/
def delivery (w : World) (ch : Chan) (ev : StopEvents) : Option (Nat × Option Err) :=
  if ch.drained then none
  else if w.probe ch.pid then ev.exit.map (fun d => (d, sysErr ev.wait))
  else some (0, sysErr ev.wait)

/-- Case of the `select` in `Stop` that runs. -/
inductive Fired
  | timer
  | done (r : Option Err)
deriving DecidableEq, Repr

/-- Go `select` over `time.After(timeout)` and the `done` channel. -/
def selectFired (timeout : Int) (tie : Bool) : Option (Nat × Option Err) → Fired
  | none => Fired.timer
  | some (d, r) =>
    if (d : Int) < timeout then Fired.done r
    else if (d : Int) = max timeout 0 then (if tie then Fired.timer else Fired.done r)
    else Fired.timer

/-- The value the blocking receive `<-inst.done` after a delivered kill
gets, `none` when it is never served. -/
def awaited (w : World) (ch : Chan) (killed : Int) (ev : StopEvents) : Option (Option Err) :=
  if ch.drained then none
  else if ch.pid = killed then some (sysErr ev.wait)
  else (delivery w ch ev).map (fun x => x.2)

/-- Result of `Instance.Stop`: the instance and the world as the call
leaves them, and how the call ended. -/
structure StopRes where
  inst : Instance
  world : World
  out : Exit (Option Err)
deriving DecidableEq, Repr

/-- Go `Instance.Stop`. -/
def Instance.Stop (inst : Instance) (timeout : Int) (force : Bool) (w : World)
    (ev : StopEvents) : StopRes :=
  let inst1 := { inst with Restartable := false }
  match inst1.IsAlive w, inst1.Cmd.Process with
  | Exit.ret false, _ => { inst := inst1, world := w, out := Exit.ret none }
  | Exit.ret true, some p =>
    let ch : Chan := match inst1.done with
      | some c => c
      | none => { pid := p.Pid, drained := false }
    let w2 := if inst1.done.isNone then w.log (Call.wait p.Pid) else w
    let inst2 := { inst1 with done := some ch }
    let w3 := w2.log (Call.signal p.Pid Sig.interrupt)
    match ev.intr with
    | some code => { inst := inst2, world := w3, out := Exit.ret (some (Err.sys code)) }
    | none =>
      match selectFired timeout ev.tie (delivery w3 ch ev) with
      | Fired.done r =>
        { inst := { inst2 with done := some { ch with drained := true } },
          world := w3.reap ch.pid, out := Exit.ret r }
      | Fired.timer =>
        if !force then { inst := inst2, world := w3, out := Exit.ret (some errTimeout) }
        else
          let w4 := w3.log (Call.signal p.Pid Sig.kill)
          match ev.kill with
          | some code => { inst := inst2, world := w4, out := Exit.ret (some (Err.sys code)) }
          | none =>
            match awaited w4 ch p.Pid ev with
            | none => { inst := inst2, world := w4, out := Exit.block }
            | some _ =>
              { inst := { inst2 with done := some { ch with drained := true } },
                world := w4.reap ch.pid, out := Exit.ret none }
  | _, _ => { inst := inst1, world := w, out := Exit.panic }

/-- Go `Instance.Status`. -/
def Instance.Status (inst : Instance) (w : World) : Exit InstanceStatus :=
  match inst.Cmd.Process, inst.IsAlive w with
  | some p, Exit.ret alive =>
    Exit.ret { Name := inst.Name, Pid := p.Pid, Restartable := inst.Restartable, Env := inst.Env,
               State := if alive then stateRunning else stateTerminated }
  | _, _ => Exit.panic

/-! ## `cfg.go` and `supervisor.go` -/

/-- Go `Cfg`; `TermTimeout` is a `time.Duration` in nanoseconds. -/
structure Cfg where
  InstancesDir : String
  TermTimeout : Int
deriving DecidableEq, Repr

/-- Go `Supervisor`.  The map `instancesById` is an association list; the
order of its entries carries no meaning (the mutexes are not modelled). -/
structure Supervisor where
  instancesById : List (Int × Instance)
  cfg : Cfg
  lastId : Int
deriving DecidableEq, Repr

/-- Result of a registry operation: registry and world as the call leaves
them, and how the call ended. -/
structure SvRes (α : Type) where
  sv : Supervisor
  world : World
  out : Exit α

/-- Go `NewSupervisor`. -/
def NewSupervisor (cfg : Cfg) : Supervisor :=
  { instancesById := [], cfg := cfg, lastId := 0 }

/-- Identifiers that are keys of the map. -/
def Supervisor.ids (sv : Supervisor) : List Int :=
  sv.instancesById.map Prod.fst

/-- Go `addInstance`: `lastId++`, then `instancesById[id] = inst`. -/
def Supervisor.addInstance (sv : Supervisor) (inst : Instance) : Supervisor × Int :=
  let id := sv.lastId + 1
  ({ sv with lastId := id,
             instancesById := sv.instancesById.filter (fun e => e.1 != id) ++ [(id, inst)] }, id)

/-- Go `deleteInstance`: `delete(instancesById, id)`. -/
def Supervisor.deleteInstance (sv : Supervisor) (id : Int) : Supervisor :=
  { sv with instancesById := sv.instancesById.filter (fun e => e.1 != id) }

/-- Go `getInstance`: nil when `id` is not a key. -/
def Supervisor.getInstance (sv : Supervisor) (id : Int) : Option Instance :=
  sv.instancesById.lookup id

/-- The map holds pointers: what a method does to the instance found under
`id` is seen through the map.  Writes the instance back under its key. -/
def Supervisor.store (sv : Supervisor) (id : Int) (inst : Instance) : Supervisor :=
  { sv with instancesById := sv.instancesById.map (fun e => if e.1 = id then (e.1, inst) else e) }

/-- Go `getInstanceByPid`.  `visit` is the order in which `range` walks the
keys (Go leaves it unspecified); an identifier that is no key is skipped. -/
def Supervisor.getInstanceByPid (sv : Supervisor) (pid : Int) :
    List Int → Exit (Int × Option Instance)
  | [] => Exit.ret (0, none)
  | id :: rest =>
    match sv.getInstance id with
    | none => sv.getInstanceByPid pid rest
    | some inst =>
      match inst.Cmd.Process with
      | none => Exit.panic
      | some p => if p.Pid = pid then Exit.ret (id, some inst) else sv.getInstanceByPid pid rest

/-- Go `StartInstance`. -/
def Supervisor.StartInstance (sv : Supervisor) (w : World) (name : String) (env : List String)
    (restartable : Bool) (ev : StartEvents) : SvRes (Int × Option Err) :=
  if name = "" then
    { sv := sv, world := w, out := Exit.ret (0, some (Err.new "The instance name is empty.")) }
  else
    let instPath := pathJoin [sv.cfg.InstancesDir, name ++ ".lua"]
    let w1 := w.log (Call.lookPath instPath)
    match ev.look with
    | some code => { sv := sv, world := w1, out := Exit.ret (0, some (Err.sys code)) }
    | none =>
      let cmd := { Command instPath with Env := w1.environ ++ env }
      let r := (NewInstance name cmd env restartable).Start w1 ev.launch
      match r.2.2 with
      | some e => { sv := sv, world := r.2.1, out := Exit.ret (0, some e) }
      | none =>
        let a := sv.addInstance r.1
        { sv := a.1, world := r.2.1, out := Exit.ret (a.2, none) }

/-- Go `RestartAfterTermInstance`. -/
def Supervisor.RestartAfterTermInstance (sv : Supervisor) (w : World) (pid : Int)
    (visit : List Int) (l : Launch) : SvRes (Int × Option Err) :=
  match sv.getInstanceByPid pid visit with
  | Exit.ret (_, none) =>
    { sv := sv, world := w, out := Exit.ret (0, some (Err.new "Unknown Instance.")) }
  | Exit.ret (id, some inst) =>
    match inst.IsAlive w with
    | Exit.ret true =>
      { sv := sv, world := w, out := Exit.ret (id, some (Err.new "Instance is alive.")) }
    | Exit.ret false =>
      if !inst.Restartable then
        { sv := sv, world := w,
          out := Exit.ret (id, some (Err.new "The Restart Instance flag is false.")) }
      else
        let r := inst.Restart w l
        { sv := sv.store id r.1, world := r.2.1, out := Exit.ret (id, r.2.2) }
    | _ => { sv := sv, world := w, out := Exit.panic }
  | _ => { sv := sv, world := w, out := Exit.panic }

/-- Go `StopInstance`. -/
def Supervisor.StopInstance (sv : Supervisor) (w : World) (id : Int) (force : Bool)
    (ev : StopEvents) : SvRes (Option Err) :=
  match sv.getInstance id with
  | none =>
    { sv := sv, world := w, out := Exit.ret (some (Err.new ("Unknown instance with id " ++ Itoa id))) }
  | some inst =>
    let r := inst.Stop sv.cfg.TermTimeout force w ev
    match r.out with
    | Exit.ret none =>
      { sv := (sv.store id r.inst).deleteInstance id, world := r.world, out := Exit.ret none }
    | o => { sv := sv.store id r.inst, world := r.world, out := o }

/-- The goroutines of `StopAllInstances`, run one after another in the
order `visit`: each stops its instance with `force = true` and then
deletes the identifier.  A panic ends the program; a goroutine that
blocks never reaches its `deleteInstance`, and `wg.Wait()` never returns. -/
def Supervisor.stopEach (sv : Supervisor) (w : World) (evs : Int → StopEvents) :
    List Int → SvRes Unit
  | [] => { sv := sv, world := w, out := Exit.ret () }
  | id :: rest =>
    match sv.getInstance id with
    | none => sv.stopEach w evs rest
    | some inst =>
      let r := inst.Stop sv.cfg.TermTimeout true w (evs id)
      match r.out with
      | Exit.ret _ => ((sv.store id r.inst).deleteInstance id).stopEach r.world evs rest
      | Exit.panic => { sv := sv.store id r.inst, world := r.world, out := Exit.panic }
      | Exit.block =>
        let t := (sv.store id r.inst).stopEach r.world evs rest
        { sv := t.sv, world := t.world,
          out := match t.out with
            | Exit.panic => Exit.panic
            | _ => Exit.block }

/-- Go `StopAllInstances`: `visit` is the order in which `range` walks the
keys, `evs id` what happens while the instance `id` is being stopped. -/
def Supervisor.StopAllInstances (sv : Supervisor) (w : World) (visit : List Int)
    (evs : Int → StopEvents) : SvRes Unit :=
  sv.stopEach w evs visit

/-- Go `GetInstanceStatus`: `(nil, error)` or `(status, nil)`. -/
def Supervisor.GetInstanceStatus (sv : Supervisor) (w : World) (id : Int) :
    Exit (Option InstanceStatus × Option Err) :=
  match sv.getInstance id with
  | none => Exit.ret (none, some (Err.new ("Unknown instance with id " ++ Itoa id)))
  | some inst =>
    match inst.Status w with
    | Exit.ret st => Exit.ret (some st, none)
    | Exit.panic => Exit.panic
    | Exit.block => Exit.block

/-- The loop of `ListInstances` over the entries still to visit: `acc` is
the map built so far, `instsMap[strconv.Itoa(id)] = inst.Status()`. -/
def listLoop (w : World) (acc : List (String × InstanceStatus)) :
    List (Int × Instance) → Exit (List (String × InstanceStatus))
  | [] => Exit.ret acc
  | (id, inst) :: rest =>
    match inst.Status w with
    | Exit.ret st => listLoop w (acc.filter (fun e => e.1 != Itoa id) ++ [(Itoa id, st)]) rest
    | _ => Exit.panic

/-- Go `ListInstances`. -/
def Supervisor.ListInstances (sv : Supervisor) (w : World) :
    Exit (List (String × InstanceStatus)) :=
  listLoop w [] sv.instancesById

/-! ## Runs of the registry -/

/-- One step of a run: a registry operation with what the OS does during
it, or a child that dies on its own and is reaped. -/
inductive Op
  | start (name : String) (env : List String) (restartable : Bool) (ev : StartEvents)
  | stop (id : Int) (force : Bool) (ev : StopEvents)
  | restartAfterTerm (pid : Int) (visit : List Int) (l : Launch)
  | stopAll (visit : List Int) (evs : Int → StopEvents)
  | death (pid : Int)

/-- Registry and world after one step. -/
def stepState (sv : Supervisor) (w : World) : Op → Supervisor × World
  | Op.start name env restartable ev =>
    let r := sv.StartInstance w name env restartable ev
    (r.sv, r.world)
  | Op.stop id force ev =>
    let r := sv.StopInstance w id force ev
    (r.sv, r.world)
  | Op.restartAfterTerm pid visit l =>
    let r := sv.RestartAfterTermInstance w pid visit l
    (r.sv, r.world)
  | Op.stopAll visit evs =>
    let r := sv.StopAllInstances w visit evs
    (r.sv, r.world)
  | Op.death pid => (sv, w.reap pid)

/-- The identifier a step hands out: that of a `StartInstance` that
returned without error. -/
def stepId (sv : Supervisor) (w : World) : Op → Option Int
  | Op.start name env restartable ev =>
    match (sv.StartInstance w name env restartable ev).out with
    | Exit.ret (id, none) => some id
    | _ => none
  | _ => none

/-- Registry and world after a run. -/
def runState (sv : Supervisor) (w : World) : List Op → Supervisor × World
  | [] => (sv, w)
  | op :: rest => runState (stepState sv w op).1 (stepState sv w op).2 rest

/-- Identifiers returned by the successful `StartInstance` calls of a run,
in call order. -/
def startedIds (sv : Supervisor) (w : World) : List Op → List Int
  | [] => []
  | op :: rest =>
    match stepId sv w op with
    | some id => id :: startedIds (stepState sv w op).1 (stepState sv w op).2 rest
    | none => startedIds (stepState sv w op).1 (stepState sv w op).2 rest

/-! ## Scenario predicates -/

/-- The awaited process is still running when the timer of `Stop` fires:
it never exits on its own, or exits later than `time.After(timeout)`. -/
def StopEvents.outlasts (ev : StopEvents) (timeout : Int) : Bool :=
  match ev.exit with
  | none => true
  | some d => decide (max timeout 0 < (d : Int))

/-- The awaited process exits on its own before `time.After(timeout)`
fires. -/
def StopEvents.exitsWithin (ev : StopEvents) (timeout : Int) : Bool :=
  match ev.exit with
  | none => false
  | some d => decide ((d : Int) < timeout)

/-- The exit-wait of the instance is in order for the process `p`: there is
none yet, or the one there is waits for `p` and its value has not been
received. -/
def Instance.waitsFor (inst : Instance) (p : Process) : Bool :=
  match inst.done with
  | none => true
  | some ch => decide (ch.pid = p.Pid) && !ch.drained

/-- From registry `a` to registry `b` the counter did not go back, and every
instance `b` holds under an identifier up to the counter of `a` was held
by `a` under that identifier, with its flag cleared in `b` if it was
cleared in `a`. -/
def Supervisor.flagsStayCleared (a b : Supervisor) : Prop :=
  a.lastId ≤ b.lastId
    ∧ ∀ k, k ≤ a.lastId → ∀ i, b.getInstance k = some i →
        ∃ i0, a.getInstance k = some i0 ∧ (i0.Restartable = false → i.Restartable = false)

/-- No registered instance has a process with this PID. -/
def Supervisor.pidFree (sv : Supervisor) (pid : Int) : Prop :=
  ∀ id inst p, sv.getInstance id = some inst → inst.Cmd.Process = some p → p.Pid ≠ pid

/-- The kernel does not hand out a PID that a registered instance still
holds: the PID a launch made in this step yields, if any, is free. -/
def freshStep (sv : Supervisor) : Op → Prop
  | Op.start _ _ _ ev =>
    match ev.launch with
    | Launch.started pid _ => sv.pidFree pid
    | Launch.failed _ => True
  | Op.restartAfterTerm _ _ l =>
    match l with
    | Launch.started pid _ => sv.pidFree pid
    | Launch.failed _ => True
  | _ => True

/-- Every step of the run satisfies `freshStep` in the registry it starts
from. -/
def freshRun (sv : Supervisor) (w : World) : List Op → Prop
  | [] => True
  | op :: rest => freshStep sv op ∧ freshRun (stepState sv w op).1 (stepState sv w op).2 rest

/-- The exit-wait of the instance is consistent with the world: there is
none, or the flag is cleared and the exit-wait waits for the current
process, which no longer answers the probe if the value has been
received. -/
def Instance.waitOk (inst : Instance) (w : World) : Prop :=
  match inst.done with
  | none => True
  | some ch =>
    inst.Restartable = false
      ∧ ∃ p, inst.Cmd.Process = some p ∧ ch.pid = p.Pid
          ∧ (ch.drained = true → w.probe p.Pid = false)

/-- Every registered instance satisfies `waitOk`. -/
def Supervisor.waitsOk (sv : Supervisor) (w : World) : Prop :=
  ∀ id inst, sv.getInstance id = some inst → inst.waitOk w

/-- Every registered instance has a started process: `Cmd.Process` is not
nil. -/
def Supervisor.allStarted (sv : Supervisor) : Bool :=
  sv.instancesById.all (fun e => e.2.Cmd.Process.isSome)

/-! ## `main.go`: `handleZombie` -/

/-- What `syscall.Wait4(-1, nil, syscall.WNOHANG, nil)` returns: the PID,
and the code of the `syscall.Errno` if there is an error. -/
structure Reaped where
  pid : Int
  err : Option Nat
deriving DecidableEq, Repr

/-- A line `handleZombie` writes with `log.Printf`. -/
inductive LogLine
  | waitFailed (code : Nat)
  | restartFailed (pid : Int) (id : Int) (e : Err)
  | restarted (id : Int)
deriving DecidableEq, Repr

/-- Result of `handleZombie`: registry and world as the call leaves them,
the lines logged, the PIDs handed to `RestartAfterTermInstance` (in call
order), and how the call ended. -/
structure ZombieRes where
  sv : Supervisor
  world : World
  logs : List LogLine
  asked : List Int
  out : Exit Unit

/-- Go `handleZombie`.  `syscall.Errno(10)` is "no child processes"; a child
that `Wait4` returns has been waited for. -/
def handleZombie (sv : Supervisor) (w : World) (r : Reaped) (visit : List Int) (l : Launch) :
    ZombieRes :=
  let w1 := w.log Call.wait4
  if r.pid = 0 ∨ r.err = some 10 then
    { sv := sv, world := w1, logs := [], asked := [], out := Exit.ret () }
  else
    match r.err with
    | some code =>
      { sv := sv, world := w1, logs := [LogLine.waitFailed code], asked := [],
        out := Exit.ret () }
    | none =>
      let res := sv.RestartAfterTermInstance (w1.reap r.pid) r.pid visit l
      match res.out with
      | Exit.ret (id, some e) =>
        { sv := res.sv, world := res.world, logs := [LogLine.restartFailed r.pid id e],
          asked := [r.pid], out := Exit.ret () }
      | Exit.ret (id, none) =>
        { sv := res.sv, world := res.world, logs := [LogLine.restarted id],
          asked := [r.pid], out := Exit.ret () }
      | Exit.panic =>
        { sv := res.sv, world := res.world, logs := [], asked := [r.pid], out := Exit.panic }
      | Exit.block =>
        { sv := res.sv, world := res.world, logs := [], asked := [r.pid], out := Exit.block }

/-! ## The termination barrier (`termMutex`) -/

/-- What a goroutine holds of `termMutex`. -/
inductive Hold
  | free
  | read
  | write
deriving DecidableEq, Repr

/-- The pieces of work in the bodies of `StartInstance`, `StopInstance`,
`RestartAfterTermInstance` and of the goroutines of `StopAllInstances`, in
the order of the source. -/
inductive Work
  /-- `if name == ""`. -/
  | checkName
  /-- `exec.LookPath(instPath)`. -/
  | lookPath
  /-- `exec.Command`, `NewInstance`, `inst.Start()`. -/
  | launch
  /-- `sv.addInstance(inst)`. -/
  | addInstance
  /-- `sv.getInstance(id)`. -/
  | getInstance
  /-- `inst.Stop(sv.cfg.TermTimeout, force)`. -/
  | stop
  /-- `sv.deleteInstance(id)` in `StopInstance`. -/
  | deleteInstance
  /-- `sv.getInstanceByPid(pid)`. -/
  | getInstanceByPid
  /-- `inst.IsAlive()`. -/
  | isAlive
  /-- `!inst.Restartable`. -/
  | readFlag
  /-- `inst.Restart()`. -/
  | restart
  /-- `inst.Stop(sv.cfg.TermTimeout, true)` in a goroutine of
  `StopAllInstances`. -/
  | stopForced
  /-- `sv.deleteInstance(id)` in a goroutine of `StopAllInstances`. -/
  | deleteStopped
deriving DecidableEq, Repr

/-- The work is followed by a conditional `return` in the source. -/
def Work.returns : Work → Bool
  | Work.checkName => true
  | Work.lookPath => true
  | Work.launch => true
  | Work.addInstance => true
  | Work.getInstance => true
  | Work.stop => true
  | Work.deleteInstance => false
  | Work.getInstanceByPid => true
  | Work.isAlive => true
  | Work.readFlag => true
  | Work.restart => true
  | Work.stopForced => false
  | Work.deleteStopped => false

/-- One statement of a body, as far as `termMutex` and the wait group of
`StopAllInstances` are concerned. -/
inductive Step
  /-- `sv.termMutex.RLock()`. -/
  | rlock
  /-- `sv.termMutex.RUnlock()`. -/
  | runlock
  /-- `sv.termMutex.Lock()`. -/
  | lock
  /-- `sv.termMutex.Unlock()`. -/
  | unlock
  /-- `defer` of a statement. -/
  | deferred (s : Step)
  | work (a : Work)
  /-- One iteration of the `range` loop of `StopAllInstances`:
  `wg.Add(1)` and `go func(id, inst)`. -/
  | spawn
  /-- `wg.Wait()`. -/
  | wgWait
  /-- `wg.Done()`. -/
  | wgDone
deriving DecidableEq, Repr

/-- Body of `StartInstance`. -/
def startSteps : List Step :=
  [Step.rlock, Step.deferred Step.runlock, Step.work Work.checkName, Step.work Work.lookPath,
   Step.work Work.launch, Step.work Work.addInstance]

/-- Body of `RestartAfterTermInstance`. -/
def restartSteps : List Step :=
  [Step.work Work.getInstanceByPid, Step.rlock, Step.deferred Step.runlock,
   Step.work Work.isAlive, Step.work Work.readFlag, Step.work Work.restart]

/-- Body of `StopInstance`. -/
def stopSteps : List Step :=
  [Step.rlock, Step.deferred Step.runlock, Step.work Work.getInstance, Step.work Work.stop,
   Step.work Work.deleteInstance]

/-- Body of `StopAllInstances` when the registry holds `n` instances. -/
def stopAllSteps (n : Nat) : List Step :=
  [Step.lock, Step.deferred Step.unlock] ++ List.replicate n Step.spawn ++ [Step.wgWait]

/-- Body of a goroutine launched by `StopAllInstances`. -/
def childSteps : List Step :=
  [Step.work Work.stopForced, Step.work Work.deleteStopped, Step.wgDone]

/-- A call of one of the four operations. -/
inductive Request
  | start
  | stop
  | restartAfterTerm
  | stopAll (n : Nat)
deriving DecidableEq, Repr

/-- The body a request runs. -/
def Request.steps : Request → List Step
  | Request.start => startSteps
  | Request.stop => stopSteps
  | Request.restartAfterTerm => restartSteps
  | Request.stopAll n => stopAllSteps n

/-- A goroutine: a request, or a goroutine launched by the
`StopAllInstances` call `parent`. -/
structure Thread where
  parent : Option Nat
  /-- What it holds of `termMutex`. -/
  hold : Hold
  /-- Statements of its body still to run. -/
  rem : List Step
  /-- Calls deferred so far, the last one first. -/
  defers : List Step
  /-- Counter of its `sync.WaitGroup`. -/
  wg : Nat
deriving DecidableEq, Repr

/-- The statement a goroutine runs next: the next one of its body, or, the
body done, the call deferred last. -/
def Thread.next (th : Thread) : Option Step :=
  match th.rem with
  | x :: _ => some x
  | [] => th.defers.head?

/-- The goroutine with its next statement taken off. -/
def Thread.advance (th : Thread) : Thread :=
  match th.rem with
  | _ :: r => { th with rem := r }
  | [] => { th with defers := th.defers.tail }

/-- A goroutine about to run the body of a request. -/
def Request.thread (r : Request) : Thread :=
  { parent := none, hold := Hold.free, rem := r.steps, defers := [], wg := 0 }

/-- A goroutine launched by the `StopAllInstances` call `p`. -/
def childThread (p : Nat) : Thread :=
  { parent := some p, hold := Hold.free, rem := childSteps, defers := [], wg := 0 }

/-- The barrier `termMutex` and the goroutines. -/
structure Sys where
  /-- The goroutine holding `termMutex` for writing. -/
  writer : Option Nat
  /-- How many goroutines hold `termMutex` for reading. -/
  readers : Nat
  threads : List Thread
deriving DecidableEq, Repr

/-- The requests `reqs` have been issued and none has run a statement. -/
def Sys.init (reqs : List Request) : Sys :=
  { writer := none, readers := 0, threads := reqs.map Request.thread }

/-- Goroutine `t` runs its next statement; `none` when it has none left or
the statement blocks.  At a work followed by a conditional `return`, `ret`
tells whether the function returns there.  `RLock` goes through when no
goroutine holds the barrier for writing (Go also holds it up while a
writer waits, so a Go schedule is a schedule here), `Lock` when no
goroutine holds the barrier at all. -/
def Sys.step (s : Sys) (t : Nat) (ret : Bool) : Option Sys :=
  match s.threads[t]? with
  | none => none
  | some th =>
    match th.next with
    | none => none
    | some Step.rlock =>
      if s.writer = none then
        some { s with readers := s.readers + 1,
                      threads := s.threads.set t { th.advance with hold := Hold.read } }
      else none
    | some Step.runlock =>
      if th.hold = Hold.read then
        some { s with readers := s.readers - 1,
                      threads := s.threads.set t { th.advance with hold := Hold.free } }
      else none
    | some Step.lock =>
      if s.writer = none ∧ s.readers = 0 then
        some { s with writer := some t,
                      threads := s.threads.set t { th.advance with hold := Hold.write } }
      else none
    | some Step.unlock =>
      if th.hold = Hold.write then
        some { s with writer := none,
                      threads := s.threads.set t { th.advance with hold := Hold.free } }
      else none
    | some (Step.deferred x) =>
      some { s with threads :=
        s.threads.set t { th.advance with defers := x :: th.advance.defers } }
    | some (Step.work a) =>
      some { s with threads :=
        s.threads.set t (if ret && a.returns then { th.advance with rem := [] }
                         else th.advance) }
    | some Step.spawn =>
      some { s with threads :=
        s.threads.set t { th.advance with wg := th.wg + 1 } ++ [childThread t] }
    | some Step.wgWait =>
      if th.wg = 0 then some { s with threads := s.threads.set t th.advance } else none
    | some Step.wgDone =>
      match th.parent with
      | none => none
      | some p =>
        match (s.threads.set t th.advance)[p]? with
        | none => none
        | some pt =>
          some { s with threads :=
            (s.threads.set t th.advance).set p { pt with wg := pt.wg - 1 } }

/-- A schedule: which goroutine is given the next turn, and whether its
work returns.  A goroutine that cannot run loses its turn. -/
def Sys.run (s : Sys) : List (Nat × Bool) → Sys
  | [] => s
  | (t, ret) :: rest => Sys.run ((s.step t ret).getD s) rest

/-- The goroutine has run its body and its deferred calls. -/
def Thread.finished (th : Thread) : Bool :=
  th.rem.isEmpty && th.defers.isEmpty

/-! ## The barrier under every schedule: what stays true -/

/-- What the goroutine holds of `termMutex` when the source reaches this
work: nothing at the lookup by PID, which `RestartAfterTermInstance` does
before `RLock`, and in the goroutines of `StopAllInstances`, which take no
lock themselves; the read lock everywhere else. -/
def Work.needs : Work → Hold
  | Work.getInstanceByPid => Hold.free
  | Work.stopForced => Hold.free
  | Work.deleteStopped => Hold.free
  | _ => Hold.read

/-- The work belongs to the goroutines launched by `StopAllInstances`. -/
def Work.inGoroutine : Work → Bool
  | Work.stopForced => true
  | Work.deleteStopped => true
  | _ => false

/-- A `wg.Wait()` is still to come in these statements. -/
def waits : List Step → Bool
  | [] => false
  | Step.wgWait :: _ => true
  | _ :: r => waits r

/-- The deferred calls `d` release exactly what is held. -/
def unwinds : Hold → List Step → Bool
  | Hold.free, [] => true
  | Hold.read, Step.runlock :: d => unwinds Hold.free d
  | Hold.write, Step.unlock :: d => unwinds Hold.free d
  | _, _ => false

/-- The statements `rem` of a request, run from hold `h` with the deferred
calls `d`, lock and unlock in turn, defer a call only while holding the
barrier, do each work under the hold of `Work.needs` and none of the
goroutines of `StopAllInstances`, launch goroutines only under the write
lock and with a `wg.Wait()` ahead, give the write lock back only after it,
and release everything at every `return`. -/
def okOp : List Step → Hold → List Step → Bool
  | [], h, d => unwinds h d
  | Step.rlock :: r, h, d => h == Hold.free && okOp r Hold.read d
  | Step.lock :: r, h, d => h == Hold.free && okOp r Hold.write d
  | Step.runlock :: r, h, d => h == Hold.read && okOp r Hold.free d
  | Step.unlock :: r, h, d => h == Hold.write && !waits r && okOp r Hold.free d
  | Step.deferred x :: r, h, d => h != Hold.free && okOp r h (x :: d)
  | Step.work a :: r, h, d =>
    a.needs == h && !a.inGoroutine && (!a.returns || unwinds h d) && okOp r h d
  | Step.spawn :: r, h, d => h == Hold.write && waits r && okOp r Hold.write d
  | Step.wgWait :: r, h, d => h == Hold.write && okOp r Hold.write d
  | Step.wgDone :: _, _, _ => false

/-- A goroutine of `StopAllInstances` is somewhere in `childSteps`, holds
nothing and has deferred nothing. -/
def okChild (th : Thread) : Bool :=
  th.hold == Hold.free && th.defers.isEmpty && th.wg == 0
    && (th.rem == childSteps || th.rem == [Step.work Work.deleteStopped, Step.wgDone]
        || th.rem == [Step.wgDone] || th.rem.isEmpty)

/-- The goroutine is where its body allows. -/
def Thread.ok (th : Thread) : Bool :=
  match th.parent with
  | none => okOp th.rem th.hold th.defers
  | some _ => okChild th

/-- A goroutine launched by `p` that has not yet called `wg.Done()`. -/
def pendingOf (p : Nat) (th : Thread) : Bool :=
  th.parent == some p && !th.rem.isEmpty

/-- What every schedule keeps true. -/
structure Sys.Inv (s : Sys) : Prop where
  ok : ∀ (t : Nat) (th : Thread), s.threads[t]? = some th → th.ok = true
  writer : ∀ (t : Nat) (th : Thread), s.threads[t]? = some th → (th.hold = Hold.write ↔ s.writer = some t)
  readers : s.readers = s.threads.countP (fun th => th.hold == Hold.read)
  excl : s.writer ≠ none → s.readers = 0
  wg : ∀ (p : Nat) (pt : Thread), s.threads[p]? = some pt → pt.wg = s.threads.countP (pendingOf p)
  parent : ∀ (c : Nat) (ct : Thread) (p : Nat), s.threads[c]? = some ct → ct.parent = some p → ct.rem ≠ [] →
    ∃ pt : Thread, s.threads[p]? = some pt ∧ pt.parent = none ∧ pt.hold = Hold.write
      ∧ waits pt.rem = true
  bound : ∀ (c : Nat) (ct : Thread) (p : Nat), s.threads[c]? = some ct → ct.parent = some p → p < s.threads.length

/-! ## `api/supervisorhttp/parser.go` -/

/-- A Go value of type `interface{}` as `encoding/json` decodes it: nil, a
`bool`, a `float64` (every JSON number), a `string`, a slice or a map. -/
inductive JVal
  | null
  | bool (b : Bool)
  | num (x : Rat)
  | str (s : String)
  | arr (l : List JVal)
  | obj (m : List (String × JVal))

/-- Go `commandJSON`.  The map `Params` is an association list, `none` the
nil map: what `Decode` leaves when the request has no `params` member, or
a null one. -/
structure commandJSON where
  Name : String
  Params : Option (List (String × JVal))

/-- Go `paramSpec`; `Default` is an `interface{}`, `none` is nil. -/
structure paramSpec where
  Required : Bool
  Default : Option JVal

/-- Go `cmdParamsSpec`. -/
def cmdParamsSpec : List (String × List (String × paramSpec)) :=
  [("start", [("name", { Required := true, Default := none }),
              ("env", { Required := false, Default := none }),
              ("restartable", { Required := false, Default := some (JVal.bool true) })]),
   ("stop", [("id", { Required := true, Default := none }),
             ("force", { Required := false, Default := some (JVal.bool true) })]),
   ("status", [("id", { Required := true, Default := none })]),
   ("list", [])]

/-- Go `commandParams`. -/
structure commandParams where
  ID : Int
  Name : String
  Env : List String
  Restartable : Bool
  Force : Bool
deriving DecidableEq, Repr

/-- Go `command`. -/
structure command where
  Name : String
  Params : commandParams
deriving DecidableEq, Repr

/-- The zero value of `command`, as `var cmd command` in `ServeHTTP`. -/
def command.zero : command :=
  { Name := "", Params := { ID := 0, Name := "", Env := [], Restartable := false,
                            Force := false } }

/-- The comma-ok read `_, ok := m[key]`; reading a nil map finds nothing. -/
def hasKey (m : Option (List (String × JVal))) (key : String) : Bool :=
  match m with
  | none => false
  | some l => l.any (fun e => e.1 == key)

/-- Go `len(m)`. -/
def lenParams (m : Option (List (String × JVal))) : Nat :=
  match m with
  | none => 0
  | some l => l.length

/-- How the loop over the spec of the command ends. -/
inductive Checked
  /-- It ran through: the map with the defaults written into it, and
  `checkedParamsCount`. -/
  | done (params : Option (List (String × JVal))) (count : Nat)
  /-- It returned the error for a required parameter that is absent. -/
  | absent (paramName : String)
  /-- The write `cmdJSON.Params[paramName] = spec.Default` met the nil map:
  Go panics with "assignment to entry in nil map". -/
  | nilMap

/-- The loop `for paramName, spec := range cmdSpec`: the names still to
visit, in the order `range` takes them, the map and the count so far. -/
def checkParams (cmdSpec : List (String × paramSpec)) :
    List String → Option (List (String × JVal)) → Nat → Checked
  | [], params, count => Checked.done params count
  | paramName :: rest, params, count =>
    match cmdSpec.lookup paramName with
    | none => checkParams cmdSpec rest params count
    | some spec =>
      if hasKey params paramName then checkParams cmdSpec rest params (count + 1)
      else if spec.Required then Checked.absent paramName
      else
        match spec.Default with
        | some d =>
          match params with
          | none => Checked.nilMap
          | some m => checkParams cmdSpec rest (some (m ++ [(paramName, d)])) (count + 1)
        | none => checkParams cmdSpec rest params count

/-- The loop `for paramName := range cmdJSON.Params`: the first name, in the
order `range` takes them, that is a key of the map and not of the spec. -/
def unknownParam (cmdSpec : List (String × paramSpec)) (params : Option (List (String × JVal))) :
    List String → Option String
  | [] => none
  | paramName :: rest =>
    if hasKey params paramName && (cmdSpec.lookup paramName).isNone then some paramName
    else unknownParam cmdSpec params rest

/-- What `parseCommand` takes from `github.com/mitchellh/mapstructure`
without fixing it: the text of its error. -/
structure Mapstructure where
  /-- The error text for the fields that could not be decoded. -/
  text : List String → String

/-- Go `int64(x)` for a `float64`, as on amd64: the value cut towards
zero, and `-2^63` when that is outside `int64`.  Go `int` has 64 bits
there. -/
def floatToInt64 (x : Rat) : Int :=
  let t := x.num.tdiv x.den
  if -9223372036854775808 ≤ t ∧ t ≤ 9223372036854775807 then t else -9223372036854775808

/-- Decoding into an `int` field: an absent key or nil leaves the field,
a number is converted with `int64(x)`, anything else is a type error
(`none`). -/
def decodeInt (old : Int) : Option JVal → Option Int
  | none => some old
  | some JVal.null => some old
  | some (JVal.num x) => some (floatToInt64 x)
  | some _ => none

/-- Decoding into a `string` field. -/
def decodeString (old : String) : Option JVal → Option String
  | none => some old
  | some JVal.null => some old
  | some (JVal.str s) => some s
  | some _ => none

/-- Decoding into a `bool` field. -/
def decodeBool (old : Bool) : Option JVal → Option Bool
  | none => some old
  | some JVal.null => some old
  | some (JVal.bool b) => some b
  | some _ => none

/-- Decoding the elements of a slice of strings: for each element the
string to store, `none` where the slot is left as it is (a nil element, or
one that is not a string). -/
def elemSlots : List JVal → List (Option String)
  | [] => []
  | JVal.str s :: rest => some s :: elemSlots rest
  | _ :: rest => none :: elemSlots rest

/-- Whether every element of the slice is a string or nil. -/
def elemsOk : List JVal → Bool
  | [] => true
  | JVal.str _ :: rest => elemsOk rest
  | JVal.null :: rest => elemsOk rest
  | _ :: _ => false

/-- The slice `decodeSlice` of `mapstructure` sets: the previous slice is
reused, a slot the input leaves open keeps its string (the empty string
where the slice is grown), and what the previous slice held beyond the
length of the input stays. -/
def storeSlice : List String → List (Option String) → List String
  | old, [] => old
  | [], e :: rest => e.getD "" :: storeSlice [] rest
  | o :: old, e :: rest => e.getD o :: storeSlice old rest

/-- Decoding into a `[]string` field: the slice set, and whether no error
was met.  An absent key or nil leaves the field; an array is stored
element by element, also when one of its elements fails; anything else is
a type error. -/
def decodeSlice (old : List String) : Option JVal → List String × Bool
  | none => (old, true)
  | some JVal.null => (old, true)
  | some (JVal.arr l) => (storeSlice old (elemSlots l), elemsOk l)
  | some _ => (old, false)

/-- The fields of `commandParams` decoded from the map, and the names of
the fields that failed; a field that fails keeps its value.  By now every
key of the map is a key of the spec, so a field can only be matched by its
lower-case name. -/
def decodeParams (m : List (String × JVal)) (p : commandParams) :
    commandParams × List String :=
  let id := decodeInt p.ID (m.lookup "id")
  let name := decodeString p.Name (m.lookup "name")
  let env := decodeSlice p.Env (m.lookup "env")
  let restartable := decodeBool p.Restartable (m.lookup "restartable")
  let force := decodeBool p.Force (m.lookup "force")
  ({ ID := id.getD p.ID, Name := name.getD p.Name, Env := env.1,
     Restartable := restartable.getD p.Restartable, Force := force.getD p.Force },
   (if id.isNone then ["ID"] else []) ++ (if name.isNone then ["Name"] else [])
     ++ (if env.2 then [] else ["Env"]) ++ (if restartable.isNone then ["Restartable"] else [])
     ++ (if force.isNone then ["Force"] else []))

/-- The call `mapstructure.Decode(cmdJSON, cmd)`: the command written, and
the error text if a field failed. -/
def mapstructureDecode (ms : Mapstructure) (cmdJSON : commandJSON) (cmd : command) :
    command × Option String :=
  let r := match cmdJSON.Params with
    | none => (cmd.Params, [])
    | some m => decodeParams m cmd.Params
  ({ Name := cmdJSON.Name, Params := r.1 }, if r.2.isEmpty then none else some (ms.text r.2))

/-- Go `parseCommand`.  `dec` is what `decoder.Decode(&cmdJSON)` gives: an
error, or the decoded request; `visitSpec` and `visitParams` are the orders
in which the two `range` loops take their keys; `cmd` is the command the
pointer refers to, returned as the call leaves it. -/
def parseCommand (ms : Mapstructure) (dec : Except Nat commandJSON)
    (visitSpec visitParams : List String) (cmd : command) : command × Exit (Option Err) :=
  match dec with
  | Except.error code => (cmd, Exit.ret (some (Err.sys code)))
  | Except.ok cmdJSON =>
    match cmdParamsSpec.lookup cmdJSON.Name with
    | none =>
      (cmd, Exit.ret (some (Err.new ("Unknown command name: \"" ++ cmdJSON.Name ++ "\"."))))
    | some cmdSpec =>
      match checkParams cmdSpec visitSpec cmdJSON.Params 0 with
      | Checked.absent paramName =>
        (cmd, Exit.ret (some (Err.new
          ("A required parameter \"" ++ paramName ++ "\" is absent."))))
      | Checked.nilMap => (cmd, Exit.panic)
      | Checked.done params count =>
        match (if lenParams params != count then unknownParam cmdSpec params visitParams
               else none) with
        | some paramName =>
          (cmd, Exit.ret (some (Err.new ("Unknown parameter \"" ++ paramName ++ "\"."))))
        | none =>
          let r := mapstructureDecode ms { cmdJSON with Params := params } cmd
          (r.1, Exit.ret (r.2.map
            (fun t => Err.new ("Failed to parse command params: \"" ++ t ++ "\""))))

/-- An error text that lists the failed fields. -/
def msT : Mapstructure :=
  { text := fun fields => ", ".intercalate fields }

/-- The value of a member of the config document, as `json.Unmarshal`
meets it when it fills a `Cfg`. -/
inductive CfgVal
  | null
  | str (s : String)
  /-- A number written as an integer. -/
  | int (n : Int)
  /-- Anything else: a bool, a number with a fraction or an exponent, an
  array, an object. -/
  | other
deriving DecidableEq, Repr

/-- What the bytes of the config file are to `json.Unmarshal`. -/
inductive CfgDoc
  /-- Not one JSON value: a syntax error with this code. -/
  | invalid (code : Nat)
  | null
  /-- An object, its members in the order of the file. -/
  | object (members : List (String × CfgVal))
  /-- An array, a string, a number or a bool. -/
  | other
deriving DecidableEq, Repr

/-- The two fields of `Cfg`. -/
inductive CfgField
  | instancesDir
  | termTimeout
deriving DecidableEq, Repr

/-- The field a key of the document addresses: the one whose tag it is, or
else the one whose tag it equals under the case folding of
`encoding/json`, which is the argument `fold`. -/
def cfgField (fold : String → String → Bool) (key : String) : Option CfgField :=
  if key = "instances_dir" then some CfgField.instancesDir
  else if key = "termination_timeout" then some CfgField.termTimeout
  else if fold key "instances_dir" then some CfgField.instancesDir
  else if fold key "termination_timeout" then some CfgField.termTimeout
  else none

/-- The `UnmarshalTypeError` of `encoding/json` (its text is not used). -/
def errUnmarshalType : Err := Err.new "json: cannot unmarshal"

/-- One member of the document decoded into the `Cfg`: a key that
addresses no field is skipped, null leaves the field, a string goes to
`InstancesDir`, an integer that fits `int64` to `TermTimeout`; anything
else is a type error, of which `Unmarshal` keeps the first and goes on. -/
def unmarshalMember (fold : String → String → Bool) (st : Cfg × Option Err)
    (m : String × CfgVal) : Cfg × Option Err :=
  match cfgField fold m.1, m.2 with
  | none, _ => st
  | some _, CfgVal.null => st
  | some CfgField.instancesDir, CfgVal.str s => ({ st.1 with InstancesDir := s }, st.2)
  | some CfgField.termTimeout, CfgVal.int n =>
    if -9223372036854775808 ≤ n ∧ n ≤ 9223372036854775807 then
      ({ st.1 with TermTimeout := n }, st.2)
    else (st.1, st.2.or (some errUnmarshalType))
  | some _, _ => (st.1, st.2.or (some errUnmarshalType))

/-- Go `json.Unmarshal(byteValue, &cfg)`: the `Cfg` as it is left, and the
error. -/
def jsonUnmarshal (fold : String → String → Bool) (doc : CfgDoc) (cfg : Cfg) :
    Cfg × Option Err :=
  match doc with
  | CfgDoc.invalid code => (cfg, some (Err.sys code))
  | CfgDoc.null => (cfg, none)
  | CfgDoc.other => (cfg, some errUnmarshalType)
  | CfgDoc.object members => members.foldl (unmarshalMember fold) (cfg, none)

/-- The config file at `path`: the errors of `os.Stat`, `os.Open` and
`ioutil.ReadAll`, if any, and the document its bytes hold. -/
structure CfgFile where
  stat : Option Nat
  opened : Option Nat
  read : Option Nat
  doc : CfgDoc
deriving DecidableEq, Repr

/-- Go `int64` multiplication: the product modulo `2^64`, as a signed
number. -/
def mul64 (a b : Int) : Int :=
  (a * b + 9223372036854775808) % 18446744073709551616 - 9223372036854775808

/-- Go `time.Second`, in nanoseconds. -/
def Second : Int := 1000000000

/-- Go `parseCfg`: `(nil, err)` or `(&cfg, nil)`. -/
def parseCfg (fold : String → String → Bool) (file : CfgFile) : Option Cfg × Option Err :=
  match file.stat with
  | some code => (none, some (Err.sys code))
  | none =>
    match file.opened with
    | some code => (none, some (Err.sys code))
    | none =>
      let cfg : Cfg := { InstancesDir := "/etc/tarantool/tvisor/instances", TermTimeout := 30 }
      match file.read with
      | some code => (none, some (Err.sys code))
      | none =>
        match jsonUnmarshal fold file.doc cfg with
        | (_, some e) => (none, some e)
        | (cfg1, none) =>
          (some { cfg1 with TermTimeout := mul64 cfg1.TermTimeout Second }, none)

/-- The document has a member whose key addresses the field. -/
def setsField (fold : String → String → Bool) (f : CfgField)
    (members : List (String × CfgVal)) : Bool :=
  members.any (fun e => cfgField fold e.1 == some f)

/-- Keys are matched by their exact spelling only. -/
def noFold : String → String → Bool := fun _ _ => false

/-- A readable config file holding this document. -/
def cfgFileT (doc : CfgDoc) : CfgFile :=
  { stat := none, opened := none, read := none, doc := doc }

/-! ## Concrete configurations, worlds and events -/

/-- A configuration with a grace period of 100 ms. -/
def cfgT : Cfg := { InstancesDir := "/srv/instances", TermTimeout := 100000000 }

/-- A world in which no child runs yet. -/
def worldT : World := { environ := ["HOME=/root"], live := [], calls := [] }

/-- The lookup succeeds and the launch yields PID 101. -/
def startedT : StartEvents := { look := none, launch := Launch.started 101 (by decide) }

/-- The lookup of the executable fails. -/
def lookFailsT : StartEvents := { look := some 2, launch := Launch.failed 2 }

/-- The lookup succeeds and the launch fails. -/
def launchFailsT : StartEvents := { look := none, launch := Launch.failed 13 }

/-- An instance as `StartInstance "svc" ["X=1"] true` leaves it, its process
running as PID 101. -/
def instT : Instance :=
  { Name := "svc",
    Cmd := { Path := "/srv/instances/svc.lua", Env := ["HOME=/root", "X=1"],
             Process := some { Pid := 101 } },
    Restartable := true, Env := ["X=1"], done := none }

/-- A registry holding `instT` under identifier 1. -/
def svT : Supervisor := { instancesById := [(1, instT)], cfg := cfgT, lastId := 1 }

/-- A world in which PID 101 runs. -/
def worldLiveT : World := { environ := ["HOME=/root"], live := [101], calls := [] }

/-- The process ignores the interrupt; once killed, its wait reports an
error. -/
def ignoresT : StopEvents :=
  { intr := none, exit := none, wait := some 9, tie := false, kill := none }

/-- The process exits cleanly 5 ms after the interrupt. -/
def exitsT : StopEvents :=
  { intr := none, exit := some 5000000, wait := none, tie := false, kill := none }

/-- The process exits 5 ms after the interrupt and its wait reports an
error (a non-zero exit status). -/
def exitsFailedT : StopEvents :=
  { intr := none, exit := some 5000000, wait := some 1, tie := false, kill := none }

/-- The process is still running when a grace period of 100 ms ends and is
gone 500 ns later, before the kill is sent: the kill is not delivered. -/
def killFailsT : StopEvents :=
  { intr := none, exit := some 100000500, wait := none, tie := false, kill := some 3 }

/-- A second instance, started with `INSTSIGIGNORE=true`, running as PID
202. -/
def inst2T : Instance :=
  { Name := "ign",
    Cmd := { Path := "/srv/instances/ign.lua", Env := ["HOME=/root", "INSTSIGIGNORE=true"],
             Process := some { Pid := 202 } },
    Restartable := true, Env := ["INSTSIGIGNORE=true"], done := none }

/-- A registry holding `instT` under identifier 1 and `inst2T` under 2. -/
def sv2T : Supervisor :=
  { instancesById := [(1, instT), (2, inst2T)], cfg := cfgT, lastId := 2 }

/-- A world in which PIDs 101 and 202 run. -/
def world2T : World := { environ := ["HOME=/root"], live := [101, 202], calls := [] }

/-- Instance 2 ignores the interrupt, every other instance exits in time. -/
def evs2T (id : Int) : StopEvents :=
  if id = 2 then ignoresT else exitsT

/-- A run in which "svc" is started as PID 101, dies, and cannot be
launched again: `RestartAfterTermInstance` gets an error from `Cmd.Start`. -/
def failedRestartT : List Op :=
  [Op.start "svc" ["X=1"] true startedT, Op.death 101,
   Op.restartAfterTerm 101 [1] (Launch.failed 2)]

end core

/-! # Theorems -/

namespace core

/-! ## The registry map -/

theorem lookup_cons_eq (k : Int) (y : Instance) (l : List (Int × Instance)) :
    ((k, y) :: l).lookup k = some y := by
  simp [List.lookup_cons]

theorem lookup_cons_ne (j k : Int) (h : j ≠ k) (y : Instance) (l : List (Int × Instance)) :
    ((k, y) :: l).lookup j = l.lookup j := by
  have h2 : (j == k) = false := by simpa using h
  simp [List.lookup_cons, h2]

theorem lookup_filter_self (id : Int) (l : List (Int × Instance)) :
    (l.filter (fun e => e.1 != id)).lookup id = none := by
  induction l with
  | nil => rfl
  | cons e rest ih =>
    obtain ⟨k, y⟩ := e
    by_cases h : k = id
    · rw [List.filter_cons_of_neg (by simp [h])]
      exact ih
    · rw [List.filter_cons_of_pos (by simp [h]), lookup_cons_ne _ _ (fun h3 => h h3.symm)]
      exact ih

theorem lookup_filter_other (id j : Int) (hj : j ≠ id) (l : List (Int × Instance)) :
    (l.filter (fun e => e.1 != id)).lookup j = l.lookup j := by
  induction l with
  | nil => rfl
  | cons e rest ih =>
    obtain ⟨k, y⟩ := e
    by_cases h : k = id
    · rw [List.filter_cons_of_neg (by simp [h]), lookup_cons_ne _ _ (h ▸ hj)]
      exact ih
    · rw [List.filter_cons_of_pos (by simp [h])]
      by_cases h3 : j = k
      · subst h3
        rw [lookup_cons_eq, lookup_cons_eq]
      · rw [lookup_cons_ne _ _ h3, lookup_cons_ne _ _ h3]
        exact ih

theorem lookup_append_single (id j : Int) (x : Instance) (l : List (Int × Instance)) :
    (l ++ [(id, x)]).lookup j
      = match l.lookup j with
        | some y => some y
        | none => if j = id then some x else none := by
  induction l with
  | nil =>
    by_cases h : j = id
    · subst h
      simp [lookup_cons_eq]
    · simp [lookup_cons_ne _ _ h, h]
  | cons e rest ih =>
    obtain ⟨k, y⟩ := e
    by_cases h3 : j = k
    · subst h3
      simp [lookup_cons_eq]
    · rw [List.cons_append, lookup_cons_ne _ _ h3, lookup_cons_ne _ _ h3]
      exact ih

theorem lookup_map_store (id j : Int) (x : Instance) (l : List (Int × Instance)) :
    (l.map (fun e => if e.1 = id then (e.1, x) else e)).lookup j
      = if j = id then (l.lookup j).map (fun _ => x) else l.lookup j := by
  induction l with
  | nil => simp
  | cons e rest ih =>
    obtain ⟨k, y⟩ := e
    rw [List.map_cons]
    by_cases h : k = id
    · rw [if_pos h]
      by_cases h3 : j = k
      · subst h3
        rw [lookup_cons_eq, lookup_cons_eq, if_pos h]
        rfl
      · rw [lookup_cons_ne _ _ h3, lookup_cons_ne _ _ h3]
        exact ih
    · rw [if_neg h]
      by_cases h3 : j = k
      · subst h3
        rw [lookup_cons_eq, lookup_cons_eq, if_neg h]
      · rw [lookup_cons_ne _ _ h3, lookup_cons_ne _ _ h3]
        exact ih

theorem getInstance_addInstance (sv : Supervisor) (inst : Instance) (j : Int) :
    (sv.addInstance inst).1.getInstance j
      = if j = sv.lastId + 1 then some inst else sv.getInstance j := by
  unfold Supervisor.addInstance Supervisor.getInstance
  simp only [lookup_append_single]
  by_cases h : j = sv.lastId + 1
  · subst h
    simp [lookup_filter_self]
  · simp only [lookup_filter_other _ _ h, h, if_false]
    cases List.lookup j sv.instancesById <;> rfl

theorem getInstance_deleteInstance (sv : Supervisor) (id j : Int) :
    (sv.deleteInstance id).getInstance j = if j = id then none else sv.getInstance j := by
  unfold Supervisor.deleteInstance Supervisor.getInstance
  by_cases h : j = id
  · subst h
    simp [lookup_filter_self]
  · simp [lookup_filter_other _ _ h, h]

theorem getInstance_store (sv : Supervisor) (id j : Int) (x : Instance) :
    (sv.store id x).getInstance j
      = if j = id then (sv.getInstance j).map (fun _ => x) else sv.getInstance j := by
  unfold Supervisor.store Supervisor.getInstance
  exact lookup_map_store id j x _

/-! ## The identifier counter -/

@[simp] theorem store_lastId (sv : Supervisor) (id : Int) (inst : Instance) :
    (sv.store id inst).lastId = sv.lastId := rfl

@[simp] theorem deleteInstance_lastId (sv : Supervisor) (id : Int) :
    (sv.deleteInstance id).lastId = sv.lastId := rfl

@[simp] theorem store_cfg (sv : Supervisor) (id : Int) (inst : Instance) :
    (sv.store id inst).cfg = sv.cfg := rfl

@[simp] theorem deleteInstance_cfg (sv : Supervisor) (id : Int) :
    (sv.deleteInstance id).cfg = sv.cfg := rfl

theorem StopInstance_lastId (sv : Supervisor) (w : World) (id : Int) (force : Bool)
    (ev : StopEvents) : (sv.StopInstance w id force ev).sv.lastId = sv.lastId := by
  unfold Supervisor.StopInstance
  split
  · rfl
  · dsimp only
    split <;> rfl

theorem RestartAfterTermInstance_lastId (sv : Supervisor) (w : World) (pid : Int)
    (visit : List Int) (l : Launch) :
    (sv.RestartAfterTermInstance w pid visit l).sv.lastId = sv.lastId := by
  unfold Supervisor.RestartAfterTermInstance
  split
  · rfl
  · split
    · rfl
    · split <;> rfl
    · rfl
  · rfl

theorem stopEach_lastId (evs : Int → StopEvents) (visit : List Int) :
    ∀ (sv : Supervisor) (w : World), (sv.stopEach w evs visit).sv.lastId = sv.lastId := by
  induction visit with
  | nil => intro sv w; rfl
  | cons id rest ih =>
    intro sv w
    unfold Supervisor.stopEach
    split
    · exact ih sv w
    · dsimp only
      split
      · rw [ih]; rfl
      · rfl
      · simp only []
        rw [ih]; rfl

theorem StartInstance_lastId (sv : Supervisor) (w : World) (name : String) (env : List String)
    (restartable : Bool) (ev : StartEvents) :
    (∃ e, (sv.StartInstance w name env restartable ev).out = Exit.ret (0, some e)
        ∧ (sv.StartInstance w name env restartable ev).sv = sv)
    ∨ ((sv.StartInstance w name env restartable ev).out = Exit.ret (sv.lastId + 1, none)
        ∧ (sv.StartInstance w name env restartable ev).sv.lastId = sv.lastId + 1) := by
  unfold Supervisor.StartInstance
  split
  · exact Or.inl ⟨_, rfl, rfl⟩
  · simp only []
    split
    · exact Or.inl ⟨_, rfl, rfl⟩
    · split
      · exact Or.inl ⟨_, rfl, rfl⟩
      · exact Or.inr ⟨rfl, rfl⟩

theorem step_lastId (sv : Supervisor) (w : World) (op : Op) :
    (stepId sv w op = none ∧ (stepState sv w op).1.lastId = sv.lastId)
    ∨ (stepId sv w op = some (sv.lastId + 1)
        ∧ (stepState sv w op).1.lastId = sv.lastId + 1) := by
  cases op with
  | start name env restartable ev =>
    rcases StartInstance_lastId sv w name env restartable ev with ⟨e, h1, h2⟩ | ⟨h1, h2⟩
    · left
      simp only [stepId, stepState, h1, h2, and_self]
    · right
      simp only [stepId, stepState, h1, h2, and_self]
  | stop id force ev => exact Or.inl ⟨rfl, StopInstance_lastId sv w id force ev⟩
  | restartAfterTerm pid visit l =>
    exact Or.inl ⟨rfl, RestartAfterTermInstance_lastId sv w pid visit l⟩
  | stopAll visit evs => exact Or.inl ⟨rfl, stopEach_lastId evs visit sv w⟩
  | death pid => exact Or.inl ⟨rfl, rfl⟩

theorem range_shift (a : Int) (m : Nat) :
    ∀ s : Nat, (List.range' (s + 1) m).map (fun k : Nat => a + (k : Int))
      = (List.range' s m).map (fun k : Nat => a + 1 + (k : Int)) := by
  induction m with
  | zero => intro s; rfl
  | succ m ih =>
    intro s
    simp only [List.range', List.map_cons, ih (s + 1)]
    congr 1
    push_cast
    ring

theorem startedIds_from (ops : List Op) :
    ∀ (sv : Supervisor) (w : World),
      startedIds sv w ops
        = (List.range' 1 (startedIds sv w ops).length).map
            (fun k : Nat => sv.lastId + (k : Int)) := by
  induction ops with
  | nil => intro sv w; rfl
  | cons op rest ih =>
    intro sv w
    have hrec := ih (stepState sv w op).1 (stepState sv w op).2
    rcases step_lastId sv w op with ⟨h1, h2⟩ | ⟨h1, h2⟩
    · rw [h2] at hrec
      simp only [startedIds, h1]
      exact hrec
    · rw [h2] at hrec
      simp only [startedIds, h1, List.length_cons, List.range', List.map_cons]
      congr 1
      rw [range_shift]
      exact hrec

/-- C1: in every run of registry operations from a fresh supervisor, the
identifiers returned by the successful `StartInstance` calls are
`1, 2, 3, ...` in call order: each is one more than the one returned
before it; hence they are strictly increasing and no identifier is handed
out twice, whatever was deleted in between. -/
theorem C1_started_ids_count_from_one (cfg : Cfg) (w : World) (ops : List Op) :
    startedIds (NewSupervisor cfg) w ops
        = (List.range' 1 (startedIds (NewSupervisor cfg) w ops).length).map
            (fun k : Nat => (k : Int))
      ∧ (startedIds (NewSupervisor cfg) w ops).Chain' (fun a b => b = a + 1)
      ∧ (startedIds (NewSupervisor cfg) w ops).Pairwise (fun a b => a < b)
      ∧ (startedIds (NewSupervisor cfg) w ops).Nodup := by
  have h := startedIds_from ops (NewSupervisor cfg) w
  have h0 : (NewSupervisor cfg).lastId = 0 := rfl
  simp only [h0, zero_add] at h
  have hc : (startedIds (NewSupervisor cfg) w ops).Chain' (fun a b => b = a + 1) := by
    rw [h, List.chain'_map]
    have hr : ∀ n : Nat, (List.range' 1 n).Chain' (fun a b => b = a + 1) := by
      intro n
      cases n with
      | zero => exact List.chain'_nil
      | succ n =>
        rw [List.range'_succ]
        exact List.chain_succ_range' 1 n 1
    refine (hr _).imp ?_
    intro a b hab
    rw [hab]
    push_cast
    rfl
  have hp : (startedIds (NewSupervisor cfg) w ops).Pairwise (fun a b => a < b) := by
    rw [h]
    refine List.Pairwise.map _ ?_ (List.pairwise_lt_range' 1 _)
    intro a b hab
    exact_mod_cast hab
  refine ⟨h, hc, hp, ?_⟩
  exact hp.imp (fun hab => ne_of_lt hab)

/-! ## StartInstance -/

theorem Status_of_process (inst : Instance) (w : World) (p : Process)
    (h : inst.Cmd.Process = some p) :
    inst.Status w
      = Exit.ret { Name := inst.Name, Pid := p.Pid, Restartable := inst.Restartable,
                   Env := inst.Env,
                   State := if w.probe p.Pid then stateRunning else stateTerminated } := by
  simp [Instance.Status, Instance.IsAlive, h]

/-- C2: when `StartInstance name env restartable` returns `id` without
error, a process was launched with some positive PID, and the
`GetInstanceStatus id` that follows at once returns, without error, the
status with that name, environment, restartable flag and PID and state
"running"; at any later moment the state it reports is "running" exactly
when the liveness probe of that PID succeeds. -/
theorem C2_status_after_start (sv : Supervisor) (w : World) (name : String) (env : List String)
    (restartable : Bool) (ev : StartEvents) (id : Int)
    (h : (sv.StartInstance w name env restartable ev).out = Exit.ret (id, none)) :
    ∃ (pid : Int) (pos : 0 < pid), ev.launch = Launch.started pid pos
      ∧ (sv.StartInstance w name env restartable ev).sv.GetInstanceStatus
            (sv.StartInstance w name env restartable ev).world id
          = Exit.ret (some { Name := name, State := stateRunning, Pid := pid,
                             Restartable := restartable, Env := env }, none)
      ∧ ∀ w2 : World,
          (sv.StartInstance w name env restartable ev).sv.GetInstanceStatus w2 id
            = Exit.ret (some { Name := name,
                               State := if w2.probe pid then stateRunning else stateTerminated,
                               Pid := pid, Restartable := restartable, Env := env }, none) := by
  unfold Supervisor.StartInstance at h ⊢
  by_cases hn : name = ""
  · simp [hn] at h
  · simp only [hn, if_false] at h ⊢
    cases hl : ev.look with
    | some e => simp [hl] at h
    | none =>
      simp only [hl] at h ⊢
      cases hs : ev.launch with
      | failed e => simp [hs, Instance.Start, Cmd.Start] at h
      | started pid pos =>
        simp only [hs, Instance.Start, Cmd.Start] at h ⊢
        have hid : id = sv.lastId + 1 := by
          simp [Supervisor.addInstance] at h
          exact h.symm
        subst hid
        refine ⟨pid, pos, rfl, ?_, ?_⟩
        · simp only [Supervisor.GetInstanceStatus, getInstance_addInstance, if_true]
          rw [Status_of_process _ _ ⟨pid⟩ rfl]
          simp [NewInstance, World.probe, World.log]
        · intro w2
          simp only [Supervisor.GetInstanceStatus, getInstance_addInstance, if_true]
          rw [Status_of_process _ _ ⟨pid⟩ rfl]
          simp [NewInstance]

/-- C2 at a concrete input: a fresh registry starts "svc" with environment
`X=1`, the launch yielding PID 101. -/
theorem C2_status_after_start_witness :
    ((NewSupervisor cfgT).StartInstance worldT "svc" ["X=1"] true startedT).out = Exit.ret (1, none)
      ∧ ∃ (pid : Int) (pos : 0 < pid), startedT.launch = Launch.started pid pos
      ∧ ((NewSupervisor cfgT).StartInstance worldT "svc" ["X=1"] true startedT).sv.GetInstanceStatus
            ((NewSupervisor cfgT).StartInstance worldT "svc" ["X=1"] true startedT).world 1
          = Exit.ret (some { Name := "svc", State := stateRunning, Pid := pid,
                             Restartable := true, Env := ["X=1"] }, none)
      ∧ ∀ w2 : World,
          ((NewSupervisor cfgT).StartInstance worldT "svc" ["X=1"] true startedT).sv.GetInstanceStatus w2 1
            = Exit.ret (some { Name := "svc",
                               State := if w2.probe pid then stateRunning else stateTerminated,
                               Pid := pid, Restartable := true, Env := ["X=1"] }, none) :=
  ⟨by decide, C2_status_after_start (NewSupervisor cfgT) worldT "svc" ["X=1"] true startedT 1 (by decide)⟩

/-- C3: `StartInstance` always returns.  Whenever it returns an error, the
identifier is 0 and the registry (entries and `lastId`) is as before.  It
fails so with an empty name, and then the world is untouched: no path
lookup and no launch; it fails with the lookup error when `LookPath` on
`<InstancesDir>/<name>.lua` fails, having launched nothing; and it fails
with the launch error when `Cmd.Start` fails. -/
theorem C3_start_failure_leaves_registry (sv : Supervisor) (w : World) (name : String)
    (env : List String) (restartable : Bool) (ev : StartEvents) :
    (∃ id err, (sv.StartInstance w name env restartable ev).out = Exit.ret (id, err))
      ∧ (∀ id e, (sv.StartInstance w name env restartable ev).out = Exit.ret (id, some e) →
          id = 0 ∧ (sv.StartInstance w name env restartable ev).sv = sv)
      ∧ (name = "" →
          (sv.StartInstance w name env restartable ev).out
              = Exit.ret (0, some (Err.new "The instance name is empty."))
            ∧ (sv.StartInstance w name env restartable ev).sv = sv
            ∧ (sv.StartInstance w name env restartable ev).world = w)
      ∧ (name ≠ "" → ∀ code, ev.look = some code →
          (sv.StartInstance w name env restartable ev).out = Exit.ret (0, some (Err.sys code))
            ∧ (sv.StartInstance w name env restartable ev).sv = sv
            ∧ (sv.StartInstance w name env restartable ev).world
                = w.log (Call.lookPath (pathJoin [sv.cfg.InstancesDir, name ++ ".lua"])))
      ∧ (name ≠ "" → ev.look = none → ∀ code, ev.launch = Launch.failed code →
          (sv.StartInstance w name env restartable ev).out = Exit.ret (0, some (Err.sys code))
            ∧ (sv.StartInstance w name env restartable ev).sv = sv
            ∧ (sv.StartInstance w name env restartable ev).world.live = w.live
            ∧ (sv.StartInstance w name env restartable ev).world.calls
                = w.calls ++ [Call.lookPath (pathJoin [sv.cfg.InstancesDir, name ++ ".lua"]),
                    Call.start (pathJoin [sv.cfg.InstancesDir, name ++ ".lua"])
                      (w.environ ++ env)]) := by
  refine ⟨?_, ?_, ?_, ?_, ?_⟩
  · rcases StartInstance_lastId sv w name env restartable ev with ⟨e, h1, _⟩ | ⟨h1, _⟩
    · exact ⟨_, _, h1⟩
    · exact ⟨_, _, h1⟩
  · intro id e h
    rcases StartInstance_lastId sv w name env restartable ev with ⟨e2, h1, h2⟩ | ⟨h1, _⟩
    · rw [h1] at h
      simp only [Exit.ret.injEq, Prod.mk.injEq] at h
      exact ⟨h.1.symm, h2⟩
    · rw [h1] at h
      simp at h
  · intro hn
    simp [Supervisor.StartInstance, hn]
  · intro hn e hl
    simp [Supervisor.StartInstance, hn, hl]
  · intro hn hl e hs
    simp [Supervisor.StartInstance, hn, hl, hs, Instance.Start, Cmd.Start, World.log,
      NewInstance, Command]


/-- C3 at concrete inputs: an empty name, a failing lookup and a failing
launch on a fresh registry. -/
theorem C3_start_failure_leaves_registry_witness :
    ((NewSupervisor cfgT).StartInstance worldT "" [] true startedT).world = worldT
      ∧ ((NewSupervisor cfgT).StartInstance worldT "svc" [] true lookFailsT).sv = NewSupervisor cfgT
      ∧ ((NewSupervisor cfgT).StartInstance worldT "svc" [] true launchFailsT).out
          = Exit.ret (0, some (Err.sys 13)) :=
  ⟨((C3_start_failure_leaves_registry (NewSupervisor cfgT) worldT "" [] true startedT).2.2.1
      rfl).2.2,
   ((C3_start_failure_leaves_registry (NewSupervisor cfgT) worldT "svc" [] true lookFailsT).2.2.2.1
      (by decide) 2 rfl).2.1,
   ((C3_start_failure_leaves_registry (NewSupervisor cfgT) worldT "svc" [] true launchFailsT).2.2.2.2
      (by decide) rfl 13 rfl).1⟩

/-! ## StopInstance and the grace period -/

theorem ids_store (sv : Supervisor) (id : Int) (x : Instance) : (sv.store id x).ids = sv.ids := by
  unfold Supervisor.store Supervisor.ids
  simp only [List.map_map]
  apply List.map_congr_left
  intro e _
  by_cases h : e.1 = id <;> simp [h]

theorem ids_deleteInstance (sv : Supervisor) (id : Int) :
    (sv.deleteInstance id).ids = sv.ids.filter (fun k => k != id) := by
  unfold Supervisor.deleteInstance Supervisor.ids
  simp only [List.filter_map]
  rfl

/-- What `StopInstance` does once the instance has been found, in terms of
the result of its `Stop`. -/
theorem StopInstance_of_registered (sv : Supervisor) (w : World) (id : Int) (force : Bool)
    (ev : StopEvents) (inst : Instance) (h : sv.getInstance id = some inst) :
    sv.StopInstance w id force ev
      = match (inst.Stop sv.cfg.TermTimeout force w ev).out with
        | Exit.ret none =>
          { sv := (sv.store id (inst.Stop sv.cfg.TermTimeout force w ev).inst).deleteInstance id,
            world := (inst.Stop sv.cfg.TermTimeout force w ev).world, out := Exit.ret none }
        | o =>
          { sv := sv.store id (inst.Stop sv.cfg.TermTimeout force w ev).inst,
            world := (inst.Stop sv.cfg.TermTimeout force w ev).world, out := o } := by
  unfold Supervisor.StopInstance
  rw [h]

/-- C4: for a registered `id`, `StopInstance id force` leaves `id` out of
the registry exactly when the `Stop` of its instance returns success, and
then the registered identifiers are the former ones without `id`; when
`Stop` returns an error, `StopInstance` returns it and the registered
identifiers are unchanged.  In every case the entries under the other
identifiers and `lastId` are unchanged. -/
theorem C4_stop_removes_iff_success (sv : Supervisor) (w : World) (id : Int) (force : Bool)
    (ev : StopEvents) (inst : Instance) (h : sv.getInstance id = some inst) :
    ((sv.StopInstance w id force ev).sv.getInstance id = none
        ↔ (inst.Stop sv.cfg.TermTimeout force w ev).out = Exit.ret none)
      ∧ ((inst.Stop sv.cfg.TermTimeout force w ev).out = Exit.ret none →
          (sv.StopInstance w id force ev).out = Exit.ret none
            ∧ (sv.StopInstance w id force ev).sv.ids = sv.ids.filter (fun k => k != id))
      ∧ (∀ e, (inst.Stop sv.cfg.TermTimeout force w ev).out = Exit.ret (some e) →
          (sv.StopInstance w id force ev).out = Exit.ret (some e)
            ∧ (sv.StopInstance w id force ev).sv.ids = sv.ids)
      ∧ (∀ j, j ≠ id → (sv.StopInstance w id force ev).sv.getInstance j = sv.getInstance j)
      ∧ (sv.StopInstance w id force ev).sv.lastId = sv.lastId := by
  rw [StopInstance_of_registered sv w id force ev inst h]
  have hother : ∀ (x : Instance) (j : Int), j ≠ id →
      (sv.store id x).getInstance j = sv.getInstance j := by
    intro x j hj
    rw [getInstance_store, if_neg hj]
  have hself : ∀ x : Instance, (sv.store id x).getInstance id ≠ none := by
    intro x
    rw [getInstance_store, if_pos rfl, h]
    simp
  cases ho : (inst.Stop sv.cfg.TermTimeout force w ev).out with
  | ret a =>
    cases a with
    | none =>
      refine ⟨?_, ?_, ?_, ?_, ?_⟩
      · simp [getInstance_deleteInstance]
      · intro _
        exact ⟨rfl, by rw [ids_deleteInstance, ids_store]⟩
      · intro e he
        simp at he
      · intro j hj
        simp only [getInstance_deleteInstance, if_neg hj]
        exact hother _ j hj
      · rfl
    | some e =>
      refine ⟨?_, ?_, ?_, ?_, ?_⟩
      · simpa using hself _
      · intro he
        simp at he
      · intro e2 he
        exact ⟨he, ids_store _ _ _⟩
      · intro j hj
        exact hother _ j hj
      · rfl
  | panic =>
    refine ⟨?_, ?_, ?_, ?_, ?_⟩
    · simpa using hself _
    · intro he
      simp at he
    · intro e2 he
      simp at he
    · intro j hj
      exact hother _ j hj
    · rfl
  | block =>
    refine ⟨?_, ?_, ?_, ?_, ?_⟩
    · simpa using hself _
    · intro he
      simp at he
    · intro e2 he
      simp at he
    · intro j hj
      exact hother _ j hj
    · rfl

theorem selectFired_outlasts (timeout : Int) (ev : StopEvents) (h : ev.outlasts timeout = true) :
    selectFired timeout ev.tie (ev.exit.map (fun d => (d, sysErr ev.wait))) = Fired.timer := by
  unfold StopEvents.outlasts at h
  cases hd : ev.exit with
  | none => rfl
  | some d =>
    rw [hd] at h
    have h1 : max timeout 0 < (d : Int) := by simpa using h
    have h2 : ¬ ((d : Int) < timeout) := by
      intro h3
      have := le_max_left timeout 0
      omega
    have h3 : ¬ ((d : Int) = max timeout 0) := by omega
    simp [selectFired, h2, h3]

theorem waitsFor_cases (inst : Instance) (p : Process) (h : inst.waitsFor p = true) :
    inst.done = none ∨ inst.done = some { pid := p.Pid, drained := false } := by
  unfold Instance.waitsFor at h
  cases hd : inst.done with
  | none => exact Or.inl rfl
  | some ch =>
    rw [hd] at h
    obtain ⟨c, d⟩ := ch
    simp at h
    right
    simp [h.1, h.2]

/-- `Stop` on a live process whose exit-wait is in order, when the
interrupt is delivered and the process outlasts the grace period, without
`force`. -/
theorem Stop_timeout_noforce (inst : Instance) (timeout : Int) (w : World) (ev : StopEvents)
    (p : Process) (hp : inst.Cmd.Process = some p) (hlive : w.probe p.Pid = true)
    (hwait : inst.waitsFor p = true) (hintr : ev.intr = none)
    (hout : ev.outlasts timeout = true) :
    inst.Stop timeout false w ev
      = { inst := { inst with Restartable := false,
                              done := some { pid := p.Pid, drained := false } },
          world := { w with calls := w.calls
                      ++ (if inst.done.isNone then [Call.wait p.Pid] else [])
                      ++ [Call.signal p.Pid Sig.interrupt] },
          out := Exit.ret (some errTimeout) } := by
  have hsel := selectFired_outlasts timeout ev hout
  have hl2 : ∀ c : List Call,
      World.probe { environ := w.environ, live := w.live, calls := c } p.Pid = true :=
    fun _ => hlive
  rcases waitsFor_cases inst p hwait with hd | hd
  · simp [Instance.Stop, Instance.IsAlive, hp, hlive, hd, hintr, delivery, hl2, hsel, World.log]
  · simp [Instance.Stop, Instance.IsAlive, hp, hlive, hd, hintr, delivery, hl2, hsel, World.log]

/-! ## ListInstances -/

/-- Value of a decimal digit character. -/
theorem digitChar_val (k : Nat) (hk : k < 10) : (Nat.digitChar k).toNat - 48 = k := by
  interval_cases k <;> rfl

theorem digitChar_ne_minus (k : Nat) (hk : k < 10) : Nat.digitChar k ≠ '-' := by
  interval_cases k <;> decide

/-- Reading the digits written by `Nat.toDigitsCore` gives the number back. -/
theorem foldl_toDigitsCore (fuel : Nat) :
    ∀ (n : Nat) (ds : List Char), n < fuel →
      (Nat.toDigitsCore 10 fuel n ds).foldl (fun a c => a * 10 + (c.toNat - 48)) 0
        = ds.foldl (fun a c => a * 10 + (c.toNat - 48)) n := by
  induction fuel with
  | zero => intro n ds h; omega
  | succ fuel ih =>
    intro n ds h
    unfold Nat.toDigitsCore
    simp only
    split
    · rename_i h0
      have hn : n < 10 := by omega
      simp only [List.foldl_cons, zero_mul, zero_add]
      rw [digitChar_val _ (Nat.mod_lt _ (by decide)), Nat.mod_eq_of_lt hn]
    · rename_i h0
      have hlt : n / 10 < fuel := by omega
      rw [ih (n / 10) _ hlt]
      simp only [List.foldl_cons]
      rw [digitChar_val _ (Nat.mod_lt _ (by decide))]
      congr 1
      omega

theorem toDigits_injective (a b : Nat) (h : Nat.toDigits 10 a = Nat.toDigits 10 b) : a = b := by
  have ha := foldl_toDigitsCore (a + 1) a [] (by omega)
  have hb := foldl_toDigitsCore (b + 1) b [] (by omega)
  simp only [List.foldl_nil] at ha hb
  unfold Nat.toDigits at h
  rw [h] at ha
  omega

theorem toDigitsCore_head (fuel : Nat) :
    ∀ (n : Nat) (ds : List Char), 0 < fuel →
      ∃ k, k < 10 ∧ ∃ tl, Nat.toDigitsCore 10 fuel n ds = Nat.digitChar k :: tl := by
  induction fuel with
  | zero => intro n ds h; omega
  | succ fuel ih =>
    intro n ds _
    unfold Nat.toDigitsCore
    simp only
    split
    · exact ⟨n % 10, Nat.mod_lt _ (by decide), ds, rfl⟩
    · rename_i h0
      have hpos : 0 < fuel ∨ fuel = 0 := by omega
      rcases hpos with hpos | hz
      · exact ih (n / 10) _ hpos
      · subst hz
        exact ⟨n % 10, Nat.mod_lt _ (by decide), ds, rfl⟩

/-- `strconv.Itoa` gives distinct integers distinct strings. -/
theorem Itoa_injective (a b : Int) (h : Itoa a = Itoa b) : a = b := by
  have hdata : ∀ n : Nat, (Nat.repr n).data = Nat.toDigits 10 n := fun _ => rfl
  have hneg : ∀ (n m : Nat), Nat.repr n ≠ "-" ++ Nat.repr m := by
    intro n m hnm
    have h1 : (Nat.repr n).data = '-' :: (Nat.repr m).data := by
      rw [hnm]
      rfl
    rw [hdata] at h1
    obtain ⟨k, hk, tl, htl⟩ := toDigitsCore_head (n + 1) n [] (by omega)
    unfold Nat.toDigits at h1
    rw [htl] at h1
    simp only [List.cons.injEq] at h1
    exact digitChar_ne_minus k hk h1.1
  have hrepr : ∀ n m : Nat, Nat.repr n = Nat.repr m → n = m := by
    intro n m hnm
    apply toDigits_injective
    rw [← hdata, ← hdata, hnm]
  cases a with
  | ofNat n =>
    cases b with
    | ofNat m =>
      simp only [Itoa] at h
      rw [hrepr n m h]
    | negSucc m =>
      simp only [Itoa] at h
      exact absurd h (hneg n (m + 1))
  | negSucc n =>
    cases b with
    | ofNat m =>
      simp only [Itoa] at h
      exact absurd h.symm (hneg m (n + 1))
    | negSucc m =>
      simp only [Itoa] at h
      have h2 : (Nat.repr (n + 1)).data = (Nat.repr (m + 1)).data := by
        have h3 := congrArg String.data h
        simpa using h3
      have h4 : Nat.repr (n + 1) = Nat.repr (m + 1) := String.ext h2
      have h5 : n = m := by
        have := hrepr _ _ h4
        omega
      rw [h5]

theorem mem_of_lookup (k : Int) (v : Instance) (l : List (Int × Instance))
    (h : l.lookup k = some v) : (k, v) ∈ l := by
  induction l with
  | nil => simp at h
  | cons e rest ih =>
    obtain ⟨j, y⟩ := e
    by_cases hk : k = j
    · subst hk
      rw [lookup_cons_eq] at h
      simp only [Option.some.injEq] at h
      subst h
      exact List.mem_cons_self _ _
    · rw [lookup_cons_ne _ _ hk] at h
      exact List.mem_cons_of_mem _ (ih h)

theorem store_entry (sv : Supervisor) (id : Int) (x : Instance) (e : Int × Instance)
    (he : e ∈ (sv.store id x).instancesById) (hk : e.1 = id) : e.2 = x := by
  unfold Supervisor.store at he
  simp only [List.mem_map] at he
  obtain ⟨e0, _, h0⟩ := he
  by_cases h1 : e0.1 = id
  · rw [if_pos h1] at h0
    rw [← h0]
  · rw [if_neg h1] at h0
    rw [← h0] at hk
    exact absurd hk h1

/-- What `ListInstances` returns holds, under the key of an identifier, the
status of the instances stored under it, provided they all have the same
status. -/
theorem listLoop_mem (w : World) (s : String) (st : InstanceStatus) :
    ∀ (es : List (Int × Instance)) (acc l : List (String × InstanceStatus)),
      listLoop w acc es = Exit.ret l →
      (∀ e ∈ es, Itoa e.1 = s → e.2.Status w = Exit.ret st) →
      ((s, st) ∈ acc ∨ ∃ e ∈ es, Itoa e.1 = s) → (s, st) ∈ l := by
  intro es
  induction es with
  | nil =>
    intro acc l h _ hin
    simp only [listLoop, Exit.ret.injEq] at h
    subst h
    rcases hin with hin | ⟨e, he, _⟩
    · exact hin
    · simp at he
  | cons e rest ih =>
    intro acc l h hst hin
    obtain ⟨id, inst⟩ := e
    unfold listLoop at h
    split at h
    · rename_i st2 hst2
      apply ih _ l h (fun e he => hst e (List.mem_cons_of_mem _ he))
      by_cases hk : Itoa id = s
      · left
        have := hst (id, inst) (List.mem_cons_self _ _) hk
        rw [hst2] at this
        simp only [Exit.ret.injEq] at this
        subst this
        subst hk
        simp
      · rcases hin with hin | ⟨e, he, hes⟩
        · left
          simp only [List.mem_append, List.mem_filter, List.mem_singleton]
          left
          refine ⟨hin, ?_⟩
          simpa using fun h2 => hk h2.symm
        · right
          rcases List.mem_cons.mp he with he | he
          · subst he
            exact absurd hes hk
          · exact ⟨e, he, hes⟩
    · simp at h

/-- C5: take a live instance (its exit-wait, if any, the pending wait on its
process) whose process gets the interrupt and is still running when the
grace period ends.  `Stop timeout false` returns the termination-timeout
error, adds no kill signal to the calls made, leaves the process answering
the liveness probe, and `Status` reports "running".  For such an instance
registered under `id`, `StopInstance id false` returns that error, the
registered identifiers are unchanged, `GetInstanceStatus id` reports the
instance as "running", and whatever `ListInstances` returns lists it
under the key of `id` as "running". -/
theorem C5_timeout_without_force (inst : Instance) (w : World) (ev : StopEvents) (p : Process)
    (hp : inst.Cmd.Process = some p) (hlive : w.probe p.Pid = true)
    (hwait : inst.waitsFor p = true) (hintr : ev.intr = none) :
    (∀ timeout : Int, ev.outlasts timeout = true →
        (inst.Stop timeout false w ev).out = Exit.ret (some errTimeout)
          ∧ (∀ q, Call.signal q Sig.kill ∈ (inst.Stop timeout false w ev).world.calls →
                Call.signal q Sig.kill ∈ w.calls)
          ∧ (inst.Stop timeout false w ev).world.live = w.live
          ∧ (inst.Stop timeout false w ev).world.probe p.Pid = true
          ∧ (inst.Stop timeout false w ev).inst.Status (inst.Stop timeout false w ev).world
              = Exit.ret { Name := inst.Name, State := stateRunning, Pid := p.Pid,
                           Restartable := false, Env := inst.Env })
      ∧ (∀ (sv : Supervisor) (id : Int), sv.getInstance id = some inst →
          ev.outlasts sv.cfg.TermTimeout = true →
          (sv.StopInstance w id false ev).out = Exit.ret (some errTimeout)
            ∧ (sv.StopInstance w id false ev).sv.ids = sv.ids
            ∧ (sv.StopInstance w id false ev).sv.GetInstanceStatus
                  (sv.StopInstance w id false ev).world id
                = Exit.ret (some { Name := inst.Name, State := stateRunning, Pid := p.Pid,
                                   Restartable := false, Env := inst.Env }, none)
            ∧ (∀ l, (sv.StopInstance w id false ev).sv.ListInstances
                  (sv.StopInstance w id false ev).world = Exit.ret l →
                (Itoa id, { Name := inst.Name, State := stateRunning, Pid := p.Pid,
                            Restartable := false, Env := inst.Env }) ∈ l)) := by
  have key : ∀ timeout : Int, ev.outlasts timeout = true →
      (inst.Stop timeout false w ev).out = Exit.ret (some errTimeout)
        ∧ (∀ q, Call.signal q Sig.kill ∈ (inst.Stop timeout false w ev).world.calls →
              Call.signal q Sig.kill ∈ w.calls)
        ∧ (inst.Stop timeout false w ev).world.live = w.live
        ∧ (inst.Stop timeout false w ev).world.probe p.Pid = true
        ∧ (inst.Stop timeout false w ev).inst.Status (inst.Stop timeout false w ev).world
            = Exit.ret { Name := inst.Name, State := stateRunning, Pid := p.Pid,
                         Restartable := false, Env := inst.Env } := by
    intro timeout hout
    rw [Stop_timeout_noforce inst timeout w ev p hp hlive hwait hintr hout]
    refine ⟨rfl, ?_, rfl, hlive, ?_⟩
    · intro q hq
      simp only [List.mem_append, List.mem_singleton] at hq
      rcases hq with (hq | hq) | hq
      · exact hq
      · split at hq <;> simp at hq
      · simp at hq
    · dsimp only
      refine (Status_of_process
        { inst with Restartable := false, done := some { pid := p.Pid, drained := false } }
        _ p hp).trans ?_
      have hl2 : ∀ c : List Call,
          World.probe { environ := w.environ, live := w.live, calls := c } p.Pid = true :=
        fun _ => hlive
      simp only [hl2, if_true]
  refine ⟨key, ?_⟩
  intro sv id hreg hout
  obtain ⟨h1, _, _, _, h5⟩ := key sv.cfg.TermTimeout hout
  rw [StopInstance_of_registered sv w id false ev inst hreg, h1]
  have hget : (sv.store id (inst.Stop sv.cfg.TermTimeout false w ev).inst).getInstance id
      = some (inst.Stop sv.cfg.TermTimeout false w ev).inst := by
    rw [getInstance_store, if_pos rfl, hreg]
    rfl
  refine ⟨rfl, ids_store _ _ _, ?_, ?_⟩
  · simp only [Supervisor.GetInstanceStatus, hget, h5]
  · intro l hl
    refine listLoop_mem _ (Itoa id) _ _ [] l hl ?_ (Or.inr ⟨_, mem_of_lookup _ _ _ hget, rfl⟩)
    intro e he hk
    rw [store_entry sv id _ e he (Itoa_injective _ _ hk)]
    exact h5

/-- C4 at a concrete input: instance 1 of `svT`, whose process exits
cleanly within the grace period. -/
theorem C4_stop_removes_iff_success_witness :
    svT.getInstance 1 = some instT
      ∧ ((svT.StopInstance worldLiveT 1 false exitsT).sv.getInstance 1 = none
          ↔ (instT.Stop svT.cfg.TermTimeout false worldLiveT exitsT).out = Exit.ret none)
      ∧ (svT.StopInstance worldLiveT 1 false exitsT).sv.lastId = 1 :=
  ⟨by decide, (C4_stop_removes_iff_success svT worldLiveT 1 false exitsT instT (by decide)).1,
   (C4_stop_removes_iff_success svT worldLiveT 1 false exitsT instT (by decide)).2.2.2.2⟩

/-- C5 at a concrete input: instance 1 of `svT`, whose process ignores the
interrupt. -/
theorem C5_timeout_without_force_witness :
    instT.Cmd.Process = some { Pid := 101 } ∧ worldLiveT.probe 101 = true
      ∧ instT.waitsFor { Pid := 101 } = true ∧ ignoresT.intr = none
      ∧ ignoresT.outlasts 100000000 = true ∧ svT.getInstance 1 = some instT
      ∧ (instT.Stop 100000000 false worldLiveT ignoresT).out = Exit.ret (some errTimeout)
      ∧ (svT.StopInstance worldLiveT 1 false ignoresT).sv.ids = svT.ids
      ∧ (svT.StopInstance worldLiveT 1 false ignoresT).sv.ListInstances
            (svT.StopInstance worldLiveT 1 false ignoresT).world
          = Exit.ret [("1", { Name := "svc", State := "running", Pid := 101,
                              Restartable := false, Env := ["X=1"] })]
      ∧ (Itoa 1, { Name := instT.Name, State := stateRunning, Pid := 101,
                   Restartable := false, Env := instT.Env })
          ∈ [("1", ({ Name := "svc", State := "running", Pid := 101,
                      Restartable := false, Env := ["X=1"] } : InstanceStatus))] :=
  ⟨rfl, by decide, by decide, rfl, by decide, by decide,
   ((C5_timeout_without_force instT worldLiveT ignoresT { Pid := 101 } rfl (by decide)
      (by decide) rfl).1 100000000 (by decide)).1,
   ((C5_timeout_without_force instT worldLiveT ignoresT { Pid := 101 } rfl (by decide)
      (by decide) rfl).2 svT 1 (by decide) (by decide)).2.1,
   by decide,
   ((C5_timeout_without_force instT worldLiveT ignoresT { Pid := 101 } rfl (by decide)
      (by decide) rfl).2 svT 1 (by decide) (by decide)).2.2.2 _ (by decide)⟩

/-- `Stop` on a live process whose exit-wait is in order, when the
interrupt is delivered and the process outlasts the grace period, with
`force`. -/
theorem Stop_timeout_force (inst : Instance) (timeout : Int) (w : World) (ev : StopEvents)
    (p : Process) (hp : inst.Cmd.Process = some p) (hlive : w.probe p.Pid = true)
    (hwait : inst.waitsFor p = true) (hintr : ev.intr = none)
    (hout : ev.outlasts timeout = true) :
    inst.Stop timeout true w ev
      = match ev.kill with
        | some code =>
          { inst := { inst with Restartable := false,
                                done := some { pid := p.Pid, drained := false } },
            world := { w with calls := w.calls
                        ++ (if inst.done.isNone then [Call.wait p.Pid] else [])
                        ++ [Call.signal p.Pid Sig.interrupt, Call.signal p.Pid Sig.kill] },
            out := Exit.ret (some (Err.sys code)) }
        | none =>
          { inst := { inst with Restartable := false,
                                done := some { pid := p.Pid, drained := true } },
            world := { w with live := w.live.filter (fun q => q != p.Pid),
                              calls := w.calls
                        ++ (if inst.done.isNone then [Call.wait p.Pid] else [])
                        ++ [Call.signal p.Pid Sig.interrupt, Call.signal p.Pid Sig.kill] },
            out := Exit.ret none } := by
  have hsel := selectFired_outlasts timeout ev hout
  have hl2 : ∀ c : List Call,
      World.probe { environ := w.environ, live := w.live, calls := c } p.Pid = true :=
    fun _ => hlive
  rcases waitsFor_cases inst p hwait with hd | hd
  · cases hk : ev.kill <;>
      simp [Instance.Stop, Instance.IsAlive, hp, hlive, hd, hintr, delivery, hl2, hsel,
        World.log, hk, awaited, World.reap]
  · cases hk : ev.kill <;>
      simp [Instance.Stop, Instance.IsAlive, hp, hlive, hd, hintr, delivery, hl2, hsel,
        World.log, hk, awaited, World.reap]

theorem selectFired_done (timeout : Int) (tie : Bool) (x : Option (Nat × Option Err))
    (r : Option Err) (h : selectFired timeout tie x = Fired.done r) : ∃ d, x = some (d, r) := by
  cases x with
  | none => simp [selectFired] at h
  | some v =>
    obtain ⟨d, r2⟩ := v
    refine ⟨d, ?_⟩
    simp only [selectFired] at h
    split_ifs at h <;> cases h <;> rfl

theorem delivery_value (w : World) (ch : Chan) (ev : StopEvents) (d : Nat) (r : Option Err)
    (h : delivery w ch ev = some (d, r)) : r = sysErr ev.wait := by
  unfold delivery at h
  split at h
  · simp at h
  · split at h
    · cases hx : ev.exit with
      | none => simp [hx] at h
      | some d2 =>
        simp [hx] at h
        exact h.2.symm
    · simp at h
      exact h.2.symm

theorem sysErr_ne_timeout (code : Option Nat) : sysErr code ≠ some errTimeout := by
  cases code <;> simp [sysErr, errTimeout]

theorem Stop_force_never_timeout (inst : Instance) (timeout : Int) (w : World)
    (ev : StopEvents) : (inst.Stop timeout true w ev).out ≠ Exit.ret (some errTimeout) := by
  unfold Instance.Stop
  dsimp only
  split
  · simp
  · split
    · simp [errTimeout]
    · split
      · rename_i r hsel
        obtain ⟨d, hd⟩ := selectFired_done _ _ _ _ hsel
        have := delivery_value _ _ _ _ _ hd
        have h2 := sysErr_ne_timeout ev.wait
        simp only [ne_eq, Exit.ret.injEq]
        rw [this]
        exact h2
      · simp only [Bool.not_true, Bool.false_eq_true, if_false]
        split
        · simp [errTimeout]
        · split <;> simp
  · simp

/-- C6, as stated, fails: a live process (PID 101) gets the interrupt, is
still running when the grace period of 100 ms ends and is gone before the
kill is sent; `Kill` reports an error and `Stop 100ms true` returns that
error, not success. -/
theorem C6_counterexample_kill_not_delivered :
    instT.Cmd.Process = some { Pid := 101 } ∧ worldLiveT.probe 101 = true
      ∧ killFailsT.intr = none ∧ killFailsT.outlasts 100000000 = true
      ∧ (instT.Stop 100000000 true worldLiveT killFailsT).out = Exit.ret (some (Err.sys 3))
      ∧ (instT.Stop 100000000 true worldLiveT killFailsT).out ≠ Exit.ret none := by
  decide

/-- C6 (amended): take a live instance (its exit-wait, if any, the pending
wait on its process) whose process gets the interrupt and is still running
when the grace period ends.  `Stop timeout true` sends the kill signal
right after the interrupt.  When the kill is delivered, the call receives
the value of the exit-wait and returns success whatever that value is,
the process no longer answering the probe; when the kill is not
delivered, the call returns the delivery error.  And for no input at all
does `Stop` with `force = true` return the termination-timeout error. -/
theorem C6_forced_stop (inst : Instance) (timeout : Int) (w : World) (ev : StopEvents)
    (p : Process) (hp : inst.Cmd.Process = some p) (hlive : w.probe p.Pid = true)
    (hwait : inst.waitsFor p = true) (hintr : ev.intr = none)
    (hout : ev.outlasts timeout = true) :
    (inst.Stop timeout true w ev).world.calls
        = w.calls ++ (if inst.done.isNone then [Call.wait p.Pid] else [])
            ++ [Call.signal p.Pid Sig.interrupt, Call.signal p.Pid Sig.kill]
      ∧ (ev.kill = none →
          (inst.Stop timeout true w ev).out = Exit.ret none
            ∧ (inst.Stop timeout true w ev).inst.done = some { pid := p.Pid, drained := true }
            ∧ (inst.Stop timeout true w ev).world.probe p.Pid = false)
      ∧ (∀ code, ev.kill = some code →
          (inst.Stop timeout true w ev).out = Exit.ret (some (Err.sys code))
            ∧ (inst.Stop timeout true w ev).world.live = w.live)
      ∧ (∀ (inst2 : Instance) (timeout2 : Int) (w2 : World) (ev2 : StopEvents),
          (inst2.Stop timeout2 true w2 ev2).out ≠ Exit.ret (some errTimeout)) := by
  rw [Stop_timeout_force inst timeout w ev p hp hlive hwait hintr hout]
  refine ⟨?_, ?_, ?_, Stop_force_never_timeout⟩
  · cases ev.kill <;> rfl
  · intro hk
    rw [hk]
    refine ⟨rfl, rfl, ?_⟩
    simp [World.probe]
  · intro code hk
    rw [hk]
    exact ⟨rfl, rfl⟩

/-- C6 (amended) at a concrete input: the process of `instT` ignores the
interrupt and the kill is delivered. -/
theorem C6_forced_stop_witness :
    instT.Cmd.Process = some { Pid := 101 } ∧ worldLiveT.probe 101 = true
      ∧ instT.waitsFor { Pid := 101 } = true ∧ ignoresT.intr = none
      ∧ ignoresT.outlasts 100000000 = true ∧ ignoresT.kill = none
      ∧ (instT.Stop 100000000 true worldLiveT ignoresT).out = Exit.ret none
      ∧ (instT.Stop 100000000 true worldLiveT ignoresT).world.calls
          = [Call.wait 101, Call.signal 101 Sig.interrupt, Call.signal 101 Sig.kill] :=
  ⟨rfl, by decide, by decide, rfl, by decide, rfl,
   ((C6_forced_stop instT 100000000 worldLiveT ignoresT { Pid := 101 } rfl (by decide)
      (by decide) rfl (by decide)).2.1 rfl).1,
   (C6_forced_stop instT 100000000 worldLiveT ignoresT { Pid := 101 } rfl (by decide)
      (by decide) rfl (by decide)).1⟩

/-! ## Stop on a dead process, and the Restartable flag -/

/-- Whatever `Stop` does, it leaves the flag cleared and touches neither
the name, nor the stored environment, nor the command. -/
theorem Stop_fields (inst : Instance) (timeout : Int) (force : Bool) (w : World)
    (ev : StopEvents) :
    (inst.Stop timeout force w ev).inst.Restartable = false
      ∧ (inst.Stop timeout force w ev).inst.Name = inst.Name
      ∧ (inst.Stop timeout force w ev).inst.Env = inst.Env
      ∧ (inst.Stop timeout force w ev).inst.Cmd = inst.Cmd := by
  unfold Instance.Stop
  dsimp only
  repeat' split
  all_goals exact ⟨rfl, rfl, rfl, rfl⟩

theorem Stop_nil_process (inst : Instance) (timeout : Int) (force : Bool) (w : World)
    (ev : StopEvents) (h : inst.Cmd.Process = none) :
    inst.Stop timeout force w ev
      = { inst := { inst with Restartable := false }, world := w, out := Exit.panic } := by
  simp [Instance.Stop, Instance.IsAlive, h]

theorem Stop_dead (inst : Instance) (timeout : Int) (force : Bool) (w : World)
    (ev : StopEvents) (p : Process) (hp : inst.Cmd.Process = some p)
    (hdead : w.probe p.Pid = false) :
    inst.Stop timeout force w ev
      = { inst := { inst with Restartable := false }, world := w, out := Exit.ret none } := by
  simp [Instance.Stop, Instance.IsAlive, hp, hdead]

theorem probe_reap (w : World) (pid : Int) : (w.reap pid).probe pid = false := by
  simp [World.probe, World.reap]

/-- `Stop` on a live process whose exit-wait is in order, branch by
branch. -/
theorem Stop_live (inst : Instance) (timeout : Int) (force : Bool) (w : World)
    (ev : StopEvents) (p : Process) (hp : inst.Cmd.Process = some p)
    (hlive : w.probe p.Pid = true) (hwait : inst.waitsFor p = true) :
    inst.Stop timeout force w ev
      = match ev.intr with
        | some code =>
          { inst := { inst with Restartable := false,
                                done := some { pid := p.Pid, drained := false } },
            world := { w with calls := w.calls
                        ++ (if inst.done.isNone then [Call.wait p.Pid] else [])
                        ++ [Call.signal p.Pid Sig.interrupt] },
            out := Exit.ret (some (Err.sys code)) }
        | none =>
          match selectFired timeout ev.tie (ev.exit.map (fun d => (d, sysErr ev.wait))) with
          | Fired.done r =>
            { inst := { inst with Restartable := false,
                                  done := some { pid := p.Pid, drained := true } },
              world := { w with live := w.live.filter (fun q => q != p.Pid),
                                calls := w.calls
                          ++ (if inst.done.isNone then [Call.wait p.Pid] else [])
                          ++ [Call.signal p.Pid Sig.interrupt] },
              out := Exit.ret r }
          | Fired.timer =>
            if force then
              match ev.kill with
              | some code =>
                { inst := { inst with Restartable := false,
                                      done := some { pid := p.Pid, drained := false } },
                  world := { w with calls := w.calls
                              ++ (if inst.done.isNone then [Call.wait p.Pid] else [])
                              ++ [Call.signal p.Pid Sig.interrupt, Call.signal p.Pid Sig.kill] },
                  out := Exit.ret (some (Err.sys code)) }
              | none =>
                { inst := { inst with Restartable := false,
                                      done := some { pid := p.Pid, drained := true } },
                  world := { w with live := w.live.filter (fun q => q != p.Pid),
                                    calls := w.calls
                              ++ (if inst.done.isNone then [Call.wait p.Pid] else [])
                              ++ [Call.signal p.Pid Sig.interrupt, Call.signal p.Pid Sig.kill] },
                  out := Exit.ret none }
            else
              { inst := { inst with Restartable := false,
                                    done := some { pid := p.Pid, drained := false } },
                world := { w with calls := w.calls
                            ++ (if inst.done.isNone then [Call.wait p.Pid] else [])
                            ++ [Call.signal p.Pid Sig.interrupt] },
                out := Exit.ret (some errTimeout) } := by
  have hl2 : ∀ c : List Call,
      World.probe { environ := w.environ, live := w.live, calls := c } p.Pid = true :=
    fun _ => hlive
  rcases waitsFor_cases inst p hwait with hd | hd
  · cases hi : ev.intr with
    | some code =>
      simp [Instance.Stop, Instance.IsAlive, hp, hlive, hd, hi, World.log]
    | none =>
      cases hsel : selectFired timeout ev.tie (ev.exit.map (fun d => (d, sysErr ev.wait))) with
      | done r =>
        simp [Instance.Stop, Instance.IsAlive, hp, hlive, hd, hi, delivery, hl2, hsel,
          World.log, World.reap]
      | timer =>
        cases force <;> cases hk : ev.kill <;>
          simp [Instance.Stop, Instance.IsAlive, hp, hlive, hd, hi, delivery, hl2, hsel,
            World.log, World.reap, hk, awaited]
  · cases hi : ev.intr with
    | some code =>
      simp [Instance.Stop, Instance.IsAlive, hp, hlive, hd, hi, World.log]
    | none =>
      cases hsel : selectFired timeout ev.tie (ev.exit.map (fun d => (d, sysErr ev.wait))) with
      | done r =>
        simp [Instance.Stop, Instance.IsAlive, hp, hlive, hd, hi, delivery, hl2, hsel,
          World.log, World.reap]
      | timer =>
        cases force <;> cases hk : ev.kill <;>
          simp [Instance.Stop, Instance.IsAlive, hp, hlive, hd, hi, delivery, hl2, hsel,
            World.log, World.reap, hk, awaited]

/-- When a `Stop` on an instance whose exit-wait is in order ends with the
value of the exit-wait received, the process no longer answers the
probe. -/
theorem Stop_received_dead (inst : Instance) (timeout : Int) (force : Bool) (w : World)
    (ev : StopEvents) (p : Process) (hp : inst.Cmd.Process = some p)
    (hwait : inst.waitsFor p = true)
    (hrecv : (inst.Stop timeout force w ev).inst.done = some { pid := p.Pid, drained := true }) :
    (inst.Stop timeout force w ev).world.probe p.Pid = false := by
  by_cases hl : w.probe p.Pid = true
  · rw [Stop_live inst timeout force w ev p hp hl hwait] at hrecv ⊢
    cases hi : ev.intr with
    | some code => simp [hi] at hrecv
    | none =>
      simp only [hi] at hrecv ⊢
      cases hsel : selectFired timeout ev.tie (ev.exit.map (fun d => (d, sysErr ev.wait))) with
      | done r => simp [World.probe]
      | timer =>
        simp only [hsel] at hrecv ⊢
        cases force
        · simp at hrecv
        · cases hk : ev.kill with
          | some code => simp [hk] at hrecv
          | none => simp [World.probe]
  · simp only [Bool.not_eq_true] at hl
    rw [Stop_dead inst timeout force w ev p hp hl]
    exact hl

/-- C7: for an instance whose process is already dead, `Stop` returns
success at once for every timeout, either value of `force` and whatever
the OS would do: the world is untouched (no signal, no wait started), the
exit-wait of the instance is as before, only the flag is cleared.  Hence
`Stop` is idempotent: after a `Stop` that received the value of the
exit-wait of the process, every further `Stop` returns success and
changes neither the instance nor the world. -/
theorem C7_stop_dead_is_noop (inst : Instance) (w : World) (p : Process)
    (hp : inst.Cmd.Process = some p) :
    (w.probe p.Pid = false → ∀ (timeout : Int) (force : Bool) (ev : StopEvents),
        inst.Stop timeout force w ev
          = { inst := { inst with Restartable := false }, world := w, out := Exit.ret none })
      ∧ (inst.waitsFor p = true → ∀ (timeout : Int) (force : Bool) (ev : StopEvents),
          (inst.Stop timeout force w ev).inst.done = some { pid := p.Pid, drained := true } →
          ∀ (timeout2 : Int) (force2 : Bool) (ev2 : StopEvents),
            (inst.Stop timeout force w ev).inst.Stop timeout2 force2
                (inst.Stop timeout force w ev).world ev2
              = { inst := (inst.Stop timeout force w ev).inst,
                  world := (inst.Stop timeout force w ev).world, out := Exit.ret none }) := by
  refine ⟨fun hdead timeout force ev => Stop_dead inst timeout force w ev p hp hdead, ?_⟩
  intro hwait timeout force ev hrecv timeout2 force2 ev2
  have hdead := Stop_received_dead inst timeout force w ev p hp hwait hrecv
  obtain ⟨hr, _, _, hc⟩ := Stop_fields inst timeout force w ev
  have hp2 : (inst.Stop timeout force w ev).inst.Cmd.Process = some p := by rw [hc]; exact hp
  rw [Stop_dead _ timeout2 force2 _ ev2 p hp2 hdead]
  congr 1
  cases hi : (inst.Stop timeout force w ev).inst with
  | mk n c r e d =>
    rw [hi] at hr
    simp only at hr
    subst hr
    rfl

/-- C8: after every call of `Stop`, however it ends (also when it panics or
blocks), the `Restartable` flag of the instance is false and its name, its
stored environment and its command are unchanged.  The flag is cleared
before the liveness check: when that check itself fails, on a nil process,
the instance is left with the flag cleared and nothing else changed. -/
theorem C8_stop_clears_restartable (inst : Instance) (timeout : Int) (force : Bool) (w : World)
    (ev : StopEvents) :
    (inst.Stop timeout force w ev).inst.Restartable = false
      ∧ (inst.Stop timeout force w ev).inst.Name = inst.Name
      ∧ (inst.Stop timeout force w ev).inst.Env = inst.Env
      ∧ (inst.Stop timeout force w ev).inst.Cmd = inst.Cmd
      ∧ (inst.Cmd.Process = none →
          inst.Stop timeout force w ev
            = { inst := { inst with Restartable := false }, world := w, out := Exit.panic }) := by
  obtain ⟨h1, h2, h3, h4⟩ := Stop_fields inst timeout force w ev
  exact ⟨h1, h2, h3, h4, Stop_nil_process inst timeout force w ev⟩

/-- C7 at concrete inputs: `instT` in a world where PID 101 is gone, and a
second `Stop` after one that saw PID 101 exit. -/
theorem C7_stop_dead_is_noop_witness :
    instT.Cmd.Process = some { Pid := 101 } ∧ worldT.probe 101 = false
      ∧ instT.Stop 100000000 false worldT ignoresT
          = { inst := { instT with Restartable := false }, world := worldT, out := Exit.ret none }
      ∧ instT.waitsFor { Pid := 101 } = true
      ∧ (instT.Stop 100000000 false worldLiveT exitsT).inst.done
          = some { pid := 101, drained := true }
      ∧ (instT.Stop 100000000 false worldLiveT exitsT).inst.Stop 100000000 true
            (instT.Stop 100000000 false worldLiveT exitsT).world ignoresT
          = { inst := (instT.Stop 100000000 false worldLiveT exitsT).inst,
              world := (instT.Stop 100000000 false worldLiveT exitsT).world,
              out := Exit.ret none } :=
  ⟨rfl, by decide,
   (C7_stop_dead_is_noop instT worldT { Pid := 101 } rfl).1 (by decide) 100000000 false ignoresT,
   by decide, by decide,
   (C7_stop_dead_is_noop instT worldLiveT { Pid := 101 } rfl).2 (by decide) 100000000 false
     exitsT (by decide) 100000000 true ignoresT⟩

/-! ## An explicit stop is final -/

theorem flagsStayCleared_refl (a : Supervisor) : a.flagsStayCleared a :=
  ⟨le_refl _, fun _ _ i h => ⟨i, h, fun h2 => h2⟩⟩

theorem flagsStayCleared_trans (a b c : Supervisor) (hab : a.flagsStayCleared b)
    (hbc : b.flagsStayCleared c) : a.flagsStayCleared c := by
  refine ⟨le_trans hab.1 hbc.1, ?_⟩
  intro k hk i hi
  obtain ⟨i1, h1, h2⟩ := hbc.2 k (le_trans hk hab.1) i hi
  obtain ⟨i0, h3, h4⟩ := hab.2 k hk i1 h1
  exact ⟨i0, h3, fun h => h2 (h4 h)⟩

theorem flagsStayCleared_store (sv : Supervisor) (id : Int) (x : Instance)
    (h : ∀ i0, sv.getInstance id = some i0 → i0.Restartable = false → x.Restartable = false) :
    sv.flagsStayCleared (sv.store id x) := by
  refine ⟨le_refl _, ?_⟩
  intro k _ i hi
  rw [getInstance_store] at hi
  by_cases hk : k = id
  · subst hk
    rw [if_pos rfl] at hi
    cases h0 : sv.getInstance k with
    | none => rw [h0] at hi; simp at hi
    | some i0 =>
      rw [h0] at hi
      simp only [Option.map_some', Option.some.injEq] at hi
      subst hi
      exact ⟨i0, rfl, h i0 h0⟩
  · rw [if_neg hk] at hi
    exact ⟨i, hi, fun h2 => h2⟩

theorem flagsStayCleared_delete (sv : Supervisor) (id : Int) :
    sv.flagsStayCleared (sv.deleteInstance id) := by
  refine ⟨le_refl _, ?_⟩
  intro k _ i hi
  rw [getInstance_deleteInstance] at hi
  by_cases hk : k = id
  · rw [if_pos hk] at hi; simp at hi
  · rw [if_neg hk] at hi
    exact ⟨i, hi, fun h2 => h2⟩

theorem flagsStayCleared_add (sv : Supervisor) (x : Instance) :
    sv.flagsStayCleared (sv.addInstance x).1 := by
  refine ⟨?_, ?_⟩
  · show sv.lastId ≤ sv.lastId + 1
    omega
  · intro k hk i hi
    rw [getInstance_addInstance] at hi
    have hne : k ≠ sv.lastId + 1 := by omega
    rw [if_neg hne] at hi
    exact ⟨i, hi, fun h2 => h2⟩

theorem flagsStayCleared_StartInstance (sv : Supervisor) (w : World) (name : String)
    (env : List String) (restartable : Bool) (ev : StartEvents) :
    sv.flagsStayCleared (sv.StartInstance w name env restartable ev).sv := by
  unfold Supervisor.StartInstance
  split
  · exact flagsStayCleared_refl sv
  · dsimp only
    split
    · exact flagsStayCleared_refl sv
    · split
      · exact flagsStayCleared_refl sv
      · exact flagsStayCleared_add sv _

theorem flagsStayCleared_StopInstance (sv : Supervisor) (w : World) (id : Int) (force : Bool)
    (ev : StopEvents) : sv.flagsStayCleared (sv.StopInstance w id force ev).sv := by
  unfold Supervisor.StopInstance
  split
  · exact flagsStayCleared_refl sv
  · rename_i inst _
    dsimp only
    have hs := flagsStayCleared_store sv id (inst.Stop sv.cfg.TermTimeout force w ev).inst
      (fun _ _ _ => (Stop_fields inst _ _ _ _).1)
    split
    · exact flagsStayCleared_trans _ _ _ hs (flagsStayCleared_delete _ _)
    · exact hs

theorem getInstanceByPid_some (sv : Supervisor) (pid : Int) (visit : List Int) (k : Int)
    (i : Instance) (h : sv.getInstanceByPid pid visit = Exit.ret (k, some i)) :
    sv.getInstance k = some i ∧ ∃ p, i.Cmd.Process = some p ∧ p.Pid = pid := by
  induction visit with
  | nil => simp [Supervisor.getInstanceByPid] at h
  | cons id rest ih =>
    unfold Supervisor.getInstanceByPid at h
    split at h
    · exact ih h
    · rename_i inst hinst
      split at h
      · simp at h
      · rename_i p hp
        split at h
        · rename_i hpid
          simp only [Exit.ret.injEq, Prod.mk.injEq, Option.some.injEq] at h
          obtain ⟨h1, h2⟩ := h
          subst h1 h2
          exact ⟨hinst, p, hp, hpid⟩
        · exact ih h

theorem getInstanceByPid_none (sv : Supervisor) (pid : Int) (visit : List Int) (k : Int)
    (h : sv.getInstanceByPid pid visit = Exit.ret (k, none)) : k = 0 := by
  induction visit with
  | nil =>
    simp [Supervisor.getInstanceByPid] at h
    exact h.symm
  | cons id rest ih =>
    unfold Supervisor.getInstanceByPid at h
    split at h
    · exact ih h
    · split at h
      · simp at h
      · split at h
        · simp at h
        · exact ih h

theorem flagsStayCleared_RestartAfterTermInstance (sv : Supervisor) (w : World) (pid : Int)
    (visit : List Int) (l : Launch) :
    sv.flagsStayCleared (sv.RestartAfterTermInstance w pid visit l).sv := by
  unfold Supervisor.RestartAfterTermInstance
  split
  · exact flagsStayCleared_refl sv
  · rename_i id inst hlook
    split
    · exact flagsStayCleared_refl sv
    · split
      · exact flagsStayCleared_refl sv
      · rename_i hr
        dsimp only
        apply flagsStayCleared_store
        intro i0 h0 hf
        rw [(getInstanceByPid_some sv pid visit id inst hlook).1] at h0
        simp only [Option.some.injEq] at h0
        subst h0
        simp [hf] at hr
    · exact flagsStayCleared_refl sv
  · exact flagsStayCleared_refl sv

theorem flagsStayCleared_stopEach (evs : Int → StopEvents) (visit : List Int) :
    ∀ (sv : Supervisor) (w : World), sv.flagsStayCleared (sv.stopEach w evs visit).sv := by
  induction visit with
  | nil => intro sv w; exact flagsStayCleared_refl sv
  | cons id rest ih =>
    intro sv w
    unfold Supervisor.stopEach
    split
    · exact ih sv w
    · rename_i inst _
      dsimp only
      have hs := flagsStayCleared_store sv id
        (inst.Stop sv.cfg.TermTimeout true w (evs id)).inst
        (fun _ _ _ => (Stop_fields inst _ _ _ _).1)
      split
      · exact flagsStayCleared_trans _ _ _
          (flagsStayCleared_trans _ _ _ hs (flagsStayCleared_delete _ _)) (ih _ _)
      · exact hs
      · exact flagsStayCleared_trans _ _ _ hs (ih _ _)

theorem flagsStayCleared_step (sv : Supervisor) (w : World) (op : Op) :
    sv.flagsStayCleared (stepState sv w op).1 := by
  cases op with
  | start name env restartable ev => exact flagsStayCleared_StartInstance sv w name env restartable ev
  | stop id force ev => exact flagsStayCleared_StopInstance sv w id force ev
  | restartAfterTerm pid visit l => exact flagsStayCleared_RestartAfterTermInstance sv w pid visit l
  | stopAll visit evs => exact flagsStayCleared_stopEach evs visit sv w
  | death pid => exact flagsStayCleared_refl sv

theorem flagsStayCleared_run (ops : List Op) :
    ∀ (sv : Supervisor) (w : World), sv.flagsStayCleared (runState sv w ops).1 := by
  induction ops with
  | nil => intro sv w; exact flagsStayCleared_refl sv
  | cons op rest ih =>
    intro sv w
    exact flagsStayCleared_trans _ _ _ (flagsStayCleared_step sv w op) (ih _ _)

/-- After `StopInstance id` on a registered `id`, the instance still held
under `id`, if any, has its flag cleared. -/
theorem StopInstance_clears_flag (sv : Supervisor) (w : World) (id : Int) (force : Bool)
    (ev : StopEvents) (inst : Instance) (hreg : sv.getInstance id = some inst) (i : Instance)
    (hi : (sv.StopInstance w id force ev).sv.getInstance id = some i) :
    i.Restartable = false := by
  rw [StopInstance_of_registered sv w id force ev inst hreg] at hi
  have hst : ∀ x : Instance, (sv.store id x).getInstance id = some x := by
    intro x
    rw [getInstance_store, if_pos rfl, hreg]
    rfl
  have hf := (Stop_fields inst sv.cfg.TermTimeout force w ev).1
  split at hi
  · simp [getInstance_deleteInstance] at hi
  · rw [hst] at hi
    simp only [Option.some.injEq] at hi
    rw [← hi]
    exact hf

/-- C9: once `StopInstance id` has been called on a registered instance,
whether it succeeded, failed, panicked or blocked, then after any further
run of registry operations and child deaths, a `RestartAfterTermInstance`
whose lookup by PID finds that instance, or finds nothing, returns an
error and changes neither the registry nor the world: no process is
launched. -/
theorem C9_stopped_never_restarted (sv : Supervisor) (w : World) (id : Int) (force : Bool)
    (ev : StopEvents) (inst : Instance) (hreg : sv.getInstance id = some inst)
    (hid : id ≤ sv.lastId) (ops : List Op) (pid : Int) (visit : List Int) (l : Launch)
    (hlook :
      (runState (sv.StopInstance w id force ev).sv (sv.StopInstance w id force ev).world
          ops).1.getInstanceByPid pid visit = Exit.ret (0, none)
      ∨ ∃ i, (runState (sv.StopInstance w id force ev).sv (sv.StopInstance w id force ev).world
          ops).1.getInstanceByPid pid visit = Exit.ret (id, some i)) :
    ∃ j e,
      (runState (sv.StopInstance w id force ev).sv (sv.StopInstance w id force ev).world
          ops).1.RestartAfterTermInstance
        (runState (sv.StopInstance w id force ev).sv (sv.StopInstance w id force ev).world
          ops).2 pid visit l
      = { sv := (runState (sv.StopInstance w id force ev).sv
                  (sv.StopInstance w id force ev).world ops).1,
          world := (runState (sv.StopInstance w id force ev).sv
                  (sv.StopInstance w id force ev).world ops).2,
          out := Exit.ret (j, some e) } := by
  have hrun := flagsStayCleared_run ops (sv.StopInstance w id force ev).sv
    (sv.StopInstance w id force ev).world
  have hid1 : id ≤ (sv.StopInstance w id force ev).sv.lastId := by
    rw [StopInstance_lastId]
    exact hid
  generalize (runState (sv.StopInstance w id force ev).sv (sv.StopInstance w id force ev).world
    ops) = s2 at hrun hlook ⊢
  unfold Supervisor.RestartAfterTermInstance
  rcases hlook with h0 | ⟨i, hi⟩
  · rw [h0]
    exact ⟨0, _, rfl⟩
  · rw [hi]
    obtain ⟨hget, p, hp, _⟩ := getInstanceByPid_some s2.1 pid visit id i hi
    obtain ⟨i0, h1, h2⟩ := hrun.2 id hid1 i hget
    have hflag : i.Restartable = false :=
      h2 (StopInstance_clears_flag sv w id force ev inst hreg i0 h1)
    simp only [Instance.IsAlive, hp]
    cases s2.2.probe p.Pid
    · simp only [hflag, Bool.not_false, if_true]
      exact ⟨id, _, rfl⟩
    · exact ⟨id, _, rfl⟩

/-- C9 at a concrete input: `StopInstance 1 false` times out, the process
dies later, and its PID is handed to `RestartAfterTermInstance`. -/
theorem C9_stopped_never_restarted_witness :
    svT.getInstance 1 = some instT ∧ (1 : Int) ≤ svT.lastId
      ∧ ∃ j e,
          (runState (svT.StopInstance worldLiveT 1 false ignoresT).sv
              (svT.StopInstance worldLiveT 1 false ignoresT).world
              [Op.death 101]).1.RestartAfterTermInstance
            (runState (svT.StopInstance worldLiveT 1 false ignoresT).sv
              (svT.StopInstance worldLiveT 1 false ignoresT).world [Op.death 101]).2
            101 [1] (Launch.started 102 (by decide))
          = { sv := (runState (svT.StopInstance worldLiveT 1 false ignoresT).sv
                      (svT.StopInstance worldLiveT 1 false ignoresT).world [Op.death 101]).1,
              world := (runState (svT.StopInstance worldLiveT 1 false ignoresT).sv
                      (svT.StopInstance worldLiveT 1 false ignoresT).world [Op.death 101]).2,
              out := Exit.ret (j, some e) } :=
  ⟨by decide, by decide,
   C9_stopped_never_restarted svT worldLiveT 1 false ignoresT instT (by decide) (by decide)
     [Op.death 101] 101 [1] (Launch.started 102 (by decide)) (Or.inr ⟨_, rfl⟩)⟩

/-! ## A completed stop and the registry -/

theorem selectFired_exitsWithin (timeout : Int) (ev : StopEvents)
    (h : ev.exitsWithin timeout = true) :
    selectFired timeout ev.tie (ev.exit.map (fun d => (d, sysErr ev.wait)))
      = Fired.done (sysErr ev.wait) := by
  unfold StopEvents.exitsWithin at h
  cases hd : ev.exit with
  | none => simp [hd] at h
  | some d =>
    rw [hd] at h
    have h1 : (d : Int) < timeout := by simpa using h
    simp [selectFired, h1]

/-- `StopInstance` on a registered identifier whose `Stop` returns nil. -/
theorem StopInstance_on_success (sv : Supervisor) (w : World) (id : Int) (force : Bool)
    (ev : StopEvents) (inst : Instance) (hreg : sv.getInstance id = some inst)
    (hout : (inst.Stop sv.cfg.TermTimeout force w ev).out = Exit.ret none) :
    (sv.StopInstance w id force ev).out = Exit.ret none
      ∧ (sv.StopInstance w id force ev).sv.getInstance id = none := by
  rw [StopInstance_of_registered sv w id force ev inst hreg, hout]
  exact ⟨rfl, by simp [getInstance_deleteInstance]⟩

/-- `StopInstance` on a registered identifier whose `Stop` returns an
error. -/
theorem StopInstance_on_error (sv : Supervisor) (w : World) (id : Int) (force : Bool)
    (ev : StopEvents) (inst : Instance) (hreg : sv.getInstance id = some inst) (e : Err)
    (hout : (inst.Stop sv.cfg.TermTimeout force w ev).out = Exit.ret (some e)) :
    (sv.StopInstance w id force ev).out = Exit.ret (some e)
      ∧ (sv.StopInstance w id force ev).sv.ids = sv.ids
      ∧ (sv.StopInstance w id force ev).sv.getInstance id ≠ none := by
  rw [StopInstance_of_registered sv w id force ev inst hreg, hout]
  refine ⟨rfl, ids_store _ _ _, ?_⟩
  show (sv.store id _).getInstance id ≠ none
  rw [getInstance_store, if_pos rfl, hreg]
  simp

/-- C10, as stated, fails: the process of the registered instance 1 exits
5 ms after the interrupt, within the grace period of 100 ms, and its wait
reports an error; the exit has been observed (the process no longer
answers the probe, the value of the exit-wait has been received), yet
`StopInstance` returns the wait error and identifier 1 is still in the
registry. -/
theorem C10_counterexample_failed_exit_stays :
    svT.getInstance 1 = some instT ∧ worldLiveT.probe 101 = true
      ∧ exitsFailedT.exitsWithin svT.cfg.TermTimeout = true
      ∧ (svT.StopInstance worldLiveT 1 false exitsFailedT).out = Exit.ret (some (Err.sys 1))
      ∧ (svT.StopInstance worldLiveT 1 false exitsFailedT).world.probe 101 = false
      ∧ (svT.StopInstance worldLiveT 1 false exitsFailedT).sv.getInstance 1
          = some { instT with Restartable := false,
                              done := some { pid := 101, drained := true } }
      ∧ (svT.StopInstance worldLiveT 1 true exitsFailedT).sv.getInstance 1 ≠ none := by
  decide

/-- C10 (amended): take a registered live instance (its exit-wait, if any,
the pending wait on its process) whose process gets the interrupt.  When
the process exits within the grace period and its wait returns nil,
`StopInstance` returns success and the identifier is no longer in the
registry; when the process is still running at the end of the grace
period and the forced kill is delivered, `StopInstance id true` returns
success and the identifier is no longer in the registry, whatever the wait
returns; when the process exits within the grace period and its wait
returns an error, `StopInstance` returns that error and the registered
identifiers are unchanged. -/
theorem C10_completed_stop_unregisters (sv : Supervisor) (w : World) (id : Int)
    (ev : StopEvents) (inst : Instance) (p : Process) (hreg : sv.getInstance id = some inst)
    (hp : inst.Cmd.Process = some p) (hlive : w.probe p.Pid = true)
    (hwait : inst.waitsFor p = true) (hintr : ev.intr = none) :
    (ev.exitsWithin sv.cfg.TermTimeout = true → ev.wait = none → ∀ force : Bool,
        (sv.StopInstance w id force ev).out = Exit.ret none
          ∧ (sv.StopInstance w id force ev).sv.getInstance id = none)
      ∧ (ev.outlasts sv.cfg.TermTimeout = true → ev.kill = none →
          (sv.StopInstance w id true ev).out = Exit.ret none
            ∧ (sv.StopInstance w id true ev).sv.getInstance id = none)
      ∧ (ev.exitsWithin sv.cfg.TermTimeout = true → ∀ code, ev.wait = some code →
          ∀ force : Bool,
            (sv.StopInstance w id force ev).out = Exit.ret (some (Err.sys code))
              ∧ (sv.StopInstance w id force ev).sv.ids = sv.ids
              ∧ (sv.StopInstance w id force ev).sv.getInstance id ≠ none) := by
  refine ⟨?_, ?_, ?_⟩
  · intro hin hw force
    apply StopInstance_on_success sv w id force ev inst hreg
    rw [Stop_live inst _ force w ev p hp hlive hwait, hintr]
    simp only [selectFired_exitsWithin _ ev hin]
    simp only [hw, sysErr, Option.map_none']
  · intro hlast hk
    apply StopInstance_on_success sv w id true ev inst hreg
    rw [Stop_live inst _ true w ev p hp hlive hwait, hintr]
    simp only [selectFired_outlasts _ ev hlast, hk, if_true]
  · intro hin code hw force
    apply StopInstance_on_error sv w id force ev inst hreg
    rw [Stop_live inst _ force w ev p hp hlive hwait, hintr]
    simp only [selectFired_exitsWithin _ ev hin]
    simp only [hw, sysErr, Option.map_some']

/-- C10 (amended) at concrete inputs: a clean exit within the grace
period, and a forced kill of a process that ignores the interrupt. -/
theorem C10_completed_stop_unregisters_witness :
    svT.getInstance 1 = some instT ∧ instT.Cmd.Process = some { Pid := 101 }
      ∧ worldLiveT.probe 101 = true ∧ instT.waitsFor { Pid := 101 } = true
      ∧ exitsT.intr = none ∧ exitsT.exitsWithin svT.cfg.TermTimeout = true ∧ exitsT.wait = none
      ∧ ignoresT.intr = none ∧ ignoresT.outlasts svT.cfg.TermTimeout = true
      ∧ ignoresT.kill = none
      ∧ (svT.StopInstance worldLiveT 1 false exitsT).sv.getInstance 1 = none
      ∧ (svT.StopInstance worldLiveT 1 true ignoresT).sv.getInstance 1 = none :=
  ⟨by decide, rfl, by decide, by decide, rfl, by decide, rfl, rfl, by decide, rfl,
   ((C10_completed_stop_unregisters svT worldLiveT 1 exitsT instT { Pid := 101 } (by decide) rfl
      (by decide) (by decide) rfl).1 (by decide) rfl false).2,
   ((C10_completed_stop_unregisters svT worldLiveT 1 ignoresT instT { Pid := 101 } (by decide)
      rfl (by decide) (by decide) rfl).2.1 (by decide) rfl).2⟩

/-! ## The exit-wait of registered instances -/

theorem waitOk_live (inst : Instance) (w : World) (p : Process) (h : inst.waitOk w)
    (hp : inst.Cmd.Process = some p) (hlive : w.probe p.Pid = true) :
    inst.waitsFor p = true := by
  unfold Instance.waitOk at h
  unfold Instance.waitsFor
  cases hd : inst.done with
  | none => rfl
  | some ch =>
    rw [hd] at h
    obtain ⟨_, q, hq, hpid, hdr⟩ := h
    rw [hp] at hq
    simp only [Option.some.injEq] at hq
    subst hq
    have : ch.drained = false := by
      cases hc : ch.drained with
      | false => rfl
      | true => rw [hdr hc] at hlive; simp at hlive
    simp [hpid, this]

theorem probe_reap_mono (w : World) (r q : Int) (h : w.probe q = false) :
    (w.reap r).probe q = false := by
  simp only [World.probe, World.reap, List.contains_eq_any_beq, List.any_filter,
    List.any_eq_false, Bool.and_eq_true, not_and] at h ⊢
  intro x hx _
  simpa using h x hx

theorem Stop_probe_mono (inst : Instance) (timeout : Int) (force : Bool) (w : World)
    (ev : StopEvents) (q : Int) (h : w.probe q = false) :
    (inst.Stop timeout force w ev).world.probe q = false := by
  have hreap : ∀ (w2 : World) (r : Int), w2.probe q = false → (w2.reap r).probe q = false :=
    fun w2 r h2 => probe_reap_mono w2 r q h2
  have hlog : ∀ (w2 : World) (c : Call), w2.probe q = false → (w2.log c).probe q = false :=
    fun _ _ h2 => h2
  unfold Instance.Stop
  dsimp only
  repeat' split
  all_goals first
    | exact h
    | exact hlog _ _ h
    | exact hlog _ _ (hlog _ _ h)
    | exact hlog _ _ (hlog _ _ (hlog _ _ h))
    | exact hreap _ _ (hlog _ _ h)

theorem waitOk_mono (inst : Instance) (w w2 : World)
    (hmono : ∀ q, w.probe q = false → w2.probe q = false) (h : inst.waitOk w) :
    inst.waitOk w2 := by
  unfold Instance.waitOk at h ⊢
  cases hd : inst.done with
  | none => trivial
  | some ch =>
    rw [hd] at h
    obtain ⟨hr, p, hp, hpid, hdr⟩ := h
    exact ⟨hr, p, hp, hpid, fun hc => hmono _ (hdr hc)⟩

/-- `Stop` keeps the exit-wait of its instance consistent with the world. -/
theorem Stop_waitOk (inst : Instance) (timeout : Int) (force : Bool) (w : World)
    (ev : StopEvents) (h : inst.waitOk w) :
    (inst.Stop timeout force w ev).inst.waitOk (inst.Stop timeout force w ev).world := by
  have hflag : ∀ x : Instance, x.waitOk w → x.Cmd = inst.Cmd → x.done = inst.done →
      Instance.waitOk { x with Restartable := false } w := by
    intro x hx _ _
    unfold Instance.waitOk at hx ⊢
    cases hd : x.done with
    | none => simp [hd]
    | some ch =>
      rw [hd] at hx
      simp only [hd]
      exact ⟨trivial, hx.2⟩
  cases hp : inst.Cmd.Process with
  | none =>
    rw [Stop_nil_process inst timeout force w ev hp]
    exact hflag inst h rfl rfl
  | some p =>
    by_cases hl : w.probe p.Pid = true
    · have hw := waitOk_live inst w p h hp hl
      rw [Stop_live inst timeout force w ev p hp hl hw]
      have hopen : ∀ w2 : World, Instance.waitOk
          { inst with Restartable := false, done := some { pid := p.Pid, drained := false } }
          w2 := by
        intro w2
        exact ⟨rfl, p, hp, rfl, fun hc => by simp at hc⟩
      have hshut : ∀ c : List Call, Instance.waitOk
          { inst with Restartable := false, done := some { pid := p.Pid, drained := true } }
          { w with live := w.live.filter (fun q => q != p.Pid), calls := c } := by
        intro c
        exact ⟨rfl, p, hp, rfl, fun _ => by simp [World.probe]⟩
      cases ev.intr with
      | some code => exact hopen _
      | none =>
        dsimp only
        cases selectFired timeout ev.tie (ev.exit.map (fun d => (d, sysErr ev.wait))) with
        | done r => exact hshut _
        | timer =>
          dsimp only
          cases force
          · exact hopen _
          · cases ev.kill with
            | some code => exact hopen _
            | none => exact hshut _
    · simp only [Bool.not_eq_true] at hl
      rw [Stop_dead inst timeout force w ev p hp hl]
      exact hflag inst h rfl rfl

theorem waitsOk_store (sv : Supervisor) (w w2 : World) (id : Int) (x : Instance)
    (h : sv.waitsOk w) (hmono : ∀ q, w.probe q = false → w2.probe q = false)
    (hx : x.waitOk w2) : (sv.store id x).waitsOk w2 := by
  intro k i hi
  rw [getInstance_store] at hi
  by_cases hk : k = id
  · rw [if_pos hk] at hi
    cases h0 : sv.getInstance k with
    | none => rw [h0] at hi; simp at hi
    | some i0 =>
      rw [h0] at hi
      simp only [Option.map_some', Option.some.injEq] at hi
      rw [← hi]
      exact hx
  · rw [if_neg hk] at hi
    exact waitOk_mono i w w2 hmono (h k i hi)

theorem waitsOk_delete (sv : Supervisor) (w : World) (id : Int) (h : sv.waitsOk w) :
    (sv.deleteInstance id).waitsOk w := by
  intro k i hi
  rw [getInstance_deleteInstance] at hi
  by_cases hk : k = id
  · rw [if_pos hk] at hi; simp at hi
  · rw [if_neg hk] at hi
    exact h k i hi

theorem waitsOk_StopInstance (sv : Supervisor) (w : World) (id : Int) (force : Bool)
    (ev : StopEvents) (h : sv.waitsOk w) :
    (sv.StopInstance w id force ev).sv.waitsOk (sv.StopInstance w id force ev).world := by
  unfold Supervisor.StopInstance
  split
  · exact h
  · rename_i inst hreg
    dsimp only
    have hs := waitsOk_store sv w _ id _ h
      (fun q hq => Stop_probe_mono inst sv.cfg.TermTimeout force w ev q hq)
      (Stop_waitOk inst sv.cfg.TermTimeout force w ev (h id inst hreg))
    split
    · exact waitsOk_delete _ _ _ hs
    · exact hs

theorem waitsOk_stopEach (evs : Int → StopEvents) (visit : List Int) :
    ∀ (sv : Supervisor) (w : World), sv.waitsOk w →
      (sv.stopEach w evs visit).sv.waitsOk (sv.stopEach w evs visit).world := by
  induction visit with
  | nil => intro sv w h; exact h
  | cons id rest ih =>
    intro sv w h
    unfold Supervisor.stopEach
    split
    · exact ih sv w h
    · rename_i inst hreg
      dsimp only
      have hs := waitsOk_store sv w _ id _ h
        (fun q hq => Stop_probe_mono inst sv.cfg.TermTimeout true w (evs id) q hq)
        (Stop_waitOk inst sv.cfg.TermTimeout true w (evs id) (h id inst hreg))
      split
      · exact ih _ _ (waitsOk_delete _ _ _ hs)
      · exact hs
      · exact ih _ _ hs

theorem waitOk_spawn (inst : Instance) (w : World) (pid : Int) (c : List Call)
    (h : inst.waitOk w) (hfree : ∀ p, inst.Cmd.Process = some p → p.Pid ≠ pid) :
    inst.waitOk { w with live := pid :: w.live, calls := c } := by
  unfold Instance.waitOk at h ⊢
  cases hd : inst.done with
  | none => trivial
  | some ch =>
    rw [hd] at h
    obtain ⟨hr, p, hp, hpid, hdr⟩ := h
    refine ⟨hr, p, hp, hpid, fun hc => ?_⟩
    have h1 := hdr hc
    have h2 := hfree p hp
    simp only [World.probe, List.contains_cons, Bool.or_eq_false_iff, beq_eq_false_iff_ne, ne_eq]
    exact ⟨h2, h1⟩

theorem waitsOk_StartInstance (sv : Supervisor) (w : World) (name : String)
    (env : List String) (restartable : Bool) (ev : StartEvents) (h : sv.waitsOk w)
    (hfresh : freshStep sv (Op.start name env restartable ev)) :
    (sv.StartInstance w name env restartable ev).sv.waitsOk
      (sv.StartInstance w name env restartable ev).world := by
  unfold Supervisor.StartInstance
  split
  · exact h
  · dsimp only
    split
    · exact fun k i hi => waitOk_mono i w _ (fun _ hq => hq) (h k i hi)
    · cases hl : ev.launch with
      | failed code =>
        simp only [Instance.Start, Cmd.Start]
        exact fun k i hi => waitOk_mono i w _ (fun _ hq => hq) (h k i hi)
      | started pid pos =>
        simp only [freshStep, hl] at hfresh
        simp only [Instance.Start, Cmd.Start]
        intro k i hi
        rw [getInstance_addInstance] at hi
        by_cases hk : k = sv.lastId + 1
        · rw [if_pos hk] at hi
          simp only [Option.some.injEq] at hi
          rw [← hi]
          trivial
        · rw [if_neg hk] at hi
          exact waitOk_spawn i w pid _ (h k i hi) (fun p hp => hfresh k i p hi hp)

theorem waitsOk_RestartAfterTermInstance (sv : Supervisor) (w : World) (pid : Int)
    (visit : List Int) (l : Launch) (h : sv.waitsOk w)
    (hfresh : freshStep sv (Op.restartAfterTerm pid visit l)) :
    (sv.RestartAfterTermInstance w pid visit l).sv.waitsOk
      (sv.RestartAfterTermInstance w pid visit l).world := by
  unfold Supervisor.RestartAfterTermInstance
  split
  · exact h
  · rename_i id inst hlook
    have hget := (getInstanceByPid_some sv pid visit id inst hlook).1
    split
    · exact h
    · split
      · exact h
      · rename_i hr
        have hflag : inst.Restartable = true := by simpa using hr
        have hnone : inst.done = none := by
          have := h id inst hget
          unfold Instance.waitOk at this
          cases hd : inst.done with
          | none => rfl
          | some ch =>
            rw [hd] at this
            rw [this.1] at hflag
            simp at hflag
        dsimp only
        cases l with
        | failed code =>
          simp only [Instance.Restart, Cmd.Start]
          apply waitsOk_store sv w _ id _ h (fun _ hq => hq)
          simp [Instance.waitOk, hnone]
        | started npid pos =>
          simp only [freshStep] at hfresh
          simp only [Instance.Restart, Cmd.Start]
          intro k i hi
          rw [getInstance_store] at hi
          by_cases hk : k = id
          · rw [if_pos hk] at hi
            subst hk
            rw [hget] at hi
            simp only [Option.map_some', Option.some.injEq] at hi
            rw [← hi]
            simp [Instance.waitOk, hnone]
          · rw [if_neg hk] at hi
            exact waitOk_spawn i w npid _ (h k i hi) (fun p hp => hfresh k i p hi hp)
    · exact h
  · exact h

theorem waitsOk_step (sv : Supervisor) (w : World) (op : Op) (h : sv.waitsOk w)
    (hfresh : freshStep sv op) : (stepState sv w op).1.waitsOk (stepState sv w op).2 := by
  cases op with
  | start name env restartable ev => exact waitsOk_StartInstance sv w name env restartable ev h hfresh
  | stop id force ev => exact waitsOk_StopInstance sv w id force ev h
  | restartAfterTerm pid visit l => exact waitsOk_RestartAfterTermInstance sv w pid visit l h hfresh
  | stopAll visit evs => exact waitsOk_stopEach evs visit sv w h
  | death pid =>
    intro k i hi
    exact waitOk_mono i w (w.reap pid) (fun q hq => probe_reap_mono w pid q hq) (h k i hi)

theorem waitsOk_run (ops : List Op) :
    ∀ (sv : Supervisor) (w : World), sv.waitsOk w → freshRun sv w ops →
      (runState sv w ops).1.waitsOk (runState sv w ops).2 := by
  induction ops with
  | nil => intro sv w h _; exact h
  | cons op rest ih =>
    intro sv w h hfresh
    exact ih _ _ (waitsOk_step sv w op h hfresh.1) hfresh.2

/-- In every registry reached from a fresh supervisor by a run in which
the kernel never hands out a PID still held by a registered instance, the
exit-wait of every registered instance whose process answers the probe is
in order: the hypothesis `waitsFor` of the theorems on `Stop` holds for
every live instance the registry can hold. -/
theorem registry_live_waitsFor (cfg : Cfg) (w : World) (ops : List Op)
    (hfresh : freshRun (NewSupervisor cfg) w ops) (id : Int) (inst : Instance) (p : Process)
    (hreg : (runState (NewSupervisor cfg) w ops).1.getInstance id = some inst)
    (hp : inst.Cmd.Process = some p)
    (hlive : (runState (NewSupervisor cfg) w ops).2.probe p.Pid = true) :
    inst.waitsFor p = true := by
  have h0 : (NewSupervisor cfg).waitsOk w := by
    intro k i hi
    simp [NewSupervisor, Supervisor.getInstance] at hi
  exact waitOk_live inst _ p (waitsOk_run ops _ w h0 hfresh id inst hreg) hp hlive

/-! ## RestartAfterTermInstance and unknown identifiers -/

/-- When every registered instance that `range` visits has a started
process with another PID, the lookup by PID finds nothing. -/
theorem getInstanceByPid_absent (sv : Supervisor) (pid : Int) (visit : List Int)
    (h : ∀ id ∈ visit, ∀ inst, sv.getInstance id = some inst →
        ∃ p, inst.Cmd.Process = some p ∧ p.Pid ≠ pid) :
    sv.getInstanceByPid pid visit = Exit.ret (0, none) := by
  induction visit with
  | nil => rfl
  | cons id rest ih =>
    have ih2 := ih (fun k hk => h k (List.mem_cons_of_mem _ hk))
    unfold Supervisor.getInstanceByPid
    cases hg : sv.getInstance id with
    | none => simpa using ih2
    | some inst =>
      obtain ⟨p, hp, hne⟩ := h id (List.mem_cons_self _ _) inst hg
      simp only [hp, if_neg hne]
      exact ih2

/-- When every registered instance that `range` visits has a started
process and one of them has the PID looked for, the lookup by PID finds
a registered instance with that PID. -/
theorem getInstanceByPid_present (sv : Supervisor) (pid : Int) (visit : List Int)
    (h : ∀ id ∈ visit, ∀ inst, sv.getInstance id = some inst → ∃ p, inst.Cmd.Process = some p)
    (hex : ∃ id ∈ visit, ∃ inst p, sv.getInstance id = some inst ∧ inst.Cmd.Process = some p
        ∧ p.Pid = pid) :
    ∃ id inst, sv.getInstanceByPid pid visit = Exit.ret (id, some inst) := by
  induction visit with
  | nil =>
    obtain ⟨id, hid, _⟩ := hex
    simp at hid
  | cons id rest ih =>
    unfold Supervisor.getInstanceByPid
    cases hg : sv.getInstance id with
    | none =>
      simp only
      apply ih (fun k hk => h k (List.mem_cons_of_mem _ hk))
      obtain ⟨k, hk, inst, p, h1, h2, h3⟩ := hex
      rcases List.mem_cons.mp hk with hk | hk
      · subst hk
        rw [hg] at h1
        simp at h1
      · exact ⟨k, hk, inst, p, h1, h2, h3⟩
    | some inst =>
      obtain ⟨p, hp⟩ := h id (List.mem_cons_self _ _) inst hg
      simp only [hp]
      by_cases hpid : p.Pid = pid
      · rw [if_pos hpid]
        exact ⟨id, inst, rfl⟩
      · rw [if_neg hpid]
        apply ih (fun k hk => h k (List.mem_cons_of_mem _ hk))
        obtain ⟨k, hk, inst2, p2, h1, h2, h3⟩ := hex
        rcases List.mem_cons.mp hk with hk | hk
        · subst hk
          rw [hg] at h1
          simp only [Option.some.injEq] at h1
          subst h1
          rw [hp] at h2
          simp only [Option.some.injEq] at h2
          subst h2
          exact absurd h3 hpid
        · exact ⟨k, hk, inst2, p2, h1, h2, h3⟩

/-- C11: `RestartAfterTermInstance pid` returns an error and leaves the
registry, every instance and the world as they were (nothing is launched)
in each of these cases.  No registered instance has that PID: it returns
identifier 0 and the unknown-instance error.  The lookup finds a
registered instance with that PID that still answers the probe: it returns
that identifier and the already-alive error, whatever the flag is.  The
lookup finds a registered instance with that PID that is dead and whose
flag is false: it returns that identifier and the not-restartable
error. -/
theorem C11_restart_refused (sv : Supervisor) (w : World) (pid : Int) (visit : List Int)
    (l : Launch) :
    ((∀ id ∈ visit, ∀ inst, sv.getInstance id = some inst →
          ∃ p, inst.Cmd.Process = some p ∧ p.Pid ≠ pid) →
        sv.RestartAfterTermInstance w pid visit l
          = { sv := sv, world := w, out := Exit.ret (0, some (Err.new "Unknown Instance.")) })
      ∧ (∀ id inst, sv.getInstanceByPid pid visit = Exit.ret (id, some inst) →
          sv.getInstance id = some inst
            ∧ (∃ p, inst.Cmd.Process = some p ∧ p.Pid = pid)
            ∧ (w.probe pid = true →
                sv.RestartAfterTermInstance w pid visit l
                  = { sv := sv, world := w,
                      out := Exit.ret (id, some (Err.new "Instance is alive.")) })
            ∧ (w.probe pid = false → inst.Restartable = false →
                sv.RestartAfterTermInstance w pid visit l
                  = { sv := sv, world := w,
                      out := Exit.ret
                        (id, some (Err.new "The Restart Instance flag is false.")) })) := by
  refine ⟨?_, ?_⟩
  · intro h
    unfold Supervisor.RestartAfterTermInstance
    rw [getInstanceByPid_absent sv pid visit h]
  · intro id inst hlook
    obtain ⟨hget, p, hp, hpid⟩ := getInstanceByPid_some sv pid visit id inst hlook
    refine ⟨hget, ⟨p, hp, hpid⟩, ?_, ?_⟩
    · intro halive
      unfold Supervisor.RestartAfterTermInstance
      rw [hlook]
      simp only [Instance.IsAlive, hp, hpid, halive]
    · intro hdead hflag
      unfold Supervisor.RestartAfterTermInstance
      rw [hlook]
      simp only [Instance.IsAlive, hp, hpid, hdead, hflag, Bool.not_false, if_true]

/-- C11 at concrete inputs: registry `svT` (instance 1, PID 101) asked
about a PID nobody has, and about PID 101 while it still runs. -/
theorem C11_restart_refused_witness :
    svT.RestartAfterTermInstance worldLiveT 777 [1] (Launch.started 102 (by decide))
        = { sv := svT, world := worldLiveT,
            out := Exit.ret (0, some (Err.new "Unknown Instance.")) }
      ∧ svT.getInstanceByPid 101 [1] = Exit.ret (1, some instT)
      ∧ svT.RestartAfterTermInstance worldLiveT 101 [1] (Launch.started 102 (by decide))
        = { sv := svT, world := worldLiveT,
            out := Exit.ret (1, some (Err.new "Instance is alive.")) } :=
  ⟨(C11_restart_refused svT worldLiveT 777 [1] (Launch.started 102 (by decide))).1 (by decide),
   by decide,
   ((C11_restart_refused svT worldLiveT 101 [1] (Launch.started 102 (by decide))).2 1 instT
      (by decide)).2.2.1 (by decide)⟩

theorem lookup_eq_none_of_not_mem (id : Int) (l : List (Int × Instance))
    (h : id ∉ l.map Prod.fst) : l.lookup id = none := by
  induction l with
  | nil => rfl
  | cons e rest ih =>
    obtain ⟨k, y⟩ := e
    simp only [List.map_cons, List.mem_cons, not_or] at h
    rw [lookup_cons_ne _ _ h.1]
    exact ih h.2

theorem not_mem_of_lookup_eq_none (id : Int) (l : List (Int × Instance))
    (h : l.lookup id = none) : id ∉ l.map Prod.fst := by
  induction l with
  | nil => simp
  | cons e rest ih =>
    obtain ⟨k, y⟩ := e
    by_cases hk : id = k
    · subst hk
      rw [lookup_cons_eq] at h
      simp at h
    · rw [lookup_cons_ne _ _ hk] at h
      simp only [List.map_cons, List.mem_cons, not_or]
      exact ⟨hk, ih h⟩

/-- C14: for an identifier that is not in the registry, `StopInstance`
returns the unknown-instance error for either value of `force`, whatever
the OS would do; registry (entries, every instance with its flag,
`lastId`) and world (no signal, no call at all) are exactly as before. -/
theorem C14_stop_unknown_id (sv : Supervisor) (w : World) (id : Int) (force : Bool)
    (ev : StopEvents) (h : id ∉ sv.ids) :
    sv.StopInstance w id force ev
      = { sv := sv, world := w,
          out := Exit.ret (some (Err.new ("Unknown instance with id " ++ Itoa id))) } := by
  unfold Supervisor.StopInstance
  have hg : sv.getInstance id = none := lookup_eq_none_of_not_mem id _ h
  rw [hg]

/-- C14 at a concrete input: identifier 7 is unknown to `svT`. -/
theorem C14_stop_unknown_id_witness :
    (7 : Int) ∉ svT.ids
      ∧ svT.StopInstance worldLiveT 7 true ignoresT
        = { sv := svT, world := worldLiveT,
            out := Exit.ret (some (Err.new "Unknown instance with id 7")) } :=
  ⟨by decide, C14_stop_unknown_id svT worldLiveT 7 true ignoresT (by decide)⟩

/-! ## GetInstanceStatus, and a process that exits in time -/

/-- C15: `GetInstanceStatus id` returns an error and no status exactly
when `id` is not registered, the error being the unknown-instance error.
For a registered `id` whose instance has a started process it returns,
without error, the snapshot of the instance stored under `id`: its name,
PID, flag and environment, and state "running" if the liveness probe of
its process succeeds, "terminated" otherwise (so "running" exactly when
the probe succeeds).  The call reads the registry and the world and
returns nothing but this value. -/
theorem C15_status_of_registered (sv : Supervisor) (w : World) (id : Int) :
    ((∃ e, sv.GetInstanceStatus w id = Exit.ret (none, some e)) ↔ id ∉ sv.ids)
      ∧ (id ∉ sv.ids →
          sv.GetInstanceStatus w id
            = Exit.ret (none, some (Err.new ("Unknown instance with id " ++ Itoa id))))
      ∧ (∀ inst p, sv.getInstance id = some inst → inst.Cmd.Process = some p →
          sv.GetInstanceStatus w id
              = Exit.ret (some { Name := inst.Name,
                                 State := if w.probe p.Pid then stateRunning
                                          else stateTerminated,
                                 Pid := p.Pid, Restartable := inst.Restartable,
                                 Env := inst.Env }, none)
            ∧ ((if w.probe p.Pid then stateRunning else stateTerminated) = stateRunning
                ↔ w.probe p.Pid = true)) := by
  refine ⟨?_, ?_, ?_⟩
  · constructor
    · rintro ⟨e, he⟩
      unfold Supervisor.GetInstanceStatus at he
      cases hg : sv.getInstance id with
      | none => exact not_mem_of_lookup_eq_none id _ hg
      | some inst =>
        rw [hg] at he
        simp only at he
        split at he <;> simp at he
    · intro h
      have hg : sv.getInstance id = none := lookup_eq_none_of_not_mem id _ h
      exact ⟨Err.new ("Unknown instance with id " ++ Itoa id),
        by simp [Supervisor.GetInstanceStatus, hg]⟩
  · intro h
    have hg : sv.getInstance id = none := lookup_eq_none_of_not_mem id _ h
    simp [Supervisor.GetInstanceStatus, hg]
  · intro inst p hg hp
    refine ⟨?_, ?_⟩
    · simp only [Supervisor.GetInstanceStatus, hg, Status_of_process inst w p hp]
    · cases w.probe p.Pid <;> simp [stateRunning, stateTerminated]

/-- C15 at concrete inputs: `svT` asked about the unknown identifier 7 and
about instance 1, once with its process running and once with it gone. -/
theorem C15_status_of_registered_witness :
    (7 : Int) ∉ svT.ids
      ∧ svT.GetInstanceStatus worldLiveT 7
          = Exit.ret (none, some (Err.new "Unknown instance with id 7"))
      ∧ svT.getInstance 1 = some instT ∧ instT.Cmd.Process = some { Pid := 101 }
      ∧ svT.GetInstanceStatus worldLiveT 1
          = Exit.ret (some { Name := "svc", State := "running", Pid := 101,
                             Restartable := true, Env := ["X=1"] }, none)
      ∧ svT.GetInstanceStatus worldT 1
          = Exit.ret (some { Name := "svc", State := "terminated", Pid := 101,
                             Restartable := true, Env := ["X=1"] }, none) :=
  ⟨by decide, (C15_status_of_registered svT worldLiveT 7).2.1 (by decide), by decide, rfl,
   ((C15_status_of_registered svT worldLiveT 1).2.2 instT { Pid := 101 } (by decide) rfl).1,
   ((C15_status_of_registered svT worldT 1).2.2 instT { Pid := 101 } (by decide) rfl).1⟩

/-- C17: take a live instance (its exit-wait, if any, the pending wait on
its process) whose process gets the interrupt and exits before the timer
fires.  For either value of `force`, `Stop` returns exactly what the wait
on the process returned: nil on a clean exit, the error of the wait
otherwise.  The calls made are the wait (if new) and the interrupt: no
kill signal.  The value of the exit-wait has been received and the
process no longer answers the probe. -/
theorem C17_exit_in_time (inst : Instance) (timeout : Int) (force : Bool) (w : World)
    (ev : StopEvents) (p : Process) (hp : inst.Cmd.Process = some p)
    (hlive : w.probe p.Pid = true) (hwait : inst.waitsFor p = true) (hintr : ev.intr = none)
    (hin : ev.exitsWithin timeout = true) :
    (inst.Stop timeout force w ev).out = Exit.ret (sysErr ev.wait)
      ∧ (ev.wait = none → (inst.Stop timeout force w ev).out = Exit.ret none)
      ∧ (∀ code, ev.wait = some code →
          (inst.Stop timeout force w ev).out = Exit.ret (some (Err.sys code)))
      ∧ (inst.Stop timeout force w ev).world.calls
          = w.calls ++ (if inst.done.isNone then [Call.wait p.Pid] else [])
              ++ [Call.signal p.Pid Sig.interrupt]
      ∧ (∀ q, Call.signal q Sig.kill ∈ (inst.Stop timeout force w ev).world.calls →
          Call.signal q Sig.kill ∈ w.calls)
      ∧ (inst.Stop timeout force w ev).inst.done = some { pid := p.Pid, drained := true }
      ∧ (inst.Stop timeout force w ev).world.probe p.Pid = false := by
  rw [Stop_live inst timeout force w ev p hp hlive hwait, hintr]
  dsimp only
  rw [selectFired_exitsWithin timeout ev hin]
  refine ⟨rfl, ?_, ?_, rfl, ?_, rfl, ?_⟩
  · intro h0
    rw [h0]
    rfl
  · intro code h0
    rw [h0]
    rfl
  · intro q hq
    simp only [List.mem_append, List.mem_singleton] at hq
    rcases hq with (hq | hq) | hq
    · exact hq
    · split at hq <;> simp at hq
    · simp at hq
  · simp [World.probe]

/-- C17 at concrete inputs: the process of `instT` exits 5 ms after the
interrupt, once cleanly and once with a failed wait. -/
theorem C17_exit_in_time_witness :
    instT.Cmd.Process = some { Pid := 101 } ∧ worldLiveT.probe 101 = true
      ∧ instT.waitsFor { Pid := 101 } = true ∧ exitsT.intr = none
      ∧ exitsT.exitsWithin 100000000 = true
      ∧ (instT.Stop 100000000 false worldLiveT exitsT).out = Exit.ret none
      ∧ (instT.Stop 100000000 true worldLiveT exitsFailedT).out = Exit.ret (some (Err.sys 1))
      ∧ (instT.Stop 100000000 true worldLiveT exitsFailedT).world.calls
          = [Call.wait 101, Call.signal 101 Sig.interrupt] :=
  ⟨rfl, by decide, by decide, rfl, by decide,
   (C17_exit_in_time instT 100000000 false worldLiveT exitsT { Pid := 101 } rfl (by decide)
      (by decide) rfl (by decide)).2.1 rfl,
   (C17_exit_in_time instT 100000000 true worldLiveT exitsFailedT { Pid := 101 } rfl (by decide)
      (by decide) rfl (by decide)).2.2.1 1 rfl,
   (C17_exit_in_time instT 100000000 true worldLiveT exitsFailedT { Pid := 101 } rfl (by decide)
      (by decide) rfl (by decide)).2.2.2.1⟩

/-! ## The environment of the child -/

/-- A restart leaves the stored environment of every registered instance
as it was. -/
theorem RestartAfterTermInstance_keeps_Env (sv : Supervisor) (w : World) (pid : Int)
    (visit : List Int) (l : Launch) (j : Int) (i : Instance)
    (h : (sv.RestartAfterTermInstance w pid visit l).sv.getInstance j = some i) :
    ∃ i0, sv.getInstance j = some i0 ∧ i.Env = i0.Env ∧ i.Name = i0.Name := by
  unfold Supervisor.RestartAfterTermInstance at h
  split at h
  · exact ⟨i, h, rfl, rfl⟩
  · rename_i id inst hlook
    have hget := (getInstanceByPid_some sv pid visit id inst hlook).1
    split at h
    · exact ⟨i, h, rfl, rfl⟩
    · split at h
      · exact ⟨i, h, rfl, rfl⟩
      · dsimp only at h
        rw [getInstance_store] at h
        by_cases hj : j = id
        · subst hj
          rw [if_pos rfl, hget] at h
          simp only [Option.map_some', Option.some.injEq] at h
          exact ⟨inst, hget, by rw [← h]; rfl, by rw [← h]; rfl⟩
        · rw [if_neg hj] at h
          exact ⟨i, h, rfl, rfl⟩
    · exact ⟨i, h, rfl, rfl⟩
  · exact ⟨i, h, rfl, rfl⟩

/-- What `StartInstance` does when the name is not empty, the executable
is found and the launch succeeds. -/
theorem StartInstance_started (sv : Supervisor) (w : World) (name : String)
    (env : List String) (restartable : Bool) (ev : StartEvents) (npid : Int) (pos : 0 < npid)
    (hn : name ≠ "") (hl : ev.look = none) (hs : ev.launch = Launch.started npid pos) :
    sv.StartInstance w name env restartable ev
      = { sv := (sv.addInstance
                  { Name := name,
                    Cmd := { Path := pathJoin [sv.cfg.InstancesDir, name ++ ".lua"],
                             Env := w.environ ++ env, Process := some { Pid := npid } },
                    Restartable := restartable, Env := env, done := none }).1,
          world := { environ := w.environ, live := npid :: w.live,
                     calls := w.calls
                       ++ [Call.lookPath (pathJoin [sv.cfg.InstancesDir, name ++ ".lua"]),
                           Call.start (pathJoin [sv.cfg.InstancesDir, name ++ ".lua"])
                             (w.environ ++ env)] },
          out := Exit.ret (sv.lastId + 1, none) } := by
  simp [Supervisor.StartInstance, hn, hl, hs, Instance.Start, Cmd.Start, World.log,
    NewInstance, Command, Supervisor.addInstance]

/-- The entries of one key that the scan keeps: none when the key was seen,
else the first one met. -/
theorem dedupScan_filter (k : String) (l : List String) : ∀ saw : List String,
    (dedupScan saw l).filter (fun e => envKey e == some k)
      = if k ∈ saw then [] else (l.find? (fun e => envKey e == some k)).toList := by
  induction l with
  | nil => intro saw; simp [dedupScan]
  | cons kv rest ih =>
    intro saw
    rw [dedupScan]
    cases hk : envKey kv with
    | none =>
      dsimp only
      have hf : (envKey kv == some k) = false := by rw [hk]; rfl
      split
      · rw [ih saw, List.find?_cons, hf]
      · rw [List.filter_cons, hf, ih saw, List.find?_cons, hf]; simp
    | some k2 =>
      dsimp only
      by_cases hkk : k2 = k
      · subst hkk
        have hf : (envKey kv == some k2) = true := by rw [hk]; simp
        split
        · rename_i hs
          rw [ih saw, if_pos hs]
        · rename_i hs
          rw [List.filter_cons, hf, ih (k2 :: saw), List.find?_cons, hf]
          simp
      · have hf : (envKey kv == some k) = false := by rw [hk]; simpa using hkk
        split
        · rw [ih saw, List.find?_cons, hf]
        · rw [List.filter_cons, hf, ih (k2 :: saw), List.find?_cons, hf]
          have : (k ∈ k2 :: saw) ↔ k ∈ saw := by
            simp only [List.mem_cons]
            constructor
            · rintro (h | h)
              · exact absurd h.symm hkk
              · exact h
            · exact Or.inr
          simp only [this, Bool.false_eq_true, if_false]

/-- Of the entries of one key `dedupEnv` keeps the last. -/
theorem dedupEnv_filter (k : String) (env : List String) :
    (dedupEnv env).filter (fun e => envKey e == some k)
      = (env.reverse.find? (fun e => envKey e == some k)).toList := by
  unfold dedupEnv
  rw [List.filter_reverse, dedupScan_filter, if_neg (List.not_mem_nil k)]
  cases env.reverse.find? (fun e => envKey e == some k) <;> rfl

/-- The scan adds no entry. -/
theorem dedupScan_mem (l : List String) : ∀ (saw : List String) (e : String),
    e ∈ dedupScan saw l → e ∈ l := by
  induction l with
  | nil => intro saw e h; simp [dedupScan] at h
  | cons kv rest ih =>
    intro saw e h
    rw [dedupScan] at h
    split at h
    · split at h
      · exact List.mem_cons_of_mem _ (ih _ _ h)
      · rcases List.mem_cons.1 h with h | h
        · exact h ▸ List.mem_cons_self _ _
        · exact List.mem_cons_of_mem _ (ih _ _ h)
    · split at h
      · exact List.mem_cons_of_mem _ (ih _ _ h)
      · rcases List.mem_cons.1 h with h | h
        · exact h ▸ List.mem_cons_self _ _
        · exact List.mem_cons_of_mem _ (ih _ _ h)

/-- Every entry `dedupEnv` keeps is one of the list. -/
theorem dedupEnv_mem (env : List String) (e : String) (h : e ∈ dedupEnv env) : e ∈ env := by
  unfold dedupEnv at h
  exact List.mem_reverse.1 (dedupScan_mem _ _ _ (List.mem_reverse.1 h))

/-- The scan keeps a list of fresh, pairwise different keys as it is. -/
theorem dedupScan_id (l : List String) : ∀ saw : List String,
    (∀ e ∈ l, ∃ k, envKey e = some k ∧ k ∉ saw) → (l.map envKey).Nodup →
    dedupScan saw l = l := by
  induction l with
  | nil => intro saw _ _; rfl
  | cons kv rest ih =>
    intro saw hk hnd
    obtain ⟨k, hkv, hks⟩ := hk kv (List.mem_cons_self _ _)
    rw [dedupScan, hkv]
    dsimp only
    rw [if_neg hks]
    rw [List.map_cons, List.nodup_cons] at hnd
    congr 1
    apply ih _ _ hnd.2
    intro e he
    obtain ⟨k2, hk2, hk2s⟩ := hk e (List.mem_cons_of_mem _ he)
    refine ⟨k2, hk2, ?_⟩
    intro hmem
    rcases List.mem_cons.1 hmem with h | h
    · apply hnd.1
      rw [hkv, ← h, ← hk2]
      exact List.mem_map_of_mem _ he
    · exact hk2s h

/-- A list whose entries all have a key, no key twice, passes unchanged. -/
theorem dedupEnv_id (env : List String) (hk : ∀ e ∈ env, (envKey e).isSome = true)
    (hnd : (env.map envKey).Nodup) : dedupEnv env = env := by
  unfold dedupEnv
  rw [dedupScan_id, List.reverse_reverse]
  · intro e he
    have := hk e (List.mem_reverse.1 he)
    obtain ⟨k, hk2⟩ := Option.isSome_iff_exists.1 this
    exact ⟨k, hk2, List.not_mem_nil k⟩
  · rw [List.map_reverse]
    exact List.nodup_reverse.2 hnd

/-- C18 as stated fails when a variable is set twice: with `HOME=/root`
in the ambient environment and `HOME=/x`, `A=1`, `A=2` stored, the
command gets the four entries in order, but the child of the start, and
of a restart, is handed `HOME=/x`, `A=2` only. -/
theorem C18_counterexample_repeated_variable :
    ((NewSupervisor cfgT).StartInstance worldT "svc" ["HOME=/x", "A=1", "A=2"] true
        startedT).world.calls.filterMap Call.childEnv = [["HOME=/x", "A=2"]]
      ∧ (({ instT with Env := ["HOME=/x", "A=1", "A=2"] } : Instance).Restart worldT
          (Launch.started 102 (by decide))).2.1.calls.filterMap Call.childEnv
          = [["HOME=/x", "A=2"]]
      ∧ worldT.environ ++ ["HOME=/x", "A=1", "A=2"] = ["HOME=/root", "HOME=/x", "A=1", "A=2"]
      ∧ worldT.environ ++ ["HOME=/x", "A=1", "A=2"] ≠ ["HOME=/x", "A=2"] := by
  refine ⟨?_, ?_, ?_, ?_⟩
  · rw [StartInstance_started (NewSupervisor cfgT) worldT "svc" ["HOME=/x", "A=1", "A=2"] true
      startedT 101 (by decide) (by decide) rfl rfl]
    decide
  · decide
  · decide
  · decide

/-- C18, amended: the command is launched with `Env` set to the ambient
environment followed by the stored one, in order, and the child is handed
that list with only the last entry of each variable kept.  On the launch
made by `StartInstance` (name not empty, executable found) the command
carries `os.Environ() ++ env`, the child gets `dedupEnv` of it, and the
instance registered on success stores `env` itself.  On every `Restart`
the command carries `os.Environ() ++ inst.Env`, for the path of the old
command, the child gets `dedupEnv` of it, and the stored `Env` is
unchanged, so a further restart carries `os.Environ() ++ inst.Env` again;
`RestartAfterTermInstance` changes the stored `Env` of no registered
instance.  Of the entries of one variable `dedupEnv` keeps exactly the
last, it adds no entry, and a list in which every entry names a variable
and no variable is named twice it hands on as it is. -/
theorem C18_child_environment (inst : Instance) (w : World) (l : Launch) :
    (∀ (sv : Supervisor) (name : String) (env : List String) (restartable : Bool)
        (ev : StartEvents), name ≠ "" → ev.look = none →
        (sv.StartInstance w name env restartable ev).world.calls
            = w.calls ++ [Call.lookPath (pathJoin [sv.cfg.InstancesDir, name ++ ".lua"]),
                Call.start (pathJoin [sv.cfg.InstancesDir, name ++ ".lua"]) (w.environ ++ env)]
          ∧ (sv.StartInstance w name env restartable ev).world.calls.filterMap Call.childEnv
              = w.calls.filterMap Call.childEnv ++ [dedupEnv (w.environ ++ env)]
          ∧ (∀ id, (sv.StartInstance w name env restartable ev).out = Exit.ret (id, none) →
              ∃ i, (sv.StartInstance w name env restartable ev).sv.getInstance id = some i
                ∧ i.Env = env ∧ i.Cmd.Env = w.environ ++ env))
      ∧ (inst.Restart w l).2.1.calls
          = w.calls ++ [Call.start inst.Cmd.Path (w.environ ++ inst.Env)]
      ∧ (inst.Restart w l).2.1.calls.filterMap Call.childEnv
          = w.calls.filterMap Call.childEnv ++ [dedupEnv (w.environ ++ inst.Env)]
      ∧ (inst.Restart w l).1.Cmd.Env = w.environ ++ inst.Env
      ∧ (inst.Restart w l).1.Env = inst.Env
      ∧ (∀ (w2 : World) (l2 : Launch),
          ((inst.Restart w l).1.Restart w2 l2).2.1.calls
              = w2.calls ++ [Call.start inst.Cmd.Path (w2.environ ++ inst.Env)]
            ∧ ((inst.Restart w l).1.Restart w2 l2).2.1.calls.filterMap Call.childEnv
              = w2.calls.filterMap Call.childEnv ++ [dedupEnv (w2.environ ++ inst.Env)])
      ∧ (∀ (sv : Supervisor) (pid : Int) (visit : List Int) (j : Int) (i : Instance),
          (sv.RestartAfterTermInstance w pid visit l).sv.getInstance j = some i →
          ∃ i0, sv.getInstance j = some i0 ∧ i.Env = i0.Env)
      ∧ (∀ env : List String,
          (∀ k : String, (dedupEnv env).filter (fun e => envKey e == some k)
              = (env.reverse.find? (fun e => envKey e == some k)).toList)
            ∧ (∀ e ∈ dedupEnv env, e ∈ env)
            ∧ ((∀ e ∈ env, (envKey e).isSome = true) → (env.map envKey).Nodup →
                dedupEnv env = env)) := by
  have hstart : ∀ (sv : Supervisor) (name : String) (env : List String) (restartable : Bool)
      (ev : StartEvents), name ≠ "" → ev.look = none →
      (sv.StartInstance w name env restartable ev).world.calls
        = w.calls ++ [Call.lookPath (pathJoin [sv.cfg.InstancesDir, name ++ ".lua"]),
            Call.start (pathJoin [sv.cfg.InstancesDir, name ++ ".lua"]) (w.environ ++ env)] := by
    intro sv name env restartable ev hn hl
    cases hs : ev.launch <;>
      simp [Supervisor.StartInstance, hn, hl, hs, Instance.Start, Cmd.Start, World.log,
        NewInstance, Command]
  have hre : ∀ (i : Instance) (w1 : World) (l1 : Launch),
      (i.Restart w1 l1).2.1.calls = w1.calls ++ [Call.start i.Cmd.Path (w1.environ ++ i.Env)] := by
    intro i w1 l1
    cases l1 <;> rfl
  refine ⟨?_, hre inst w l, ?_, ?_, ?_, ?_, ?_, ?_⟩
  · intro sv name env restartable ev hn hl
    refine ⟨hstart sv name env restartable ev hn hl, ?_, ?_⟩
    · rw [hstart sv name env restartable ev hn hl, List.filterMap_append]
      rfl
    · intro id hid
      cases hs : ev.launch with
      | failed code =>
        simp [Supervisor.StartInstance, hn, hl, hs, Instance.Start, Cmd.Start] at hid
      | started npid pos =>
        rw [StartInstance_started sv w name env restartable ev npid pos hn hl hs] at hid ⊢
        simp only [Exit.ret.injEq, Prod.mk.injEq, and_true] at hid
        subst hid
        exact ⟨_, by rw [getInstance_addInstance, if_pos rfl], rfl, rfl⟩
  · rw [hre inst w l, List.filterMap_append]
    rfl
  · cases l <;> rfl
  · rfl
  · intro w2 l2
    have h2 : ((inst.Restart w l).1.Restart w2 l2).2.1.calls
        = w2.calls ++ [Call.start inst.Cmd.Path (w2.environ ++ inst.Env)] := by
      cases l <;> cases l2 <;> rfl
    refine ⟨h2, ?_⟩
    rw [h2, List.filterMap_append]
    rfl
  · intro sv pid visit j i h
    obtain ⟨i0, h1, h2, _⟩ := RestartAfterTermInstance_keeps_Env sv w pid visit l j i h
    exact ⟨i0, h1, h2⟩
  · intro env
    exact ⟨fun k => dedupEnv_filter k env, fun e he => dedupEnv_mem env e he,
      fun hk hnd => dedupEnv_id env hk hnd⟩

/-- C18 at concrete inputs: the start of "svc" with `X=1` and the restart
of `instT` in a world whose ambient environment is `HOME=/root`; no
variable is set twice, and the child gets `HOME=/root`, `X=1`. -/
theorem C18_child_environment_witness :
    ((NewSupervisor cfgT).StartInstance worldT "svc" ["X=1"] true startedT).world.calls
        = [Call.lookPath (pathJoin ["/srv/instances", "svc.lua"]),
           Call.start (pathJoin ["/srv/instances", "svc.lua"]) ["HOME=/root", "X=1"]]
      ∧ ((NewSupervisor cfgT).StartInstance worldT "svc" ["X=1"] true
            startedT).world.calls.filterMap Call.childEnv = [dedupEnv ["HOME=/root", "X=1"]]
      ∧ (instT.Restart worldT (Launch.started 102 (by decide))).2.1.calls.filterMap
            Call.childEnv = [dedupEnv ["HOME=/root", "X=1"]]
      ∧ (instT.Restart worldT (Launch.started 102 (by decide))).1.Env = ["X=1"]
      ∧ dedupEnv ["HOME=/root", "X=1"] = ["HOME=/root", "X=1"] :=
  ⟨((C18_child_environment instT worldT (Launch.started 102 (by decide))).1
      (NewSupervisor cfgT) "svc" ["X=1"] true startedT (by decide) rfl).1,
   ((C18_child_environment instT worldT (Launch.started 102 (by decide))).1
      (NewSupervisor cfgT) "svc" ["X=1"] true startedT (by decide) rfl).2.1,
   (C18_child_environment instT worldT (Launch.started 102 (by decide))).2.2.1,
   (C18_child_environment instT worldT (Launch.started 102 (by decide))).2.2.2.2.1,
   ((C18_child_environment instT worldT (Launch.started 102 (by decide))).2.2.2.2.2.2.2
      ["HOME=/root", "X=1"]).2.2 (by decide) (by decide)⟩

/-! ## StopAllInstances -/

/-- A registry in which no instance has an exit-wait yet satisfies `waitsOk`. -/
theorem waitsOk_of_no_done (sv : Supervisor) (w : World)
    (h : sv.instancesById.all (fun e => e.2.done.isNone) = true) : sv.waitsOk w := by
  intro id inst hg
  have hm := mem_of_lookup _ _ _ hg
  have hd := List.all_eq_true.mp h _ hm
  simp only [Option.isNone_iff_eq_none] at hd
  unfold Instance.waitOk
  rw [hd]
  trivial

theorem allStarted_getInstance (sv : Supervisor) (h : sv.allStarted = true) (id : Int)
    (inst : Instance) (hg : sv.getInstance id = some inst) : ∃ p, inst.Cmd.Process = some p := by
  unfold Supervisor.allStarted at h
  rw [List.all_eq_true] at h
  have := h (id, inst) (mem_of_lookup id inst _ hg)
  exact Option.isSome_iff_exists.mp this

/-- `Stop` returns when the instance has a started process and its
exit-wait is consistent with the world. -/
theorem Stop_returns (inst : Instance) (timeout : Int) (force : Bool) (w : World)
    (ev : StopEvents) (p : Process) (hp : inst.Cmd.Process = some p) (hw : inst.waitOk w) :
    ∃ r, (inst.Stop timeout force w ev).out = Exit.ret r := by
  by_cases hl : w.probe p.Pid = true
  · rw [Stop_live inst timeout force w ev p hp hl (waitOk_live inst w p hw hp hl)]
    cases ev.intr with
    | some code => exact ⟨_, rfl⟩
    | none =>
      dsimp only
      cases selectFired timeout ev.tie (ev.exit.map (fun d => (d, sysErr ev.wait))) with
      | done r => exact ⟨_, rfl⟩
      | timer =>
        dsimp only
        cases force
        · exact ⟨_, rfl⟩
        · cases ev.kill with
          | some code => exact ⟨_, rfl⟩
          | none => exact ⟨_, rfl⟩
  · simp only [Bool.not_eq_true] at hl
    rw [Stop_dead inst timeout force w ev p hp hl]
    exact ⟨_, rfl⟩

/-- The identifiers left when the goroutines of `StopAllInstances` have all
returned were registered before and were not visited. -/
theorem stopEach_left (evs : Int → StopEvents) (visit : List Int) :
    ∀ (sv : Supervisor) (w : World), (sv.stopEach w evs visit).out = Exit.ret () →
      ∀ k ∈ (sv.stopEach w evs visit).sv.ids, k ∈ sv.ids ∧ k ∉ visit := by
  induction visit with
  | nil =>
    intro sv w _ k hk
    exact ⟨hk, by simp⟩
  | cons id rest ih =>
    intro sv w hout k hk
    unfold Supervisor.stopEach at hout hk
    cases hg : sv.getInstance id with
    | none =>
      rw [hg] at hout hk
      obtain ⟨h1, h2⟩ := ih sv w hout k hk
      have hid : id ∉ sv.ids := not_mem_of_lookup_eq_none id _ hg
      refine ⟨h1, ?_⟩
      simp only [List.mem_cons, not_or]
      exact ⟨fun h => hid (h ▸ h1), h2⟩
    | some inst =>
      rw [hg] at hout hk
      dsimp only at hout hk
      cases ho : (inst.Stop sv.cfg.TermTimeout true w (evs id)).out with
      | ret r =>
        rw [ho] at hout hk
        obtain ⟨h1, h2⟩ := ih _ _ hout k hk
        rw [ids_deleteInstance, ids_store] at h1
        simp only [List.mem_filter, bne_iff_ne, ne_eq] at h1
        refine ⟨h1.1, ?_⟩
        simp only [List.mem_cons, not_or]
        exact ⟨h1.2, h2⟩
      | panic =>
        rw [ho] at hout
        simp at hout
      | block =>
        rw [ho] at hout
        dsimp only at hout
        split at hout <;> simp at hout

/-- `StopAllInstances` returns when every registered instance has a
started process and an exit-wait consistent with the world. -/
theorem stopEach_returns (evs : Int → StopEvents) (visit : List Int) :
    ∀ (sv : Supervisor) (w : World),
      (∀ id inst, sv.getInstance id = some inst → ∃ p, inst.Cmd.Process = some p) →
      sv.waitsOk w → (sv.stopEach w evs visit).out = Exit.ret () := by
  induction visit with
  | nil => intro sv w _ _; rfl
  | cons id rest ih =>
    intro sv w hst hw
    unfold Supervisor.stopEach
    cases hg : sv.getInstance id with
    | none => exact ih sv w hst hw
    | some inst =>
      dsimp only
      obtain ⟨p, hp⟩ := hst id inst hg
      obtain ⟨r, hr⟩ := Stop_returns inst sv.cfg.TermTimeout true w (evs id) p hp (hw id inst hg)
      rw [hr]
      dsimp only
      apply ih
      · intro k i hk
        rw [getInstance_deleteInstance] at hk
        by_cases hkid : k = id
        · rw [if_pos hkid] at hk
          simp at hk
        · rw [if_neg hkid, getInstance_store, if_neg hkid] at hk
          exact hst k i hk
      · exact waitsOk_delete _ _ _
          (waitsOk_store sv w _ id _ hw
            (fun q hq => Stop_probe_mono inst sv.cfg.TermTimeout true w (evs id) q hq)
            (Stop_waitOk inst sv.cfg.TermTimeout true w (evs id) (hw id inst hg)))

/-- C13: let `range` visit every registered identifier.  Whenever
`StopAllInstances` returns, the registry holds no instance and
`ListInstances` returns the empty mapping, whatever the individual stops
returned and whatever the processes did (exit in time, ignore the
interrupt and get killed, fail to be signalled).  `lastId` is unchanged in
every case.  And `StopAllInstances` does return when every registered
instance has a started process and an exit-wait consistent with the
world. -/
theorem C13_stop_all_empties (sv : Supervisor) (w : World) (visit : List Int)
    (evs : Int → StopEvents) (hcover : ∀ id ∈ sv.ids, id ∈ visit) :
    ((sv.StopAllInstances w visit evs).out = Exit.ret () →
        (sv.StopAllInstances w visit evs).sv.instancesById = []
          ∧ ∀ w2 : World, (sv.StopAllInstances w visit evs).sv.ListInstances w2 = Exit.ret [])
      ∧ (sv.StopAllInstances w visit evs).sv.lastId = sv.lastId
      ∧ (sv.allStarted = true → sv.waitsOk w →
          (sv.StopAllInstances w visit evs).out = Exit.ret ()) := by
  unfold Supervisor.StopAllInstances
  refine ⟨?_, stopEach_lastId evs visit sv w, ?_⟩
  · intro hout
    have hempty : (sv.stopEach w evs visit).sv.instancesById = [] := by
      have hleft := stopEach_left evs visit sv w hout
      cases hl : (sv.stopEach w evs visit).sv.instancesById with
      | nil => rfl
      | cons e rest =>
        have hk : e.1 ∈ (sv.stopEach w evs visit).sv.ids := by
          unfold Supervisor.ids
          rw [hl]
          simp
        obtain ⟨h1, h2⟩ := hleft e.1 hk
        exact absurd (hcover e.1 h1) h2
    refine ⟨hempty, ?_⟩
    intro w2
    unfold Supervisor.ListInstances
    rw [hempty]
    rfl
  · intro hst hw
    exact stopEach_returns evs visit sv w (allStarted_getInstance sv hst) hw

/-- C13 at a concrete input: `sv2T` is shut down, instance 2 first; instance
2 ignores the interrupt and is killed, instance 1 exits in time. -/
theorem C13_stop_all_empties_witness :
    (∀ id ∈ sv2T.ids, id ∈ [2, 1])
      ∧ (sv2T.StopAllInstances world2T [2, 1] evs2T).out = Exit.ret ()
      ∧ (sv2T.StopAllInstances world2T [2, 1] evs2T).sv.instancesById = []
      ∧ (sv2T.StopAllInstances world2T [2, 1] evs2T).sv.ListInstances worldT = Exit.ret []
      ∧ (sv2T.StopAllInstances world2T [2, 1] evs2T).sv.lastId = 2 :=
  have h := C13_stop_all_empties sv2T world2T [2, 1] evs2T (by decide)
  have hout := h.2.2 (by decide) (waitsOk_of_no_done sv2T world2T (by decide))
  ⟨by decide, hout, (h.1 hout).1, (h.1 hout).2 worldT, h.2.1⟩

/-! ## ListInstances: one entry per registered instance -/

theorem lookup_of_mem_nodup (k : Int) (v : Instance) (l : List (Int × Instance))
    (hm : (k, v) ∈ l) (hn : (l.map Prod.fst).Nodup) : l.lookup k = some v := by
  induction l with
  | nil => simp at hm
  | cons e rest ih =>
    obtain ⟨j, y⟩ := e
    simp only [List.map_cons, List.nodup_cons] at hn
    rcases List.mem_cons.mp hm with h1 | h2
    · simp only [Prod.mk.injEq] at h1
      obtain ⟨h3, h4⟩ := h1
      subst h3 h4
      exact lookup_cons_eq _ _ _
    · have hne : k ≠ j := by
        intro h
        apply hn.1
        rw [← h]
        exact List.mem_map.mpr ⟨(k, v), h2, rfl⟩
      rw [lookup_cons_ne _ _ hne]
      exact ih h2 hn.2

/-- What the loop of `ListInstances` builds when the identifiers still to
visit are pairwise distinct and none of their keys is in the map yet: one
more entry per identifier, in order, under its decimal string, holding
the status of its instance. -/
theorem listLoop_spec (w : World) :
    ∀ (es : List (Int × Instance)) (acc l : List (String × InstanceStatus)),
      listLoop w acc es = Exit.ret l → (es.map Prod.fst).Nodup →
      (∀ e ∈ es, ∀ x ∈ acc, x.1 ≠ Itoa e.1) →
      ∃ l2, l = acc ++ l2
        ∧ List.Forall₂ (fun e x => x.1 = Itoa e.1 ∧ e.2.Status w = Exit.ret x.2) es l2 := by
  intro es
  induction es with
  | nil =>
    intro acc l h _ _
    simp only [listLoop, Exit.ret.injEq] at h
    exact ⟨[], by simp [h], List.Forall₂.nil⟩
  | cons e rest ih =>
    intro acc l h hn hfresh
    obtain ⟨id, inst⟩ := e
    simp only [List.map_cons, List.nodup_cons] at hn
    unfold listLoop at h
    split at h
    · rename_i st hst
      have hfilter : acc.filter (fun x => x.1 != Itoa id) = acc := by
        rw [List.filter_eq_self]
        intro x hx
        simpa using hfresh (id, inst) (List.mem_cons_self _ _) x hx
      rw [hfilter] at h
      obtain ⟨l2, hl2, hf⟩ := ih (acc ++ [(Itoa id, st)]) l h hn.2 (by
        intro e he x hx
        rcases List.mem_append.mp hx with hx | hx
        · exact hfresh e (List.mem_cons_of_mem _ he) x hx
        · simp only [List.mem_singleton] at hx
          subst hx
          intro heq
          have := Itoa_injective _ _ heq
          exact hn.1 (List.mem_map.mpr ⟨e, he, this.symm⟩))
      refine ⟨(Itoa id, st) :: l2, by simp [hl2], List.Forall₂.cons ⟨rfl, hst⟩ hf⟩
    · simp at h

theorem listLoop_returns (w : World) :
    ∀ (es : List (Int × Instance)) (acc : List (String × InstanceStatus)),
      es.all (fun e => e.2.Cmd.Process.isSome) = true → ∃ l, listLoop w acc es = Exit.ret l := by
  intro es
  induction es with
  | nil => intro acc _; exact ⟨acc, rfl⟩
  | cons e rest ih =>
    intro acc h
    obtain ⟨id, inst⟩ := e
    simp only [List.all_cons, Bool.and_eq_true] at h
    obtain ⟨p, hp⟩ := Option.isSome_iff_exists.mp h.1
    unfold listLoop
    rw [Status_of_process inst w p hp]
    exact ih _ h.2

theorem listed_keys (w : World) (es : List (Int × Instance))
    (l : List (String × InstanceStatus))
    (hf : List.Forall₂ (fun e x => x.1 = Itoa e.1 ∧ e.2.Status w = Exit.ret x.2) es l) :
    l.map Prod.fst = (es.map Prod.fst).map Itoa := by
  induction hf with
  | nil => rfl
  | cons h _ ih => simp [h.1, ih]

theorem listed_of_entry (w : World) (es : List (Int × Instance))
    (l : List (String × InstanceStatus))
    (hf : List.Forall₂ (fun e x => x.1 = Itoa e.1 ∧ e.2.Status w = Exit.ret x.2) es l) :
    ∀ e ∈ es, ∃ x ∈ l, x.1 = Itoa e.1 ∧ e.2.Status w = Exit.ret x.2 := by
  induction hf with
  | nil => intro e he; simp at he
  | cons h _ ih =>
    intro e he
    rcases List.mem_cons.mp he with he | he
    · subst he
      exact ⟨_, List.mem_cons_self _ _, h⟩
    · obtain ⟨x, hx, hr⟩ := ih e he
      exact ⟨x, List.mem_cons_of_mem _ hx, hr⟩

theorem entry_of_listed (w : World) (es : List (Int × Instance))
    (l : List (String × InstanceStatus))
    (hf : List.Forall₂ (fun e x => x.1 = Itoa e.1 ∧ e.2.Status w = Exit.ret x.2) es l) :
    ∀ x ∈ l, ∃ e ∈ es, x.1 = Itoa e.1 ∧ e.2.Status w = Exit.ret x.2 := by
  induction hf with
  | nil => intro x hx; simp at hx
  | cons h _ ih =>
    intro x hx
    rcases List.mem_cons.mp hx with hx | hx
    · subst hx
      exact ⟨_, List.mem_cons_self _ _, h⟩
    · obtain ⟨e, he, hr⟩ := ih x hx
      exact ⟨e, List.mem_cons_of_mem _ he, hr⟩

/-- C16: for a registry whose identifiers are pairwise distinct (a Go
map), whatever `ListInstances` returns has exactly one entry per
registered identifier: its keys are the decimal strings of the registered
identifiers, pairwise distinct, its size is the number of registered
instances, and under the key of `id` it holds exactly the status that
`GetInstanceStatus id` returns.  It does return when every registered
instance has a started process.  Distinct identifiers have distinct
decimal strings.  The call returns nothing but this mapping. -/
theorem C16_list_instances (sv : Supervisor) (w : World) (hnodup : sv.ids.Nodup) :
    (∀ l, sv.ListInstances w = Exit.ret l →
        l.map Prod.fst = sv.ids.map Itoa
          ∧ (l.map Prod.fst).Nodup
          ∧ l.length = sv.ids.length
          ∧ ∀ id st, (Itoa id, st) ∈ l ↔ sv.GetInstanceStatus w id = Exit.ret (some st, none))
      ∧ (sv.allStarted = true → ∃ l, sv.ListInstances w = Exit.ret l)
      ∧ (∀ a b : Int, Itoa a = Itoa b → a = b) := by
  refine ⟨?_, fun h => listLoop_returns w _ [] h, Itoa_injective⟩
  intro l hl
  obtain ⟨l2, hl2, hf⟩ := listLoop_spec w sv.instancesById [] l hl hnodup (by simp)
  simp only [List.nil_append] at hl2
  subst hl2
  have hkeys : l.map Prod.fst = sv.ids.map Itoa := listed_keys w _ _ hf
  have hleft := listed_of_entry w _ _ hf
  have hright := entry_of_listed w _ _ hf
  refine ⟨hkeys, ?_, ?_, ?_⟩
  · rw [hkeys]
    exact hnodup.map (fun a b hab => Itoa_injective a b hab)
  · have := congrArg List.length hkeys
    simpa using this
  · intro id st
    constructor
    · intro hm
      obtain ⟨e, he, h1, h2⟩ := hright _ hm
      have hid : e.1 = id := (Itoa_injective _ _ h1).symm
      have hg : sv.getInstance id = some e.2 := by
        apply lookup_of_mem_nodup id e.2 _ _ hnodup
        rw [← hid]
        exact he
      simp only [Supervisor.GetInstanceStatus, hg, h2]
    · intro hs
      unfold Supervisor.GetInstanceStatus at hs
      cases hg : sv.getInstance id with
      | none => simp [hg] at hs
      | some inst =>
        rw [hg] at hs
        dsimp only at hs
        cases hst : inst.Status w with
        | ret st2 =>
          rw [hst] at hs
          simp only [Exit.ret.injEq, Prod.mk.injEq, Option.some.injEq, and_true] at hs
          subst hs
          obtain ⟨x, hx, h1, h2⟩ := hleft (id, inst) (mem_of_lookup id inst _ hg)
          rw [hst] at h2
          simp only [Exit.ret.injEq] at h2
          have : x = (Itoa id, st2) := Prod.ext h1 h2.symm
          rw [← this]
          exact hx
        | panic => rw [hst] at hs; simp at hs
        | block => rw [hst] at hs; simp at hs

/-- C16 at a concrete input: the registry `sv2T` with its two instances. -/
theorem C16_list_instances_witness :
    sv2T.ids.Nodup
      ∧ ((∀ l, sv2T.ListInstances world2T = Exit.ret l →
          l.map Prod.fst = sv2T.ids.map Itoa
            ∧ (l.map Prod.fst).Nodup
            ∧ l.length = sv2T.ids.length
            ∧ ∀ id st, (Itoa id, st) ∈ l
                ↔ sv2T.GetInstanceStatus world2T id = Exit.ret (some st, none))
        ∧ (sv2T.allStarted = true → ∃ l, sv2T.ListInstances world2T = Exit.ret l)
        ∧ (∀ a b : Int, Itoa a = Itoa b → a = b)) :=
  ⟨by decide, C16_list_instances sv2T world2T (by decide)⟩

/-! ## handleZombie -/

/-- `RestartAfterTermInstance` makes no call but, at most, one launch. -/
theorem RestartAfterTermInstance_calls (sv : Supervisor) (w : World) (pid : Int)
    (visit : List Int) (l : Launch) :
    (sv.RestartAfterTermInstance w pid visit l).world.calls = w.calls
      ∨ ∃ path env, (sv.RestartAfterTermInstance w pid visit l).world.calls
          = w.calls ++ [Call.start path env] := by
  unfold Supervisor.RestartAfterTermInstance
  split
  · exact Or.inl rfl
  · split
    · exact Or.inl rfl
    · split
      · exact Or.inl rfl
      · right
        cases l <;> exact ⟨_, _, rfl⟩
    · exact Or.inl rfl
  · exact Or.inl rfl

/-- C20: `handleZombie` makes exactly one `Wait4` call.  It hands at most
one PID to `RestartAfterTermInstance`, and only the PID that `Wait4`
returned, without error and different from 0.  When `Wait4` returns PID 0
or the "no child processes" error it calls nothing and logs nothing; when
`Wait4` fails with another error it logs that and calls nothing; in both
cases the registry is untouched.  When `RestartAfterTermInstance` returns
an error, `handleZombie` logs it with the PID and the identifier and
returns normally. -/
theorem C20_handle_zombie (sv : Supervisor) (w : World) (r : Reaped) (visit : List Int)
    (l : Launch) :
    (handleZombie sv w r visit l).world.calls.count Call.wait4
        = w.calls.count Call.wait4 + 1
      ∧ (handleZombie sv w r visit l).asked.length ≤ 1
      ∧ (∀ p ∈ (handleZombie sv w r visit l).asked, p = r.pid ∧ r.err = none ∧ r.pid ≠ 0)
      ∧ (r.pid = 0 ∨ r.err = some 10 →
          handleZombie sv w r visit l
            = { sv := sv, world := w.log Call.wait4, logs := [], asked := [],
                out := Exit.ret () })
      ∧ (∀ code, r.pid ≠ 0 → r.err = some code → code ≠ 10 →
          handleZombie sv w r visit l
            = { sv := sv, world := w.log Call.wait4, logs := [LogLine.waitFailed code],
                asked := [], out := Exit.ret () })
      ∧ (∀ id e, r.pid ≠ 0 → r.err = none →
          (sv.RestartAfterTermInstance ((w.log Call.wait4).reap r.pid) r.pid visit l).out
            = Exit.ret (id, some e) →
          (handleZombie sv w r visit l).out = Exit.ret ()
            ∧ (handleZombie sv w r visit l).logs = [LogLine.restartFailed r.pid id e]
            ∧ (handleZombie sv w r visit l).asked = [r.pid]) := by
  obtain ⟨pid, err⟩ := r
  have hcount : ∀ w2 : World, w2.calls = w.calls ++ [Call.wait4] →
      w2.calls.count Call.wait4 = w.calls.count Call.wait4 + 1 := by
    intro w2 h2
    rw [h2]
    simp
  have hrati : (sv.RestartAfterTermInstance ((w.log Call.wait4).reap pid) pid visit
      l).world.calls.count Call.wait4 = w.calls.count Call.wait4 + 1 := by
    rcases RestartAfterTermInstance_calls sv ((w.log Call.wait4).reap pid) pid visit l
      with h | ⟨path, env, h⟩
    · rw [h]
      exact hcount _ rfl
    · rw [h]
      simp [World.reap, World.log]
  dsimp only
  by_cases hc : pid = 0 ∨ err = some 10
  · have hz : handleZombie sv w ⟨pid, err⟩ visit l
        = { sv := sv, world := w.log Call.wait4, logs := [], asked := [],
            out := Exit.ret () } := by
      unfold handleZombie
      simp only [hc, if_true]
    rw [hz]
    refine ⟨hcount _ rfl, by simp, by simp, fun _ => rfl, ?_, ?_⟩
    · intro code h1 h2 h3
      rcases hc with hc | hc
      · exact absurd hc h1
      · rw [h2] at hc
        simp only [Option.some.injEq] at hc
        exact absurd hc h3
    · intro id e h1 h2 _
      rcases hc with hc | hc
      · exact absurd hc h1
      · rw [h2] at hc
        simp at hc
  · have hpid : pid ≠ 0 := fun h => hc (Or.inl h)
    cases err with
    | some code =>
      have hz : handleZombie sv w ⟨pid, some code⟩ visit l
          = { sv := sv, world := w.log Call.wait4, logs := [LogLine.waitFailed code],
              asked := [], out := Exit.ret () } := by
        unfold handleZombie
        simp only [hc, if_false]
      rw [hz]
      refine ⟨hcount _ rfl, by simp, by simp, fun h => absurd h hc, ?_, ?_⟩
      · intro code2 _ h2 _
        simp only [Option.some.injEq] at h2
        rw [h2]
      · intro id e _ h2 _
        simp at h2
    | none =>
      have hz : handleZombie sv w ⟨pid, none⟩ visit l
          = match (sv.RestartAfterTermInstance ((w.log Call.wait4).reap pid) pid visit
              l).out with
            | Exit.ret (id, some e) =>
              { sv := (sv.RestartAfterTermInstance ((w.log Call.wait4).reap pid) pid visit l).sv,
                world := (sv.RestartAfterTermInstance ((w.log Call.wait4).reap pid) pid visit
                  l).world,
                logs := [LogLine.restartFailed pid id e], asked := [pid], out := Exit.ret () }
            | Exit.ret (id, none) =>
              { sv := (sv.RestartAfterTermInstance ((w.log Call.wait4).reap pid) pid visit l).sv,
                world := (sv.RestartAfterTermInstance ((w.log Call.wait4).reap pid) pid visit
                  l).world,
                logs := [LogLine.restarted id], asked := [pid], out := Exit.ret () }
            | Exit.panic =>
              { sv := (sv.RestartAfterTermInstance ((w.log Call.wait4).reap pid) pid visit l).sv,
                world := (sv.RestartAfterTermInstance ((w.log Call.wait4).reap pid) pid visit
                  l).world,
                logs := [], asked := [pid], out := Exit.panic }
            | Exit.block =>
              { sv := (sv.RestartAfterTermInstance ((w.log Call.wait4).reap pid) pid visit l).sv,
                world := (sv.RestartAfterTermInstance ((w.log Call.wait4).reap pid) pid visit
                  l).world,
                logs := [], asked := [pid], out := Exit.block } := by
        unfold handleZombie
        simp only [hc, if_false]
      rw [hz]
      have hasked : ∀ p ∈ [pid], p = pid ∧ (none : Option Nat) = none ∧ pid ≠ 0 := by
        intro p hp
        simp only [List.mem_singleton] at hp
        exact ⟨hp, rfl, hpid⟩
      cases hout : (sv.RestartAfterTermInstance ((w.log Call.wait4).reap pid) pid visit
          l).out with
      | ret a =>
        obtain ⟨id, e⟩ := a
        cases e with
        | some e =>
          refine ⟨hrati, by simp, hasked, fun h => absurd h hc, ?_, ?_⟩
          · intro code _ h2 _
            simp at h2
          · intro id2 e2 _ _ h3
            simp only [Exit.ret.injEq, Prod.mk.injEq, Option.some.injEq] at h3
            obtain ⟨h4, h5⟩ := h3
            subst h4 h5
            exact ⟨rfl, rfl, rfl⟩
        | none =>
          refine ⟨hrati, by simp, hasked, fun h => absurd h hc, ?_, ?_⟩
          · intro code _ h2 _
            simp at h2
          · intro id2 e2 _ _ h3
            simp at h3
      | panic =>
        refine ⟨hrati, by simp, hasked, fun h => absurd h hc, ?_, ?_⟩
        · intro code _ h2 _
          simp at h2
        · intro id2 e2 _ _ h3
          simp at h3
      | block =>
        refine ⟨hrati, by simp, hasked, fun h => absurd h hc, ?_, ?_⟩
        · intro code _ h2 _
          simp at h2
        · intro id2 e2 _ _ h3
          simp at h3

/-! ## The termination barrier under every schedule -/

/-- Reading a list after one position was overwritten. -/
theorem get_set_cases {l : List Thread} {t j : Nat} {y x : Thread}
    (h : (l.set t y)[j]? = some x) : (j = t ∧ x = y) ∨ (j ≠ t ∧ l[j]? = some x) := by
  rw [List.getElem?_set] at h
  by_cases e : t = j
  · subst e
    rw [if_pos rfl] at h
    split at h
    · exact Or.inl ⟨rfl, (Option.some.inj h).symm⟩
    · simp at h
  · rw [if_neg e] at h
    exact Or.inr ⟨fun h2 => e h2.symm, h⟩

/-- Counting after one position was overwritten. -/
theorem countP_set_add (p : Thread → Bool) (l : List Thread) (i : Nat) (x y : Thread)
    (h : l[i]? = some x) :
    (l.set i y).countP p + (if p x = true then 1 else 0)
      = l.countP p + (if p y = true then 1 else 0) := by
  obtain ⟨hi, hx⟩ := List.getElem?_eq_some.mp h
  rw [List.countP_set p l i y hi, hx]
  have hpos : p x = true → 0 < l.countP p := by
    intro hp
    exact List.countP_pos_iff.mpr ⟨x, List.mem_iff_getElem?.mpr ⟨i, h⟩, hp⟩
  by_cases hp : p x = true
  · have := hpos hp
    simp only [hp, if_true]
    omega
  · simp only [hp, Bool.false_eq_true, if_false]
    omega

/-- An entry that counts makes the count positive. -/
theorem countP_pos_of_get (p : Thread → Bool) (l : List Thread) (i : Nat) (x : Thread)
    (h : l[i]? = some x) (hp : p x = true) : 0 < l.countP p :=
  List.countP_pos_iff.mpr ⟨x, List.mem_iff_getElem?.mpr ⟨i, h⟩, hp⟩

/-- Counting after one position was overwritten by an entry that counts
the same. -/
theorem countP_set_same (p : Thread → Bool) (l : List Thread) (i : Nat) (x y : Thread)
    (h : l[i]? = some x) (hxy : p y = p x) : (l.set i y).countP p = l.countP p := by
  have := countP_set_add p l i x y h
  rw [hxy] at this
  omega

/-- The goroutine just launched by `t` counts for `t` only. -/
theorem countP_child (p t : Nat) :
    [childThread t].countP (pendingOf p) = if t = p then 1 else 0 := by
  by_cases e : t = p
  · subst e
    simp [List.countP_cons, pendingOf, childThread, childSteps]
  · have hne : (some t : Option Nat) ≠ some p := fun h => e (Option.some.inj h)
    simp [List.countP_cons, pendingOf, childThread, childSteps, e]

/-- One goroutine changes itself, and the barrier with it: what it has to
respect for `Sys.Inv` to stay true. -/
theorem Inv_set (s : Sys) (hinv : s.Inv) (t : Nat) (th th2 : Thread) (w2 : Option Nat)
    (r2 : Nat) (hth : s.threads[t]? = some th)
    (hparent : th2.parent = th.parent) (hwg : th2.wg = th.wg)
    (hok : th2.ok = true)
    (hrem : th.parent = none ∨ (th2.rem = [] ↔ th.rem = []))
    (hkeep : th.wg = 0 ∨ (th2.hold = Hold.write ∧ waits th2.rem = true))
    (hself : th2.hold = Hold.write ↔ w2 = some t)
    (hother : ∀ j, j ≠ t → (s.writer = some j ↔ w2 = some j))
    (hr : r2 + (if th.hold = Hold.read then 1 else 0)
        = s.readers + (if th2.hold = Hold.read then 1 else 0))
    (hx : w2 ≠ none → r2 = 0) :
    Sys.Inv { writer := w2, readers := r2, threads := s.threads.set t th2 } := by
  have hpend : ∀ p, pendingOf p th2 = pendingOf p th := by
    intro p
    unfold pendingOf
    rw [hparent]
    rcases hrem with h | h
    · rw [h]
      rfl
    · have h3 : th2.rem.isEmpty = th.rem.isEmpty := by
        cases h1 : th.rem <;> cases h2 : th2.rem <;> simp_all
      rw [h3]
  have hcount : ∀ p, (s.threads.set t th2).countP (pendingOf p)
      = s.threads.countP (pendingOf p) := by
    intro p
    have := countP_set_add (pendingOf p) s.threads t th th2 hth
    rw [hpend p] at this
    omega
  constructor
  · intro j x hj
    rcases get_set_cases hj with ⟨_, h2⟩ | ⟨_, h2⟩
    · rw [h2]
      exact hok
    · exact hinv.ok j x h2
  · intro j x hj
    show x.hold = Hold.write ↔ w2 = some j
    rcases get_set_cases hj with ⟨h1, h2⟩ | ⟨h1, h2⟩
    · rw [h1, h2]
      exact hself
    · exact (hinv.writer j x h2).trans (hother j h1)
  · show r2 = (s.threads.set t th2).countP (fun th => th.hold == Hold.read)
    have h1 := countP_set_add (fun th => th.hold == Hold.read) s.threads t th th2 hth
    have h2 := hinv.readers
    simp only [beq_iff_eq] at h1
    omega
  · exact hx
  · intro p pt hp
    show pt.wg = (s.threads.set t th2).countP (pendingOf p)
    rw [hcount p]
    rcases get_set_cases hp with ⟨h1, h2⟩ | ⟨_, h2⟩
    · rw [h2, hwg, h1]
      exact hinv.wg t th hth
    · exact hinv.wg p pt h2
  · intro c ct p hc hcp hcr
    show ∃ pt : Thread, (s.threads.set t th2)[p]? = some pt ∧ _
    have hold : ∃ (c0 : Nat) (ct0 : Thread), s.threads[c0]? = some ct0 ∧ ct0.parent = some p ∧ ct0.rem ≠ [] := by
      rcases get_set_cases hc with ⟨h1, h2⟩ | ⟨_, h2⟩
      · refine ⟨t, th, hth, ?_, ?_⟩
        · rw [← hparent, ← h2]
          exact hcp
        · rcases hrem with h | h
          · rw [h2, hparent, h] at hcp
            simp at hcp
          · rw [h2] at hcr
            exact fun e => hcr (h.mpr e)
      · exact ⟨c, ct, h2, hcp, hcr⟩
    obtain ⟨c0, ct0, h0, h0p, h0r⟩ := hold
    obtain ⟨pt, hpt, hpn, hph, hpw⟩ := hinv.parent c0 ct0 p h0 h0p h0r
    by_cases e : p = t
    · subst e
      have hlt : p < s.threads.length := (List.getElem?_eq_some.mp hth).1
      have hpt2 : pt = th := by
        rw [hth] at hpt
        exact (Option.some.inj hpt).symm
      subst hpt2
      refine ⟨th2, List.getElem?_set_self hlt, hparent.trans hpn, ?_⟩
      rcases hkeep with h | h
      · have hw := hinv.wg p pt hth
        have hpos := countP_pos_of_get (pendingOf p) s.threads c0 ct0 h0
          (by simp [pendingOf, h0p, h0r])
        omega
      · exact h
    · refine ⟨pt, ?_, hpn, hph, hpw⟩
      rw [List.getElem?_set_ne (fun h => e h.symm)]
      exact hpt
  · intro c ct p hc hcp
    show p < (s.threads.set t th2).length
    rw [List.length_set]
    rcases get_set_cases hc with ⟨_, h2⟩ | ⟨_, h2⟩
    · rw [h2, hparent] at hcp
      exact hinv.bound t th p hth hcp
    · exact hinv.bound c ct p h2 hcp

@[simp] theorem Thread.advance_parent (th : Thread) : th.advance.parent = th.parent := by
  unfold Thread.advance
  split <;> rfl

@[simp] theorem Thread.advance_wg (th : Thread) : th.advance.wg = th.wg := by
  unfold Thread.advance
  split <;> rfl

@[simp] theorem Thread.advance_hold (th : Thread) : th.advance.hold = th.hold := by
  unfold Thread.advance
  split <;> rfl

/-- A goroutine of `StopAllInstances` is at one of four places. -/
theorem okChild_cases (th : Thread) (h : okChild th = true) :
    th.hold = Hold.free ∧ th.defers = [] ∧ th.wg = 0
      ∧ (th.rem = childSteps ∨ th.rem = [Step.work Work.deleteStopped, Step.wgDone]
          ∨ th.rem = [Step.wgDone] ∨ th.rem = []) := by
  unfold okChild at h
  simp only [Bool.and_eq_true, Bool.or_eq_true, beq_iff_eq, List.isEmpty_iff] at h
  obtain ⟨⟨⟨h1, h2⟩, h3⟩, h4⟩ := h
  refine ⟨h1, h2, h3, ?_⟩
  rcases h4 with ((h4 | h4) | h4) | h4
  · exact Or.inl h4
  · exact Or.inr (Or.inl h4)
  · exact Or.inr (Or.inr (Or.inl h4))
  · exact Or.inr (Or.inr (Or.inr h4))

/-- A goroutine with launched goroutines still at work holds the write lock
and has its `wg.Wait()` ahead. -/
theorem Inv_wg_pos (s : Sys) (hinv : s.Inv) (t : Nat) (th : Thread)
    (hth : s.threads[t]? = some th) (hwg : th.wg ≠ 0) :
    th.parent = none ∧ th.hold = Hold.write ∧ waits th.rem = true := by
  have h1 := hinv.wg t th hth
  have h2 : 0 < s.threads.countP (pendingOf t) := by omega
  obtain ⟨ct, hmem, hp⟩ := List.countP_pos_iff.mp h2
  obtain ⟨c, hc⟩ := List.mem_iff_getElem?.mp hmem
  unfold pendingOf at hp
  simp only [Bool.and_eq_true, beq_iff_eq, Bool.not_eq_true', List.isEmpty_eq_false] at hp
  obtain ⟨pt, hpt, h3⟩ := hinv.parent c ct t hc hp.1 hp.2
  rw [hth] at hpt
  rw [← Option.some.inj hpt] at h3
  exact h3

theorem next_rlock (th : Thread) (hok : th.ok = true) (hn : th.next = some Step.rlock) :
    th.parent = none ∧ th.hold = Hold.free
      ∧ Thread.ok { th.advance with hold := Hold.read } = true := by
  obtain ⟨parent, hold, rem, defers, wg⟩ := th
  cases parent <;> cases rem <;> cases defers <;> cases hold <;>
    simp_all [Thread.ok, Thread.next, Thread.advance, okOp, unwinds, okChild, childSteps]

theorem next_lock (th : Thread) (hok : th.ok = true) (hn : th.next = some Step.lock) :
    th.parent = none ∧ th.hold = Hold.free
      ∧ Thread.ok { th.advance with hold := Hold.write } = true := by
  obtain ⟨parent, hold, rem, defers, wg⟩ := th
  cases parent <;> cases rem <;> cases defers <;> cases hold <;>
    simp_all [Thread.ok, Thread.next, Thread.advance, okOp, unwinds, okChild, childSteps]

theorem next_runlock (th : Thread) (hok : th.ok = true) (hn : th.next = some Step.runlock) :
    th.parent = none ∧ th.hold = Hold.read
      ∧ Thread.ok { th.advance with hold := Hold.free } = true := by
  obtain ⟨parent, hold, rem, defers, wg⟩ := th
  cases parent <;> cases rem <;> cases defers <;> cases hold <;>
    simp_all [Thread.ok, Thread.next, Thread.advance, okOp, unwinds, okChild, childSteps]

theorem next_unlock (th : Thread) (hok : th.ok = true) (hn : th.next = some Step.unlock) :
    th.parent = none ∧ th.hold = Hold.write ∧ waits th.rem = false
      ∧ Thread.ok { th.advance with hold := Hold.free } = true := by
  obtain ⟨parent, hold, rem, defers, wg⟩ := th
  cases parent <;> cases rem <;> cases defers <;> cases hold <;>
    simp_all [Thread.ok, Thread.next, Thread.advance, okOp, unwinds, okChild, childSteps, waits]

theorem next_deferred (th : Thread) (x : Step) (hok : th.ok = true)
    (hn : th.next = some (Step.deferred x)) :
    th.parent = none ∧ th.hold ≠ Hold.free ∧ waits th.advance.rem = waits th.rem
      ∧ Thread.ok { th.advance with defers := x :: th.advance.defers } = true := by
  obtain ⟨parent, hold, rem, defers, wg⟩ := th
  cases parent <;> cases rem <;> cases defers <;> cases hold <;>
    simp_all [Thread.ok, Thread.next, Thread.advance, okOp, unwinds, okChild, childSteps, waits]

theorem next_wgWait (th : Thread) (hok : th.ok = true) (hn : th.next = some Step.wgWait) :
    th.parent = none ∧ th.hold = Hold.write ∧ th.advance.ok = true := by
  obtain ⟨parent, hold, rem, defers, wg⟩ := th
  cases parent <;> cases rem <;> cases defers <;> cases hold <;>
    simp_all [Thread.ok, Thread.next, Thread.advance, okOp, unwinds, okChild, childSteps]

theorem next_spawn (th : Thread) (hok : th.ok = true) (hn : th.next = some Step.spawn) :
    th.parent = none ∧ th.hold = Hold.write ∧ waits th.advance.rem = true
      ∧ Thread.ok { th.advance with wg := th.wg + 1 } = true := by
  obtain ⟨parent, hold, rem, defers, wg⟩ := th
  cases parent <;> cases rem <;> cases defers <;> cases hold <;>
    simp_all [Thread.ok, Thread.next, Thread.advance, okOp, unwinds, okChild, childSteps]

theorem next_wgDone (th : Thread) (hok : th.ok = true) (hn : th.next = some Step.wgDone) :
    th.parent ≠ none ∧ th.rem = [Step.wgDone] ∧ th.advance.rem = [] ∧ th.wg = 0
      ∧ th.advance.ok = true := by
  obtain ⟨parent, hold, rem, defers, wg⟩ := th
  cases parent <;> cases rem <;> cases defers <;> cases hold <;>
    simp_all [Thread.ok, Thread.next, Thread.advance, okOp, unwinds, okChild, childSteps]

/-- A work of a request is done under the hold of `Work.needs`, never under
the write lock, and a `return` there releases what is held. -/
theorem next_work_op (th : Thread) (a : Work) (hok : th.ok = true)
    (hn : th.next = some (Step.work a)) (hp : th.parent = none) :
    a.needs = th.hold ∧ a.inGoroutine = false ∧ th.hold ≠ Hold.write ∧ th.rem ≠ []
      ∧ th.advance.ok = true
      ∧ (a.returns = true → Thread.ok { th.advance with rem := [] } = true) := by
  obtain ⟨parent, hold, rem, defers, wg⟩ := th
  cases parent <;> cases rem <;> cases defers <;> cases hold <;> cases a <;>
    simp_all [Thread.ok, Thread.next, Thread.advance, okOp, unwinds, okChild, childSteps,
      Work.needs, Work.returns, Work.inGoroutine]

/-- A work of a goroutine of `StopAllInstances` is one of its two, without
`return`, and `wg.Done()` is still ahead. -/
theorem next_work_child (th : Thread) (a : Work) (p : Nat) (hok : th.ok = true)
    (hn : th.next = some (Step.work a)) (hp : th.parent = some p) :
    (a = Work.stopForced ∨ a = Work.deleteStopped) ∧ a.returns = false ∧ th.wg = 0
      ∧ th.rem ≠ [] ∧ th.advance.rem ≠ [] ∧ th.advance.ok = true := by
  have hc : okChild th = true := by
    unfold Thread.ok at hok
    rw [hp] at hok
    exact hok
  obtain ⟨h1, h2, h3, h4⟩ := okChild_cases th hc
  obtain ⟨parent, hold, rem, defers, wg⟩ := th
  simp only at h1 h2 h3 h4 hp
  subst h1 h2 h3 hp
  rcases h4 with h4 | h4 | h4 | h4 <;> subst h4 <;>
    simp_all [Thread.ok, Thread.next, Thread.advance, okChild, childSteps] <;>
    subst hn <;> rfl

/-- Reading a list after one entry was appended. -/
theorem get_append_cases {l : List Thread} {j : Nat} {c x : Thread}
    (h : (l ++ [c])[j]? = some x) : l[j]? = some x ∨ (j = l.length ∧ x = c) := by
  rw [List.getElem?_append] at h
  split at h
  · exact Or.inl h
  · rename_i hlt
    right
    have hj : j - l.length = 0 := by
      by_contra hne
      have : ([c] : List Thread)[j - l.length]? = none :=
        List.getElem?_eq_none (by simp; omega)
      rw [this] at h
      simp at h
    rw [hj] at h
    simp only [List.getElem?_cons_zero, Option.some.injEq] at h
    exact ⟨by omega, h.symm⟩

/-- A goroutine that does not hold the write lock has no launched
goroutine at work. -/
theorem Inv_wg_zero (s : Sys) (hinv : s.Inv) (t : Nat) (th : Thread)
    (hth : s.threads[t]? = some th) (hh : th.hold ≠ Hold.write) : th.wg = 0 := by
  by_contra hwg
  exact hh (Inv_wg_pos s hinv t th hth hwg).2.1

/-- No goroutine has a parent outside the list. -/
theorem Inv_no_child_of_length (s : Sys) (hinv : s.Inv) :
    s.threads.countP (pendingOf s.threads.length) = 0 := by
  rw [List.countP_eq_zero]
  intro x hx hp
  obtain ⟨c, hc⟩ := List.mem_iff_getElem?.mp hx
  unfold pendingOf at hp
  simp only [Bool.and_eq_true, beq_iff_eq] at hp
  have := hinv.bound c x _ hc hp.1
  omega

/-- The `range` loop launches a goroutine: `Sys.Inv` stays true. -/
theorem Inv_spawn (s : Sys) (hinv : s.Inv) (t : Nat) (th : Thread)
    (hth : s.threads[t]? = some th) (hp : th.parent = none) (hh : th.hold = Hold.write)
    (hw : waits th.advance.rem = true)
    (hok : Thread.ok { th.advance with wg := th.wg + 1 } = true) :
    Sys.Inv { s with threads :=
                       s.threads.set t { th.advance with wg := th.wg + 1 }
                         ++ [childThread t] } := by
  have hlt : t < s.threads.length := (List.getElem?_eq_some.mp hth).1
  have hwr : s.writer = some t := (hinv.writer t th hth).mp hh
  have hpend : ∀ p, pendingOf p { th.advance with wg := th.wg + 1 } = false := by
    intro p
    simp [pendingOf, hp]
  have hpend0 : ∀ p, pendingOf p th = false := by
    intro p
    simp [pendingOf, hp]
  have hcount : ∀ p, (s.threads.set t { th.advance with wg := th.wg + 1 }).countP
      (pendingOf p) = s.threads.countP (pendingOf p) := by
    intro p
    have := countP_set_add (pendingOf p) s.threads t th { th.advance with wg := th.wg + 1 } hth
    rw [hpend p, hpend0 p] at this
    simpa using this
  constructor
  · intro j x hj
    rcases get_append_cases hj with h1 | ⟨_, h2⟩
    · rcases get_set_cases h1 with ⟨_, h3⟩ | ⟨_, h3⟩
      · rw [h3]
        exact hok
      · exact hinv.ok j x h3
    · rw [h2]
      rfl
  · intro j x hj
    show x.hold = Hold.write ↔ s.writer = some j
    rcases get_append_cases hj with h1 | ⟨h1, h2⟩
    · rcases get_set_cases h1 with ⟨h3, h4⟩ | ⟨_, h4⟩
      · rw [h3, h4]
        simp [hh, hwr]
      · exact hinv.writer j x h4
    · rw [h2, hwr, h1, List.length_set]
      simp only [childThread, Option.some.injEq]
      constructor
      · intro h
        cases h
      · intro h
        omega
  · show s.readers = (s.threads.set t { th.advance with wg := th.wg + 1 }
        ++ [childThread t]).countP (fun th => th.hold == Hold.read)
    rw [List.countP_append, countP_set_same _ s.threads t th _ hth (by simp)]
    have h2 := hinv.readers
    have h3 : [childThread t].countP (fun th => th.hold == Hold.read) = 0 := by
      simp [List.countP_cons, childThread]
    omega
  · exact hinv.excl
  · intro p pt hpt
    show pt.wg = (s.threads.set t { th.advance with wg := th.wg + 1 }
      ++ [childThread t]).countP (pendingOf p)
    rw [List.countP_append, hcount p, countP_child]
    rcases get_append_cases hpt with h1 | ⟨h1, h2⟩
    · rcases get_set_cases h1 with ⟨h3, h4⟩ | ⟨h3, h4⟩
      · rw [h4, h3, if_pos rfl]
        have := hinv.wg t th hth
        show th.wg + 1 = _
        omega
      · have := hinv.wg p pt h4
        rw [if_neg (fun h => h3 h.symm)]
        omega
    · rw [List.length_set] at h1
      have h0 := Inv_no_child_of_length s hinv
      rw [h2, h1, h0, if_neg (by omega)]
      rfl
  · intro c ct p hc hcp hcr
    show ∃ pt : Thread, (s.threads.set t { th.advance with wg := th.wg + 1 }
      ++ [childThread t])[p]? = some pt ∧ _
    have hself : (s.threads.set t { th.advance with wg := th.wg + 1 }
        ++ [childThread t])[t]? = some { th.advance with wg := th.wg + 1 } := by
      rw [List.getElem?_append_left (by rw [List.length_set]; exact hlt)]
      exact List.getElem?_set_self hlt
    rcases get_append_cases hc with h1 | ⟨_, h2⟩
    · rcases get_set_cases h1 with ⟨_, h4⟩ | ⟨_, h4⟩
      · rw [h4] at hcp
        simp [hp] at hcp
      · obtain ⟨pt, hpt, hpn, hph, hpw⟩ := hinv.parent c ct p h4 hcp hcr
        by_cases e : p = t
        · subst e
          exact ⟨_, hself, by simp [hp], by simp [hh], hw⟩
        · refine ⟨pt, ?_, hpn, hph, hpw⟩
          have hpl : p < s.threads.length := (List.getElem?_eq_some.mp hpt).1
          rw [List.getElem?_append_left (by rw [List.length_set]; exact hpl),
            List.getElem?_set_ne (fun h => e h.symm)]
          exact hpt
    · rw [h2] at hcp
      simp only [childThread, Option.some.injEq] at hcp
      subst hcp
      exact ⟨_, hself, by simp [hp], by simp [hh], hw⟩
  · intro c ct p hc hcp
    show p < (s.threads.set t { th.advance with wg := th.wg + 1 } ++ [childThread t]).length
    rw [List.length_append, List.length_set]
    rcases get_append_cases hc with h1 | ⟨_, h2⟩
    · rcases get_set_cases h1 with ⟨_, h4⟩ | ⟨_, h4⟩
      · rw [h4] at hcp
        simp [hp] at hcp
      · have := hinv.bound c ct p h4 hcp
        omega
    · rw [h2] at hcp
      simp only [childThread, Option.some.injEq] at hcp
      omega

/-- A goroutine of `StopAllInstances` calls `wg.Done()`: `Sys.Inv` stays
true. -/
theorem Inv_wgDone (s : Sys) (hinv : s.Inv) (t p : Nat) (th pt : Thread)
    (hth : s.threads[t]? = some th) (hp : th.parent = some p)
    (hrem : th.rem = [Step.wgDone]) (hadv : th.advance.rem = [])
    (hok : th.advance.ok = true)
    (hpt : (s.threads.set t th.advance)[p]? = some pt) :
    Sys.Inv { s with threads :=
                       (s.threads.set t th.advance).set p { pt with wg := pt.wg - 1 } } := by
  have hne : th.rem ≠ [] := by
    rw [hrem]
    simp
  obtain ⟨pt0, hpt0, hpn, hph, hpw⟩ := hinv.parent t th p hth hp hne
  have hpt_ne : p ≠ t := by
    intro e
    subst e
    rw [hth] at hpt0
    rw [← Option.some.inj hpt0, hp] at hpn
    simp at hpn
  have hpt1 : s.threads[p]? = some pt := by
    rw [List.getElem?_set_ne (fun h => hpt_ne h.symm)] at hpt
    exact hpt
  have hpteq : pt0 = pt := by
    rw [hpt0] at hpt1
    exact Option.some.inj hpt1
  subst hpteq
  have hcases : ∀ (j : Nat) (x : Thread),
      ((s.threads.set t th.advance).set p { pt0 with wg := pt0.wg - 1 })[j]? = some x →
      (j = p ∧ x = { pt0 with wg := pt0.wg - 1 }) ∨ (j = t ∧ j ≠ p ∧ x = th.advance)
        ∨ (j ≠ p ∧ j ≠ t ∧ s.threads[j]? = some x) := by
    intro j x hj
    rcases get_set_cases hj with ⟨h1, h2⟩ | ⟨h1, h2⟩
    · exact Or.inl ⟨h1, h2⟩
    · rcases get_set_cases h2 with ⟨h3, h4⟩ | ⟨h3, h4⟩
      · exact Or.inr (Or.inl ⟨h3, h1, h4⟩)
      · exact Or.inr (Or.inr ⟨h1, h3, h4⟩)
  have hcountR : ((s.threads.set t th.advance).set p { pt0 with wg := pt0.wg - 1 }).countP
      (fun th => th.hold == Hold.read) = s.threads.countP (fun th => th.hold == Hold.read) := by
    rw [countP_set_same _ _ p pt0 _ hpt (by simp),
      countP_set_same _ _ t th _ hth (by simp)]
  have hcountP : ∀ q, ((s.threads.set t th.advance).set p { pt0 with wg := pt0.wg - 1 }).countP
      (pendingOf q) + (if p = q then 1 else 0) = s.threads.countP (pendingOf q) := by
    intro q
    rw [countP_set_same _ _ p pt0 _ hpt (by simp [pendingOf])]
    have h1 := countP_set_add (pendingOf q) s.threads t th th.advance hth
    have h2 : pendingOf q th.advance = false := by
      simp [pendingOf, hadv]
    rw [h2] at h1
    by_cases e : p = q
    · have h3 : pendingOf q th = true := by
        simp [pendingOf, hp, hrem, e]
      rw [h3] at h1
      rw [if_pos e]
      simpa using h1
    · have h3 : pendingOf q th = false := by
        simp [pendingOf, hp, e]
      rw [h3] at h1
      rw [if_neg e]
      simpa using h1
  constructor
  · intro j x hj
    rcases hcases j x hj with ⟨_, h2⟩ | ⟨_, _, h2⟩ | ⟨_, _, h2⟩
    · rw [h2]
      have := hinv.ok p pt0 hpt1
      unfold Thread.ok at this ⊢
      simp only [hpn] at this ⊢
      exact this
    · rw [h2]
      exact hok
    · exact hinv.ok j x h2
  · intro j x hj
    show x.hold = Hold.write ↔ s.writer = some j
    rcases hcases j x hj with ⟨h1, h2⟩ | ⟨h1, _, h2⟩ | ⟨_, _, h2⟩
    · rw [h2, h1]
      exact hinv.writer p pt0 hpt1
    · rw [h2, h1, Thread.advance_hold]
      exact hinv.writer t th hth
    · exact hinv.writer j x h2
  · show s.readers = _
    rw [hcountR]
    exact hinv.readers
  · exact hinv.excl
  · intro q x hq
    show x.wg = ((s.threads.set t th.advance).set p { pt0 with wg := pt0.wg - 1 }).countP
      (pendingOf q)
    have hc := hcountP q
    rcases hcases q x hq with ⟨h1, h2⟩ | ⟨h1, h3, h2⟩ | ⟨h1, _, h2⟩
    · have := hinv.wg p pt0 hpt1
      rw [h1] at hc ⊢
      rw [if_pos rfl] at hc
      rw [h2]
      show pt0.wg - 1 = _
      omega
    · have := hinv.wg t th hth
      rw [if_neg (fun h => h3 h.symm)] at hc
      rw [h2, Thread.advance_wg, h1]
      rw [h1] at hc
      omega
    · have := hinv.wg q x h2
      rw [if_neg (fun h => h1 h.symm)] at hc
      omega
  · intro c ct q hc hcq hcr
    show ∃ qt : Thread,
      ((s.threads.set t th.advance).set p { pt0 with wg := pt0.wg - 1 })[q]? = some qt ∧ _
    have hplt : p < (s.threads.set t th.advance).length := (List.getElem?_eq_some.mp hpt).1
    rcases hcases c ct hc with ⟨_, h2⟩ | ⟨_, _, h2⟩ | ⟨_, _, h2⟩
    · rw [h2] at hcq
      simp [hpn] at hcq
    · rw [h2] at hcr
      exact absurd hadv hcr
    · obtain ⟨qt, hqt, hqn, hqh, hqw⟩ := hinv.parent c ct q h2 hcq hcr
      by_cases e : q = p
      · subst e
        rw [hpt1] at hqt
        have hqe := Option.some.inj hqt
        subst hqe
        exact ⟨_, List.getElem?_set_self hplt, hqn, hqh, hqw⟩
      · have e2 : q ≠ t := by
          intro e3
          subst e3
          rw [hth] at hqt
          rw [← Option.some.inj hqt, hp] at hqn
          simp at hqn
        refine ⟨qt, ?_, hqn, hqh, hqw⟩
        rw [List.getElem?_set_ne (fun h => e h.symm),
          List.getElem?_set_ne (fun h => e2 h.symm)]
        exact hqt
  · intro c ct q hc hcq
    show q < ((s.threads.set t th.advance).set p { pt0 with wg := pt0.wg - 1 }).length
    rw [List.length_set, List.length_set]
    rcases hcases c ct hc with ⟨_, h2⟩ | ⟨_, _, h2⟩ | ⟨_, _, h2⟩
    · rw [h2] at hcq
      simp [hpn] at hcq
    · rw [h2, Thread.advance_parent] at hcq
      exact hinv.bound t th q hth hcq
    · exact hinv.bound c ct q h2 hcq

/-- Every statement a goroutine runs keeps `Sys.Inv` true. -/
theorem Inv_step (s : Sys) (hinv : s.Inv) (t : Nat) (ret : Bool) (s2 : Sys)
    (h : s.step t ret = some s2) : s2.Inv := by
  unfold Sys.step at h
  cases hth : s.threads[t]? with
  | none =>
    rw [hth] at h
    simp at h
  | some th =>
    rw [hth] at h
    dsimp only at h
    have hok := hinv.ok t th hth
    cases hn : th.next with
    | none =>
      rw [hn] at h
      simp at h
    | some x =>
      rw [hn] at h
      cases x with
      | rlock =>
        obtain ⟨h1, h2, h3⟩ := next_rlock th hok hn
        dsimp only at h
        split at h
        · rename_i hw
          rw [← Option.some.inj h]
          exact Inv_set s hinv t th _ s.writer (s.readers + 1) hth (by simp) (by simp) h3
            (Or.inl h1) (Or.inl (Inv_wg_zero s hinv t th hth (by rw [h2]; simp)))
            (by simp [hw]) (fun _ _ => Iff.rfl) (by simp [h2]) (fun hx => absurd hw hx)
        · simp at h
      | runlock =>
        obtain ⟨h1, h2, h3⟩ := next_runlock th hok hn
        dsimp only at h
        rw [if_pos h2] at h
        rw [← Option.some.inj h]
        have hpos : 0 < s.readers := by
          rw [hinv.readers]
          exact countP_pos_of_get _ _ t th hth (by simp [h2])
        have hwn : s.writer = none := by
          by_contra hx
          have := hinv.excl hx
          omega
        exact Inv_set s hinv t th _ s.writer (s.readers - 1) hth (by simp) (by simp) h3
          (Or.inl h1) (Or.inl (Inv_wg_zero s hinv t th hth (by rw [h2]; simp)))
          (by simp [hwn]) (fun _ _ => Iff.rfl) (by simp [h2]; omega)
          (fun hx => absurd hwn hx)
      | lock =>
        obtain ⟨h1, h2, h3⟩ := next_lock th hok hn
        dsimp only at h
        split at h
        · rename_i hw
          rw [← Option.some.inj h]
          refine Inv_set s hinv t th _ (some t) s.readers hth (by simp) (by simp) h3
            (Or.inl h1) (Or.inl (Inv_wg_zero s hinv t th hth (by rw [h2]; simp)))
            (by simp) ?_ (by simp [h2]) (fun _ => hw.2)
          intro j hj
          rw [hw.1]
          simp only [Option.some.injEq, false_iff]
          constructor
          · intro hx
            simp at hx
          · intro hx
            exact absurd hx.symm hj
        · simp at h
      | unlock =>
        obtain ⟨h1, h2, h3, h4⟩ := next_unlock th hok hn
        dsimp only at h
        rw [if_pos h2] at h
        rw [← Option.some.inj h]
        have hwr : s.writer = some t := (hinv.writer t th hth).mp h2
        have hwg : th.wg = 0 := by
          by_contra hx
          have := (Inv_wg_pos s hinv t th hth hx).2.2
          rw [h3] at this
          simp at this
        refine Inv_set s hinv t th _ none s.readers hth (by simp) (by simp) h4
          (Or.inl h1) (Or.inl hwg) (by simp) ?_ (by simp [h2]) (fun hx => absurd rfl hx)
        intro j hj
        rw [hwr]
        simp only [Option.some.injEq]
        constructor
        · intro hx
          exact absurd hx.symm hj
        · intro hx
          simp at hx
      | deferred x =>
        obtain ⟨h1, _, h2, h3⟩ := next_deferred th x hok hn
        dsimp only at h
        rw [← Option.some.inj h]
        refine Inv_set s hinv t th _ s.writer s.readers hth (by simp) (by simp) h3
          (Or.inl h1) ?_ ?_ (fun _ _ => Iff.rfl) (by simp) hinv.excl
        · by_cases hwg : th.wg = 0
          · exact Or.inl hwg
          · obtain ⟨_, h5, h6⟩ := Inv_wg_pos s hinv t th hth hwg
            right
            exact ⟨by simp [h5], by rw [← h6]; exact h2⟩
        · simp only [Thread.advance_hold]
          exact hinv.writer t th hth
      | work a =>
        dsimp only at h
        rw [← Option.some.inj h]
        cases hpar : th.parent with
        | none =>
          obtain ⟨h1, _, h2, h3, h4, h5⟩ := next_work_op th a hok hn hpar
          have hwg := Inv_wg_zero s hinv t th hth h2
          by_cases hr : (ret && a.returns) = true
          · rw [if_pos hr]
            have hr2 : a.returns = true := by
              simp only [Bool.and_eq_true] at hr
              exact hr.2
            refine Inv_set s hinv t th _ s.writer s.readers hth (by simp) (by simp) (h5 hr2)
              (Or.inl hpar) (Or.inl hwg) ?_ (fun _ _ => Iff.rfl) (by simp) hinv.excl
            simp only [Thread.advance_hold]
            exact hinv.writer t th hth
          · rw [if_neg hr]
            refine Inv_set s hinv t th _ s.writer s.readers hth (by simp) (by simp) h4
              (Or.inl hpar) (Or.inl hwg) ?_ (fun _ _ => Iff.rfl) (by simp) hinv.excl
            simp only [Thread.advance_hold]
            exact hinv.writer t th hth
        | some p =>
          obtain ⟨_, h2, h3, h4, h5, h6⟩ := next_work_child th a p hok hn hpar
          rw [h2]
          simp only [Bool.and_false, Bool.false_eq_true, if_false]
          refine Inv_set s hinv t th _ s.writer s.readers hth (by simp) (by simp) h6
            (Or.inr ⟨fun hx => absurd hx h5, fun hx => absurd hx h4⟩) (Or.inl h3) ?_
            (fun _ _ => Iff.rfl) (by simp) hinv.excl
          simp only [Thread.advance_hold]
          exact hinv.writer t th hth
      | spawn =>
        obtain ⟨h1, h2, h3, h4⟩ := next_spawn th hok hn
        dsimp only at h
        rw [← Option.some.inj h]
        exact Inv_spawn s hinv t th hth h1 h2 h3 h4
      | wgWait =>
        obtain ⟨h1, h2, h3⟩ := next_wgWait th hok hn
        dsimp only at h
        split at h
        · rename_i hwg
          rw [← Option.some.inj h]
          refine Inv_set s hinv t th _ s.writer s.readers hth (by simp) (by simp) h3
            (Or.inl h1) (Or.inl hwg) ?_ (fun _ _ => Iff.rfl) (by simp) hinv.excl
          simp only [Thread.advance_hold]
          exact hinv.writer t th hth
        · simp at h
      | wgDone =>
        obtain ⟨h1, h2, h3, _, h5⟩ := next_wgDone th hok hn
        dsimp only at h
        cases hpar : th.parent with
        | none => exact absurd hpar h1
        | some p =>
          rw [hpar] at h
          dsimp only at h
          cases hpt : (s.threads.set t th.advance)[p]? with
          | none =>
            rw [hpt] at h
            simp at h
          | some pt =>
            rw [hpt] at h
            dsimp only at h
            rw [← Option.some.inj h]
            exact Inv_wgDone s hinv t p th pt hth hpar h2 h3 h5 hpt

/-- The `range` loop of `StopAllInstances` and its `wg.Wait()` are in order
under the write lock, for every number of instances. -/
theorem okOp_spawns (n : Nat) :
    okOp (List.replicate n Step.spawn ++ [Step.wgWait]) Hold.write [Step.unlock] = true
      ∧ waits (List.replicate n Step.spawn ++ [Step.wgWait]) = true := by
  induction n with
  | zero => exact ⟨rfl, rfl⟩
  | succ k ih =>
    rw [List.replicate_succ, List.cons_append]
    constructor
    · simp only [okOp, ih.1, ih.2, Bool.and_true, beq_self_eq_true]
    · simp only [waits, ih.2]

/-- The body of every request is in order. -/
theorem Request_thread_ok (r : Request) : r.thread.ok = true := by
  cases r with
  | start => rfl
  | stop => rfl
  | restartAfterTerm => rfl
  | stopAll n =>
    have hs : stopAllSteps n = Step.lock :: Step.deferred Step.unlock
        :: (List.replicate n Step.spawn ++ [Step.wgWait]) := by
      simp [stopAllSteps]
    show okOp (stopAllSteps n) Hold.free [] = true
    rw [hs]
    simp only [okOp, (okOp_spawns n).1, Bool.and_true, beq_self_eq_true]
    rfl

/-- Before any statement has run, `Sys.Inv` is true. -/
theorem Inv_init (reqs : List Request) : (Sys.init reqs).Inv := by
  have hget : ∀ (t : Nat) (th : Thread), (Sys.init reqs).threads[t]? = some th →
      ∃ r : Request, th = r.thread := by
    intro t th h
    unfold Sys.init at h
    simp only [List.getElem?_map] at h
    cases hr : reqs[t]? with
    | none =>
      rw [hr] at h
      simp at h
    | some r =>
      rw [hr] at h
      exact ⟨r, (Option.some.inj h).symm⟩
  have hall : ∀ th ∈ (Sys.init reqs).threads, ∃ r : Request, th = r.thread := by
    intro th hmem
    obtain ⟨t, ht⟩ := List.mem_iff_getElem?.mp hmem
    exact hget t th ht
  constructor
  · intro t th h
    obtain ⟨r, hr⟩ := hget t th h
    rw [hr]
    exact Request_thread_ok r
  · intro t th h
    obtain ⟨r, hr⟩ := hget t th h
    rw [hr]
    simp [Request.thread, Sys.init]
  · show 0 = _
    symm
    rw [List.countP_eq_zero]
    intro th hmem
    obtain ⟨r, hr⟩ := hall th hmem
    rw [hr]
    simp [Request.thread]
  · intro h
    exact absurd rfl h
  · intro p pt h
    obtain ⟨r, hr⟩ := hget p pt h
    rw [hr]
    show 0 = _
    symm
    rw [List.countP_eq_zero]
    intro th hmem
    obtain ⟨r2, hr2⟩ := hall th hmem
    rw [hr2]
    simp [Request.thread, pendingOf]
  · intro c ct p h hp
    obtain ⟨r, hr⟩ := hget c ct h
    rw [hr] at hp
    simp [Request.thread] at hp
  · intro c ct p h hp
    obtain ⟨r, hr⟩ := hget c ct h
    rw [hr] at hp
    simp [Request.thread] at hp

/-- Every schedule keeps `Sys.Inv` true. -/
theorem Inv_run (sched : List (Nat × Bool)) :
    ∀ s : Sys, s.Inv → (s.run sched).Inv := by
  induction sched with
  | nil =>
    intro s h
    exact h
  | cons e rest ih =>
    intro s h
    obtain ⟨t, ret⟩ := e
    unfold Sys.run
    apply ih
    cases hs : s.step t ret with
    | none => exact h
    | some s2 => exact Inv_step s h t ret s2 hs

/-- While a goroutine launched by `p` has not finished, `p` holds the
barrier for writing. -/
theorem Inv_child_writer (s : Sys) (hinv : s.Inv) (c p : Nat) (ct : Thread)
    (hc : s.threads[c]? = some ct) (hp : ct.parent = some p) (hf : ct.finished = false) :
    s.writer = some p := by
  have hok := hinv.ok c ct hc
  unfold Thread.ok at hok
  rw [hp] at hok
  obtain ⟨_, h2, _, _⟩ := okChild_cases ct hok
  have hrem : ct.rem ≠ [] := by
    intro e
    unfold Thread.finished at hf
    rw [e, h2] at hf
    simp at hf
  obtain ⟨pt, hpt, _, hph, _⟩ := hinv.parent c ct p hc hp hrem
  exact (hinv.writer p pt hpt).mp hph

/-- A goroutine holding the barrier for reading excludes a writer. -/
theorem Inv_read_no_writer (s : Sys) (hinv : s.Inv) (t : Nat) (th : Thread)
    (hth : s.threads[t]? = some th) (hh : th.hold = Hold.read) : s.writer = none := by
  by_contra hx
  have h1 := hinv.excl hx
  have h2 := hinv.readers
  have h3 := countP_pos_of_get (fun th => th.hold == Hold.read) s.threads t th hth
    (by simp [hh])
  omega

/-- While the barrier is held for writing, the only statement a request
other than the holder can run is the lookup by PID. -/
theorem Inv_blocked (s : Sys) (hinv : s.Inv) (w t : Nat) (th : Thread) (ret : Bool)
    (s2 : Sys) (hw : s.writer = some w) (hth : s.threads[t]? = some th)
    (hp : th.parent = none) (hne : t ≠ w) (hs : s.step t ret = some s2) :
    th.next = some (Step.work Work.getInstanceByPid) := by
  have hok := hinv.ok t th hth
  have hnw : th.hold ≠ Hold.write := by
    intro h
    have := (hinv.writer t th hth).mp h
    rw [hw] at this
    exact hne (Option.some.inj this).symm
  have hnr : th.hold ≠ Hold.read := by
    intro h
    have := Inv_read_no_writer s hinv t th hth h
    rw [hw] at this
    simp at this
  unfold Sys.step at hs
  rw [hth] at hs
  dsimp only at hs
  cases hn : th.next with
  | none =>
    rw [hn] at hs
    simp at hs
  | some x =>
    rw [hn] at hs
    cases x with
    | rlock =>
      dsimp only at hs
      rw [if_neg (by rw [hw]; simp)] at hs
      simp at hs
    | runlock => exact absurd (next_runlock th hok hn).2.1 hnr
    | lock =>
      dsimp only at hs
      rw [if_neg (by rw [hw]; simp)] at hs
      simp at hs
    | unlock => exact absurd (next_unlock th hok hn).2.1 hnw
    | deferred x =>
      have h1 := (next_deferred th x hok hn).2.1
      cases hh : th.hold with
      | free => exact absurd hh h1
      | read => exact absurd hh hnr
      | write => exact absurd hh hnw
    | work a =>
      obtain ⟨h1, h2, _⟩ := next_work_op th a hok hn hp
      cases a <;> first
        | rfl
        | exact absurd h1.symm hnr
        | (simp [Work.inGoroutine] at h2)
    | spawn => exact absurd (next_spawn th hok hn).2.1 hnw
    | wgWait => exact absurd (next_wgWait th hok hn).2.1 hnw
    | wgDone => exact absurd hp (next_wgDone th hok hn).1

/-- A shutdown of one instance next to a `RestartAfterTermInstance` that
did its lookup early: the restart waits at `RLock` until the shutdown has
given the barrier back, then returns at the flag check; every goroutine
finishes and the barrier is free again. -/
theorem barrier_run_to_completion :
    ((Sys.init [Request.stopAll 1, Request.restartAfterTerm]).run
        [(0, false), (0, false), (1, false), (0, false), (1, false), (2, false), (2, false),
         (2, false), (0, false), (0, false), (1, false), (1, false), (1, false), (1, true),
         (1, false)])
      = { writer := none, readers := 0,
          threads := [{ parent := none, hold := Hold.free, rem := [], defers := [], wg := 0 },
                      { parent := none, hold := Hold.free, rem := [], defers := [], wg := 0 },
                      { parent := some 0, hold := Hold.free, rem := [], defers := [],
                        wg := 0 }] } := by
  decide

/-- C19 (counterexample): `RestartAfterTermInstance` starts with its lookup
by PID, not with `RLock`.  With a `StopAllInstances` of one instance as
goroutine 0 and a `RestartAfterTermInstance` as goroutine 1: once goroutine
0 has taken the barrier for writing, goroutine 1, holding nothing, runs its
lookup by PID, and when the lookup finds nothing it returns, all while
goroutine 0 still holds the barrier and has not finished. -/
theorem C19_counterexample_lookup_outside_barrier :
    restartSteps.head? = some (Step.work Work.getInstanceByPid)
      ∧ ((Sys.init [Request.stopAll 1, Request.restartAfterTerm]).run [(0, false)]).writer
          = some 0
      ∧ (((Sys.init [Request.stopAll 1, Request.restartAfterTerm]).run
            [(0, false)]).threads[1]?).map Thread.hold = some Hold.free
      ∧ (((Sys.init [Request.stopAll 1, Request.restartAfterTerm]).run
            [(0, false)]).threads[1]?).bind Thread.next
          = some (Step.work Work.getInstanceByPid)
      ∧ (((Sys.init [Request.stopAll 1, Request.restartAfterTerm]).run
            [(0, false)]).step 1 false).isSome = true
      ∧ ((Sys.init [Request.stopAll 1, Request.restartAfterTerm]).run
            [(0, false), (1, true)]).writer = some 0
      ∧ (((Sys.init [Request.stopAll 1, Request.restartAfterTerm]).run
            [(0, false), (1, true)]).threads[1]?).map Thread.finished = some true
      ∧ (((Sys.init [Request.stopAll 1, Request.restartAfterTerm]).run
            [(0, false), (1, true)]).threads[0]?).map Thread.finished = some false := by
  decide

/-- C19 (as amended): `StartInstance` and `StopInstance` begin with `RLock`,
`RestartAfterTermInstance` with its lookup by PID followed by `RLock`,
`StopAllInstances` with `Lock`.  Under every schedule of any requests: a
request about to do a work other than the lookup by PID holds the barrier
for reading, and no goroutine holds it for writing; `StopAllInstances`
holds the barrier for writing at every iteration of its `range` loop, and
for as long as a goroutine it launched has not finished; and while the
barrier is held for writing, the only statement that a request other than
the holder can run is the lookup by PID of `RestartAfterTermInstance`. -/
theorem C19_barrier_protocol (reqs : List Request) (sched : List (Nat × Bool)) :
    (startSteps.head? = some Step.rlock ∧ stopSteps.head? = some Step.rlock
        ∧ restartSteps.take 2 = [Step.work Work.getInstanceByPid, Step.rlock]
        ∧ ∀ n, (stopAllSteps n).head? = some Step.lock)
      ∧ (∀ (t : Nat) (th : Thread) (a : Work),
          ((Sys.init reqs).run sched).threads[t]? = some th → th.parent = none →
          th.next = some (Step.work a) → a ≠ Work.getInstanceByPid →
          th.hold = Hold.read ∧ ((Sys.init reqs).run sched).writer = none)
      ∧ (∀ (t : Nat) (th : Thread),
          ((Sys.init reqs).run sched).threads[t]? = some th → th.next = some Step.spawn →
          th.hold = Hold.write ∧ ((Sys.init reqs).run sched).writer = some t)
      ∧ (∀ (c p : Nat) (ct : Thread),
          ((Sys.init reqs).run sched).threads[c]? = some ct → ct.parent = some p →
          ct.finished = false → ((Sys.init reqs).run sched).writer = some p)
      ∧ (∀ (w t : Nat) (th : Thread) (ret : Bool) (s2 : Sys),
          ((Sys.init reqs).run sched).writer = some w →
          ((Sys.init reqs).run sched).threads[t]? = some th → th.parent = none → t ≠ w →
          ((Sys.init reqs).run sched).step t ret = some s2 →
          th.next = some (Step.work Work.getInstanceByPid)) := by
  have hinv : ((Sys.init reqs).run sched).Inv := Inv_run sched _ (Inv_init reqs)
  refine ⟨⟨rfl, rfl, rfl, fun _ => rfl⟩, ?_, ?_, ?_, ?_⟩
  · intro t th a hth hp hn ha
    obtain ⟨h1, h2, _⟩ := next_work_op th a (hinv.ok t th hth) hn hp
    have hread : th.hold = Hold.read := by
      cases a <;> first
        | exact h1.symm
        | exact absurd rfl ha
        | (simp [Work.inGoroutine] at h2)
    exact ⟨hread, Inv_read_no_writer _ hinv t th hth hread⟩
  · intro t th hth hn
    have h1 := (next_spawn th (hinv.ok t th hth) hn).2.1
    exact ⟨h1, (hinv.writer t th hth).mp h1⟩
  · intro c p ct hc hp hf
    exact Inv_child_writer _ hinv c p ct hc hp hf
  · intro w t th ret s2 hw hth hp hne hs
    exact Inv_blocked _ hinv w t th ret s2 hw hth hp hne hs

/-- C19 (amended) at a concrete input: a `StartInstance` that has taken the
read lock is about to check the name; no goroutine holds the barrier for
writing, and the `StopAllInstances` next to it cannot take it. -/
theorem C19_barrier_protocol_witness :
    ((Sys.init [Request.start, Request.stopAll 1]).run [(0, false), (0, false)]).threads[0]?
        = some { parent := none, hold := Hold.read,
                 rem := [Step.work Work.checkName, Step.work Work.lookPath,
                         Step.work Work.launch, Step.work Work.addInstance],
                 defers := [Step.runlock], wg := 0 }
      ∧ ((Sys.init [Request.start, Request.stopAll 1]).run [(0, false), (0, false)]).writer
          = none
      ∧ ((Sys.init [Request.start, Request.stopAll 1]).run [(0, false), (0, false)]).step 1 false
          = none :=
  ⟨by decide,
   ((C19_barrier_protocol [Request.start, Request.stopAll 1] [(0, false), (0, false)]).2.1 0
      { parent := none, hold := Hold.read,
        rem := [Step.work Work.checkName, Step.work Work.lookPath,
                Step.work Work.launch, Step.work Work.addInstance],
        defers := [Step.runlock], wg := 0 }
      Work.checkName (by decide) rfl rfl (by decide)).2,
   by decide⟩

/-! ## Instance.Restart and the exit-wait -/

/-- A `Stop` that finds an exit-wait keeps it: the channel is the one it
found, at most emptied, and no `Cmd.Wait` is started. -/
theorem Stop_reuses_done (inst : Instance) (timeout : Int) (force : Bool) (w : World)
    (ev : StopEvents) (ch : Chan) (h : inst.done = some ch) :
    (∃ d, (inst.Stop timeout force w ev).inst.done = some { pid := ch.pid, drained := d })
      ∧ ∀ q, (inst.Stop timeout force w ev).world.calls.count (Call.wait q)
          = w.calls.count (Call.wait q) := by
  obtain ⟨pid, drained⟩ := ch
  unfold Instance.Stop
  simp only [h, Option.isNone_some, Bool.false_eq_true, if_false]
  repeat' split
  all_goals
    refine ⟨⟨_, rfl⟩, ?_⟩
    intro q
    simp [World.log, World.reap]

/-- C29: `Instance.Restart` leaves `Name`, `Env`, `Restartable` and the
exit-wait channel `done` exactly as they were, whether the launch succeeds
or fails; the new command has the old path.  So an exit-wait created by an
earlier `Stop` is still there after `Restart`, and a later `Stop` reuses
it: it keeps that channel, still bound to the process it was created for,
and starts no `Cmd.Wait`. -/
theorem C29_restart_frame (inst : Instance) (w : World) (l : Launch) :
    (inst.Restart w l).1.Name = inst.Name
      ∧ (inst.Restart w l).1.Env = inst.Env
      ∧ (inst.Restart w l).1.Restartable = inst.Restartable
      ∧ (inst.Restart w l).1.done = inst.done
      ∧ (inst.Restart w l).1.Cmd.Path = inst.Cmd.Path
      ∧ ∀ (ch : Chan) (timeout : Int) (force : Bool) (ev : StopEvents), inst.done = some ch →
          (∃ d, ((inst.Restart w l).1.Stop timeout force (inst.Restart w l).2.1 ev).inst.done
              = some { pid := ch.pid, drained := d })
            ∧ ∀ q, ((inst.Restart w l).1.Stop timeout force (inst.Restart w l).2.1
                  ev).world.calls.count (Call.wait q)
                = w.calls.count (Call.wait q) := by
  have hf : (inst.Restart w l).1.Name = inst.Name
      ∧ (inst.Restart w l).1.Env = inst.Env
      ∧ (inst.Restart w l).1.Restartable = inst.Restartable
      ∧ (inst.Restart w l).1.done = inst.done
      ∧ (inst.Restart w l).1.Cmd.Path = inst.Cmd.Path
      ∧ ∀ q, (inst.Restart w l).2.1.calls.count (Call.wait q) = w.calls.count (Call.wait q) := by
    cases l <;> simp [Instance.Restart, Cmd.Start, Command, World.log]
  obtain ⟨h1, h2, h3, h4, h5, h6⟩ := hf
  refine ⟨h1, h2, h3, h4, h5, ?_⟩
  intro ch timeout force ev hch
  have hs := Stop_reuses_done (inst.Restart w l).1 timeout force (inst.Restart w l).2.1 ev ch
    (h4.trans hch)
  refine ⟨hs.1, ?_⟩
  intro q
  rw [hs.2 q, h6 q]

/-- C29 at a concrete input: `instT` was stopped once without success, so
it has an exit-wait for PID 101; it is restarted as PID 102 and stopped
again: the channel is still the one for PID 101. -/
theorem C29_restart_frame_witness :
    (({ instT with done := some { pid := 101, drained := false } } : Instance).Restart
        worldT (Launch.started 102 (by decide))).1.done
        = some { pid := 101, drained := false }
      ∧ ∃ d, ((({ instT with done := some { pid := 101, drained := false } } : Instance).Restart
            worldT (Launch.started 102 (by decide))).1.Stop 100000000 true
          (({ instT with done := some { pid := 101, drained := false } } : Instance).Restart
            worldT (Launch.started 102 (by decide))).2.1 exitsT).inst.done
          = some { pid := 101, drained := d } :=
  ⟨(C29_restart_frame { instT with done := some { pid := 101, drained := false } } worldT
      (Launch.started 102 (by decide))).2.2.2.1,
   ((C29_restart_frame { instT with done := some { pid := 101, drained := false } } worldT
      (Launch.started 102 (by decide))).2.2.2.2.2 { pid := 101, drained := false } 100000000
      true exitsT rfl).1⟩

/-! ## A relaunch that fails -/

/-- C28 (failing input): from a fresh supervisor, "svc" is started as
instance 1 with PID 101 and dies; `RestartAfterTermInstance(101)` finds it
dead and restartable, the launch fails, and the call returns the launch
error with identifier 1.  Instance 1 stays registered with the new command,
whose `Process` is nil.  On that state `GetInstanceStatus(1)`,
`ListInstances`, the reverse lookup by PID and `RestartAfterTermInstance`
for any PID, and `StopInstance(1)` panic. -/
theorem C28_failed_restart_leaves_nil_process :
    ((runState (NewSupervisor cfgT) worldT (failedRestartT.take 2)).1.RestartAfterTermInstance
        (runState (NewSupervisor cfgT) worldT (failedRestartT.take 2)).2 101 [1]
        (Launch.failed 2)).out = Exit.ret (1, some (Err.sys 2))
      ∧ ((runState (NewSupervisor cfgT) worldT failedRestartT).1.getInstance 1).map
          (fun inst => inst.Cmd.Process) = some none
      ∧ (runState (NewSupervisor cfgT) worldT failedRestartT).1.GetInstanceStatus
          (runState (NewSupervisor cfgT) worldT failedRestartT).2 1 = Exit.panic
      ∧ (runState (NewSupervisor cfgT) worldT failedRestartT).1.ListInstances
          (runState (NewSupervisor cfgT) worldT failedRestartT).2 = Exit.panic
      ∧ (runState (NewSupervisor cfgT) worldT failedRestartT).1.getInstanceByPid 555 [1]
          = Exit.panic
      ∧ ((runState (NewSupervisor cfgT) worldT failedRestartT).1.RestartAfterTermInstance
          (runState (NewSupervisor cfgT) worldT failedRestartT).2 555 [1]
          (Launch.failed 2)).out = Exit.panic
      ∧ ((runState (NewSupervisor cfgT) worldT failedRestartT).1.StopInstance
          (runState (NewSupervisor cfgT) worldT failedRestartT).2 1 true exitsT).out
          = Exit.panic := by
  decide

/-! ## parseCommand: the command name -/

/-- The four commands and their specs. -/
theorem cmdParamsSpec_lookup (name : String) (cmdSpec : List (String × paramSpec))
    (h : cmdParamsSpec.lookup name = some cmdSpec) :
    (name = "start" ∧ cmdSpec = [("name", { Required := true, Default := none }),
        ("env", { Required := false, Default := none }),
        ("restartable", { Required := false, Default := some (JVal.bool true) })])
      ∨ (name = "stop" ∧ cmdSpec = [("id", { Required := true, Default := none }),
          ("force", { Required := false, Default := some (JVal.bool true) })])
      ∨ (name = "status" ∧ cmdSpec = [("id", { Required := true, Default := none })])
      ∨ (name = "list" ∧ cmdSpec = []) := by
  unfold cmdParamsSpec at h
  simp only [List.lookup] at h
  split at h
  · rename_i h1
    simp only [beq_iff_eq] at h1
    exact Or.inl ⟨h1, (Option.some.inj h).symm⟩
  · split at h
    · rename_i h1
      simp only [beq_iff_eq] at h1
      exact Or.inr (Or.inl ⟨h1, (Option.some.inj h).symm⟩)
    · split at h
      · rename_i h1
        simp only [beq_iff_eq] at h1
        exact Or.inr (Or.inr (Or.inl ⟨h1, (Option.some.inj h).symm⟩))
      · split at h
        · rename_i h1
          simp only [beq_iff_eq] at h1
          exact Or.inr (Or.inr (Or.inr ⟨h1, (Option.some.inj h).symm⟩))
        · simp at h

/-- A name that is none of the four has no spec. -/
theorem cmdParamsSpec_lookup_none (name : String) (h1 : name ≠ "start") (h2 : name ≠ "stop")
    (h3 : name ≠ "status") (h4 : name ≠ "list") : cmdParamsSpec.lookup name = none := by
  cases h : cmdParamsSpec.lookup name with
  | none => rfl
  | some cmdSpec =>
    rcases cmdParamsSpec_lookup name cmdSpec h with h5 | h5 | h5 | h5
    · exact absurd h5.1 h1
    · exact absurd h5.1 h2
    · exact absurd h5.1 h3
    · exact absurd h5.1 h4

/-- C26: when `Decode` has given a request whose command name is none of
"start", "stop", "status", "list" (the empty name of a request without
`command_name` included), `parseCommand` returns the error for an unknown
command name and leaves the command it was given untouched, whatever the
params and the orders of the loops.  A request that `Decode` rejects is
answered with that error, the command untouched as well. -/
theorem C26_unknown_command (ms : Mapstructure) (cmdJSON : commandJSON)
    (visitSpec visitParams : List String) (cmd : command) (h1 : cmdJSON.Name ≠ "start")
    (h2 : cmdJSON.Name ≠ "stop") (h3 : cmdJSON.Name ≠ "status") (h4 : cmdJSON.Name ≠ "list") :
    parseCommand ms (Except.ok cmdJSON) visitSpec visitParams cmd
        = (cmd, Exit.ret (some (Err.new
            ("Unknown command name: \"" ++ cmdJSON.Name ++ "\"."))))
      ∧ (∀ code, parseCommand ms (Except.error code) visitSpec visitParams cmd
          = (cmd, Exit.ret (some (Err.sys code))))
      ∧ cmdParamsSpec.map Prod.fst = ["start", "stop", "status", "list"] := by
  refine ⟨?_, fun _ => rfl, rfl⟩
  unfold parseCommand
  simp only [cmdParamsSpec_lookup_none cmdJSON.Name h1 h2 h3 h4]

/-- C26 at concrete inputs: a request without `command_name` and without
params, and the command "restart" with params. -/
theorem C26_unknown_command_witness :
    parseCommand msT (Except.ok { Name := "", Params := none }) [] [] command.zero
        = (command.zero, Exit.ret (some (Err.new "Unknown command name: \"\".")))
      ∧ parseCommand msT (Except.ok { Name := "restart", Params := some [("id", JVal.num 1)] })
          ["id"] ["id"] command.zero
        = (command.zero, Exit.ret (some (Err.new "Unknown command name: \"restart\"."))) :=
  ⟨(C26_unknown_command msT { Name := "", Params := none } [] [] command.zero (by decide)
      (by decide) (by decide) (by decide)).1,
   (C26_unknown_command msT { Name := "restart", Params := some [("id", JVal.num 1)] }
      ["id"] ["id"] command.zero (by decide) (by decide) (by decide) (by decide)).1⟩

/-! ## parseCommand: required parameters -/

/-- A key written into the map is found there; the others are found as
before. -/
theorem hasKey_append (m : List (String × JVal)) (k : String) (d : JVal) (key : String) :
    hasKey (some (m ++ [(k, d)])) key = (hasKey (some m) key || (k == key)) := by
  simp [hasKey, List.any_append]

/-- With params that `Decode` has allocated, or a spec without defaults,
the loop does not meet the nil map at a write. -/
theorem checkParams_absent (cmdSpec : List (String × paramSpec)) (k : String)
    (spec : paramSpec) (hk : cmdSpec.lookup k = some spec) (hreq : spec.Required = true) :
    ∀ (visit : List String) (params : Option (List (String × JVal))) (count : Nat),
      k ∈ visit → hasKey params k = false →
      (params = none → ∀ p sp, cmdSpec.lookup p = some sp → sp.Default = none) →
      ∃ name sp, checkParams cmdSpec visit params count = Checked.absent name
        ∧ cmdSpec.lookup name = some sp ∧ sp.Required = true := by
  intro visit
  induction visit with
  | nil =>
    intro params count hmem
    simp at hmem
  | cons p rest ih =>
    intro params count hmem habs hdef
    unfold checkParams
    cases hp : cmdSpec.lookup p with
    | none =>
      have hne : k ≠ p := by
        intro e
        rw [e, hp] at hk
        simp at hk
      have hmem2 : k ∈ rest := by
        rcases List.mem_cons.mp hmem with h | h
        · exact absurd h hne
        · exact h
      exact ih params count hmem2 habs hdef
    | some sp =>
      dsimp only
      by_cases hhas : hasKey params p = true
      · rw [if_pos hhas]
        have hne : k ≠ p := by
          intro e
          rw [e, hhas] at habs
          simp at habs
        have hmem2 : k ∈ rest := by
          rcases List.mem_cons.mp hmem with h | h
          · exact absurd h hne
          · exact h
        exact ih params (count + 1) hmem2 habs hdef
      · rw [if_neg hhas]
        by_cases hr : sp.Required = true
        · rw [if_pos hr]
          exact ⟨p, sp, rfl, hp, hr⟩
        · rw [if_neg hr]
          have hne : k ≠ p := by
            intro e
            rw [e, hp] at hk
            rw [← Option.some.inj hk] at hreq
            exact hr hreq
          have hmem2 : k ∈ rest := by
            rcases List.mem_cons.mp hmem with h | h
            · exact absurd h hne
            · exact h
          cases hd : sp.Default with
          | none => exact ih params count hmem2 habs hdef
          | some d =>
            dsimp only
            cases params with
            | none =>
              have := hdef rfl p sp hp
              rw [hd] at this
              simp at this
            | some m =>
              dsimp only
              apply ih (some (m ++ [(p, d)])) (count + 1) hmem2
              · rw [hasKey_append, habs]
                simp only [Bool.false_or, beq_eq_false_iff_ne, ne_eq]
                exact fun e => hne e.symm
              · intro h
                simp at h

/-- Each command has at most one required parameter. -/
theorem required_unique (name : String) (cmdSpec : List (String × paramSpec))
    (h : cmdParamsSpec.lookup name = some cmdSpec) (a b : String) (sa sb : paramSpec)
    (ha : cmdSpec.lookup a = some sa) (hb : cmdSpec.lookup b = some sb)
    (hra : sa.Required = true) (hrb : sb.Required = true) :
    a = b ∧ ((name = "start" ∧ a = "name") ∨ (name = "stop" ∧ a = "id")
      ∨ (name = "status" ∧ a = "id")) := by
  have hone : ∀ (c : String) (sc : paramSpec), cmdSpec.lookup c = some sc → sc.Required = true →
      (name = "start" ∧ c = "name") ∨ (name = "stop" ∧ c = "id")
        ∨ (name = "status" ∧ c = "id") := by
    intro c sc hc hrc
    rcases cmdParamsSpec_lookup name cmdSpec h with ⟨h1, h2⟩ | ⟨h1, h2⟩ | ⟨h1, h2⟩ | ⟨h1, h2⟩
    · subst h2
      simp only [List.lookup] at hc
      split at hc
      · rename_i e
        simp only [beq_iff_eq] at e
        exact Or.inl ⟨h1, e⟩
      · split at hc
        · rw [← Option.some.inj hc] at hrc
          simp at hrc
        · split at hc
          · rw [← Option.some.inj hc] at hrc
            simp at hrc
          · simp at hc
    · subst h2
      simp only [List.lookup] at hc
      split at hc
      · rename_i e
        simp only [beq_iff_eq] at e
        exact Or.inr (Or.inl ⟨h1, e⟩)
      · split at hc
        · rw [← Option.some.inj hc] at hrc
          simp at hrc
        · simp at hc
    · subst h2
      simp only [List.lookup] at hc
      split at hc
      · rename_i e
        simp only [beq_iff_eq] at e
        exact Or.inr (Or.inr ⟨h1, e⟩)
      · simp at hc
    · subst h2
      simp at hc
  have h1 := hone a sa ha hra
  have h2 := hone b sb hb hrb
  refine ⟨?_, h1⟩
  rcases h1 with ⟨n1, e1⟩ | ⟨n1, e1⟩ | ⟨n1, e1⟩ <;>
    rcases h2 with ⟨n2, e2⟩ | ⟨n2, e2⟩ | ⟨n2, e2⟩ <;>
    first
      | exact e1.trans e2.symm
      | (rw [n1] at n2; simp at n2)

/-- Let the command be known and let `k` be a parameter its spec marks as
required ("name" for start, "id" for stop and for status, and no other),
absent from the params, whatever else they hold.  When the params are a map
that `Decode` has allocated, or the command is status, `parseCommand`
returns the error that names `k` and leaves the command it was given
untouched, in whatever order the spec is visited. -/
theorem parseCommand_required_absent (ms : Mapstructure) (cmdJSON : commandJSON)
    (visitSpec visitParams : List String) (cmd : command) (cmdSpec : List (String × paramSpec))
    (k : String) (spec : paramSpec)
    (hcmd : cmdParamsSpec.lookup cmdJSON.Name = some cmdSpec)
    (hk : cmdSpec.lookup k = some spec) (hreq : spec.Required = true)
    (habs : hasKey cmdJSON.Params k = false) (hvis : k ∈ visitSpec)
    (hmap : cmdJSON.Params ≠ none ∨ cmdJSON.Name = "status") :
    parseCommand ms (Except.ok cmdJSON) visitSpec visitParams cmd
        = (cmd, Exit.ret (some (Err.new ("A required parameter \"" ++ k ++ "\" is absent."))))
      ∧ ((cmdJSON.Name = "start" ∧ k = "name") ∨ (cmdJSON.Name = "stop" ∧ k = "id")
          ∨ (cmdJSON.Name = "status" ∧ k = "id")) := by
  have hdef : cmdJSON.Params = none →
      ∀ p sp, cmdSpec.lookup p = some sp → sp.Default = none := by
    intro hn p sp hp
    rcases hmap with h | h
    · exact absurd hn h
    · rcases cmdParamsSpec_lookup cmdJSON.Name cmdSpec hcmd with
        ⟨h1, _⟩ | ⟨h1, _⟩ | ⟨_, h2⟩ | ⟨h1, _⟩
      · rw [h] at h1
        simp at h1
      · rw [h] at h1
        simp at h1
      · subst h2
        simp only [List.lookup] at hp
        split at hp
        · rw [← Option.some.inj hp]
        · simp at hp
      · rw [h] at h1
        simp at h1
  obtain ⟨name, sp, hres, hn, hr⟩ :=
    checkParams_absent cmdSpec k spec hk hreq visitSpec cmdJSON.Params 0 hvis habs hdef
  obtain ⟨heq, htab⟩ := required_unique cmdJSON.Name cmdSpec hcmd k name spec sp hk hn hreq hr
  refine ⟨?_, htab⟩
  unfold parseCommand
  simp only [hcmd, hres, heq]

/-- C22 (failing input): a start request without params,
`{"command_name": "start"}`, lacks the required "name", and a stop request
without params lacks the required "id"; `Decode` leaves the nil map in
`cmdJSON.Params`.  When the loop over the spec comes to "restartable" (to
"force") before the required parameter, `parseCommand` writes the default
into the nil map and panics: it returns no error.  The start request of
`TestParserNegative`, which has params without "name", gets the error in
the same visiting order. -/
theorem C22_required_absent_nil_params :
    hasKey ({ Name := "start", Params := none } : commandJSON).Params "name" = false
      ∧ (cmdParamsSpec.lookup "start").bind (fun sp => (sp.lookup "name").map (fun p => p.Required))
          = some true
      ∧ parseCommand msT (Except.ok { Name := "start", Params := none })
          ["env", "restartable", "name"] [] command.zero = (command.zero, Exit.panic)
      ∧ hasKey ({ Name := "stop", Params := none } : commandJSON).Params "id" = false
      ∧ (cmdParamsSpec.lookup "stop").bind (fun sp => (sp.lookup "id").map (fun p => p.Required))
          = some true
      ∧ parseCommand msT (Except.ok { Name := "stop", Params := none }) ["force", "id"] []
          command.zero = (command.zero, Exit.panic)
      ∧ parseCommand msT
          (Except.ok { Name := "start",
                       Params := some [("env", JVal.arr [JVal.str "TRYAM=true"])] })
          ["env", "restartable", "name"] ["env"] command.zero
        = (command.zero, Exit.ret (some (Err.new "A required parameter \"name\" is absent."))) := by
  refine ⟨rfl, rfl, ?_, rfl, rfl, ?_, ?_⟩ <;> decide

/-! ## parseCommand: unknown parameters -/

/-- A key the map does not hold is looked up in what was appended. -/
theorem lookup_append_absent (m extra : List (String × JVal)) (k : String)
    (h : hasKey (some m) k = false) : (m ++ extra).lookup k = extra.lookup k := by
  rw [List.lookup_append]
  have hn : m.lookup k = none := by
    rw [List.lookup_eq_none_iff]
    intro p hp
    simp only [hasKey, List.any_eq_false, beq_iff_eq] at h
    simp only [bne_iff_ne, ne_eq]
    exact fun e => h p hp e.symm
  rw [hn]
  rfl

/-- A key the map holds is looked up there. -/
theorem lookup_append_present (m extra : List (String × JVal)) (k : String)
    (h : hasKey (some m) k = true) : (m ++ extra).lookup k = m.lookup k := by
  rw [List.lookup_append]
  cases hl : m.lookup k with
  | some v => rfl
  | none =>
    rw [List.lookup_eq_none_iff] at hl
    simp only [hasKey, List.any_eq_true, beq_iff_eq] at h
    obtain ⟨p, hp, e⟩ := h
    have := hl p hp
    rw [e] at this
    simp at this

/-- A loop over allocated params that runs through: the map it leaves is
the one it found with the defaults appended, every appended key is a key
of the spec, the count is the number of visited spec keys the map held
plus the number of defaults written, and each default that was due is in
the map. -/
theorem checkParams_done (cmdSpec : List (String × paramSpec)) :
    ∀ (visit : List String) (m : List (String × JVal)) (count : Nat)
      (params2 : Option (List (String × JVal))) (count2 : Nat),
      visit.Nodup →
      checkParams cmdSpec visit (some m) count = Checked.done params2 count2 →
      ∃ extra : List (String × JVal), params2 = some (m ++ extra)
        ∧ (∀ e ∈ extra, (cmdSpec.lookup e.1).isSome = true)
        ∧ count2 = count
            + (visit.filter (fun k => (cmdSpec.lookup k).isSome && hasKey (some m) k)).length
            + extra.length
        ∧ (∀ k sp d, k ∈ visit → cmdSpec.lookup k = some sp → hasKey (some m) k = false →
            sp.Default = some d → (m ++ extra).lookup k = some d) := by
  intro visit
  induction visit with
  | nil =>
    intro m count params2 count2 _ h
    unfold checkParams at h
    simp only [Checked.done.injEq] at h
    refine ⟨[], ?_, ?_, ?_, ?_⟩
    · rw [List.append_nil]
      exact h.1.symm
    · intro e he
      simp at he
    · simp [h.2]
    · intro k sp d hk
      simp at hk
  | cons p rest ih =>
    intro m count params2 count2 hnd h
    have hpr : p ∉ rest := (List.nodup_cons.mp hnd).1
    have hndr : rest.Nodup := (List.nodup_cons.mp hnd).2
    unfold checkParams at h
    cases hp : cmdSpec.lookup p with
    | none =>
      rw [hp] at h
      dsimp only at h
      obtain ⟨extra, h1, h2, h3, h4⟩ := ih m count params2 count2 hndr h
      refine ⟨extra, h1, h2, ?_, ?_⟩
      · rw [h3, List.filter_cons]
        simp [hp]
      · intro k sp d hk hks habs hd
        rcases List.mem_cons.mp hk with e | e
        · rw [e, hp] at hks
          simp at hks
        · exact h4 k sp d e hks habs hd
    | some spec =>
      rw [hp] at h
      dsimp only at h
      by_cases hhas : hasKey (some m) p = true
      · rw [if_pos hhas] at h
        obtain ⟨extra, h1, h2, h3, h4⟩ := ih m (count + 1) params2 count2 hndr h
        refine ⟨extra, h1, h2, ?_, ?_⟩
        · rw [h3, List.filter_cons]
          simp only [hp, Option.isSome_some, hhas, Bool.and_self, if_true, List.length_cons]
          omega
        · intro k sp d hk hks habs hd
          rcases List.mem_cons.mp hk with e | e
          · rw [e, hhas] at habs
            simp at habs
          · exact h4 k sp d e hks habs hd
      · rw [if_neg hhas] at h
        by_cases hr : spec.Required = true
        · rw [if_pos hr] at h
          simp at h
        · rw [if_neg hr] at h
          cases hd : spec.Default with
          | none =>
            rw [hd] at h
            dsimp only at h
            obtain ⟨extra, h1, h2, h3, h4⟩ := ih m count params2 count2 hndr h
            refine ⟨extra, h1, h2, ?_, ?_⟩
            · rw [h3, List.filter_cons]
              simp [hhas]
            · intro k sp d hk hks habs hd2
              rcases List.mem_cons.mp hk with e | e
              · rw [e, hp] at hks
                rw [← Option.some.inj hks, hd] at hd2
                simp at hd2
              · exact h4 k sp d e hks habs hd2
          | some dflt =>
            rw [hd] at h
            dsimp only at h
            obtain ⟨extra, h1, h2, h3, h4⟩ :=
              ih (m ++ [(p, dflt)]) (count + 1) params2 count2 hndr h
            have hsame : ∀ k ∈ rest, hasKey (some (m ++ [(p, dflt)])) k = hasKey (some m) k := by
              intro k hk
              rw [hasKey_append]
              have : (p == k) = false := by
                simp only [beq_eq_false_iff_ne, ne_eq]
                intro e
                rw [e] at hpr
                exact hpr hk
              rw [this, Bool.or_false]
            refine ⟨(p, dflt) :: extra, ?_, ?_, ?_, ?_⟩
            · rw [h1, List.append_assoc]
              rfl
            · intro e he
              rcases List.mem_cons.mp he with e1 | e1
              · rw [e1]
                simp [hp]
              · exact h2 e e1
            · rw [h3, List.filter_cons]
              have hf : rest.filter
                    (fun k => (cmdSpec.lookup k).isSome && hasKey (some (m ++ [(p, dflt)])) k)
                  = rest.filter (fun k => (cmdSpec.lookup k).isSome && hasKey (some m) k) := by
                apply List.filter_congr
                intro k hk
                rw [hsame k hk]
              rw [hf]
              simp only [hhas, Bool.and_false, Bool.false_eq_true, if_false, List.length_cons]
              omega
            · intro k sp d hk hks habs hd2
              rcases List.mem_cons.mp hk with e | e
              · rw [e, hp] at hks
                rw [← Option.some.inj hks, hd] at hd2
                rw [e, lookup_append_absent m _ p (by simpa using hhas)]
                simp only [List.lookup, beq_self_eq_true]
                exact hd2
              · have := h4 k sp d e hks (by rw [hsame k e]; exact habs) hd2
                rw [List.append_assoc] at this
                exact this

/-- The scan for an unknown parameter finds one when the loop reaches a key
of the map that the spec does not have. -/
theorem unknownParam_some (cmdSpec : List (String × paramSpec))
    (params : Option (List (String × JVal))) (u : String) (hu : hasKey params u = true)
    (hn : cmdSpec.lookup u = none) :
    ∀ visit : List String, u ∈ visit →
      ∃ name, unknownParam cmdSpec params visit = some name ∧ hasKey params name = true
        ∧ cmdSpec.lookup name = none := by
  intro visit
  induction visit with
  | nil =>
    intro h
    simp at h
  | cons p rest ih =>
    intro h
    unfold unknownParam
    by_cases hp : (hasKey params p && (cmdSpec.lookup p).isNone) = true
    · rw [if_pos hp]
      simp only [Bool.and_eq_true, Option.isNone_iff_eq_none] at hp
      exact ⟨p, rfl, hp.1, hp.2⟩
    · rw [if_neg hp]
      rcases List.mem_cons.mp h with e | e
      · rw [← e] at hp
        simp [hu, hn] at hp
      · exact ih e

/-- With allocated params the loop never meets the nil map. -/
theorem checkParams_some_ne_nilMap (cmdSpec : List (String × paramSpec)) :
    ∀ (visit : List String) (m : List (String × JVal)) (count : Nat),
      checkParams cmdSpec visit (some m) count ≠ Checked.nilMap := by
  intro visit
  induction visit with
  | nil =>
    intro m count
    unfold checkParams
    simp
  | cons p rest ih =>
    intro m count
    unfold checkParams
    cases hp : cmdSpec.lookup p with
    | none => exact ih m count
    | some spec =>
      dsimp only
      split
      · exact ih m (count + 1)
      · split
        · simp
        · cases hd : spec.Default with
          | none => exact ih m count
          | some d => exact ih _ (count + 1)

/-- When the count equals the size of the map the loop left, every key of
that map is a key of the spec. -/
theorem count_eq_len_known (cmdSpec : List (String × paramSpec)) (visit : List String)
    (m : List (String × JVal)) (params2 : Option (List (String × JVal))) (count : Nat)
    (hvs : visit.Nodup)
    (h : checkParams cmdSpec visit (some m) 0 = Checked.done params2 count)
    (hlen : lenParams params2 = count) :
    ∀ key, hasKey params2 key = true → (cmdSpec.lookup key).isSome = true := by
  obtain ⟨extra, h1, h2, h3, _⟩ := checkParams_done cmdSpec visit m 0 params2 count hvs h
  have hsub : visit.filter (fun k => (cmdSpec.lookup k).isSome && hasKey (some m) k)
      ⊆ (m.filter (fun e => (cmdSpec.lookup e.1).isSome)).map Prod.fst := by
    intro k hk
    rw [List.mem_filter] at hk
    simp only [Bool.and_eq_true, hasKey, List.any_eq_true, beq_iff_eq] at hk
    obtain ⟨_, hs, e, he, hek⟩ := hk
    rw [List.mem_map]
    refine ⟨e, ?_, hek⟩
    rw [List.mem_filter]
    exact ⟨he, by rw [hek]; exact hs⟩
  have hle := (List.subperm_of_subset (List.Nodup.filter _ hvs) hsub).length_le
  rw [List.length_map] at hle
  have hfl : (m.filter (fun e => (cmdSpec.lookup e.1).isSome)).length ≤ m.length :=
    List.length_filter_le _ _
  rw [h1] at hlen
  simp only [lenParams, List.length_append] at hlen
  have hall : ¬ (m.filter (fun e => (cmdSpec.lookup e.1).isSome)).length < m.length := by
    omega
  rw [List.length_filter_lt_length_iff_exists] at hall
  intro key hkey
  rw [h1] at hkey
  simp only [hasKey, List.any_append, Bool.or_eq_true, List.any_eq_true, beq_iff_eq] at hkey
  rcases hkey with ⟨e, he, hek⟩ | ⟨e, he, hek⟩
  · by_contra hc
    apply hall
    exact ⟨e, he, by rw [hek]; exact hc⟩
  · rw [← hek]
    exact h2 e he

/-- C23: let the command be known and its params a map (its keys visited
once each by the loop over the spec).  If the count comparison finds the
count equal to the size of the map, and so skips the scan for unknown
parameters, every key of the map is a key of the spec.  And whenever the
params hold a key that is not in the spec, `parseCommand` returns an error
and leaves the command it was given untouched, whatever known parameters
are present or defaulted alongside it and in whatever order the two loops
run. -/
theorem C23_unknown_param (ms : Mapstructure) (cmdJSON : commandJSON)
    (visitSpec visitParams : List String) (cmd : command) (cmdSpec : List (String × paramSpec))
    (m : List (String × JVal))
    (hcmd : cmdParamsSpec.lookup cmdJSON.Name = some cmdSpec) (hp : cmdJSON.Params = some m)
    (hvs : visitSpec.Nodup) :
    (∀ params2 count, checkParams cmdSpec visitSpec cmdJSON.Params 0
          = Checked.done params2 count → lenParams params2 = count →
        ∀ key, hasKey params2 key = true → (cmdSpec.lookup key).isSome = true)
      ∧ (∀ u, hasKey cmdJSON.Params u = true → cmdSpec.lookup u = none →
          (∀ e ∈ m, e.1 ∈ visitParams) →
          ∃ e, parseCommand ms (Except.ok cmdJSON) visitSpec visitParams cmd
            = (cmd, Exit.ret (some e))) := by
  rw [hp]
  constructor
  · intro params2 count h hlen
    exact count_eq_len_known cmdSpec visitSpec m params2 count hvs h hlen
  · intro u hu hunk hvp
    unfold parseCommand
    simp only [hcmd, hp]
    cases hc : checkParams cmdSpec visitSpec (some m) 0 with
    | absent name => exact ⟨_, rfl⟩
    | nilMap => exact absurd hc (checkParams_some_ne_nilMap cmdSpec visitSpec m 0)
    | done params2 count =>
      dsimp only
      obtain ⟨extra, h1, _, _, _⟩ := checkParams_done cmdSpec visitSpec m 0 params2 count hvs hc
      have hu2 : hasKey params2 u = true := by
        rw [h1]
        simp only [hasKey, List.any_append, Bool.or_eq_true]
        exact Or.inl hu
      have hne : lenParams params2 ≠ count := by
        intro hlen
        have := count_eq_len_known cmdSpec visitSpec m params2 count hvs hc hlen u hu2
        rw [hunk] at this
        simp at this
      have huv : u ∈ visitParams := by
        simp only [hasKey, List.any_eq_true, beq_iff_eq] at hu
        obtain ⟨e, he, hek⟩ := hu
        rw [← hek]
        exact hvp e he
      obtain ⟨name, hname, _, _⟩ := unknownParam_some cmdSpec params2 u hu2 hunk visitParams huv
      have hb : (lenParams params2 != count) = true := by
        simp only [bne_iff_ne, ne_eq]
        exact hne
      rw [if_pos hb, hname]
      exact ⟨_, rfl⟩

/-- C23 at a concrete input: the start request of `TestParserNegative`
with `unknown_param`, the default of `restartable` written next to it. -/
theorem C23_unknown_param_witness :
    parseCommand msT
        (Except.ok { Name := "start",
                     Params := some [("name", JVal.str "test_inst"),
                                     ("unknown_param", JVal.num 5),
                                     ("env", JVal.arr [JVal.str "TRYAM=true"])] })
        ["env", "restartable", "name"] ["env", "restartable", "unknown_param", "name"]
        command.zero
        = (command.zero, Exit.ret (some (Err.new "Unknown parameter \"unknown_param\".")))
      ∧ ∃ e, parseCommand msT
          (Except.ok { Name := "start",
                       Params := some [("name", JVal.str "test_inst"),
                                       ("unknown_param", JVal.num 5),
                                       ("env", JVal.arr [JVal.str "TRYAM=true"])] })
          ["env", "restartable", "name"] ["env", "restartable", "unknown_param", "name"]
          command.zero = (command.zero, Exit.ret (some e)) :=
  ⟨by decide,
   (C23_unknown_param msT
      { Name := "start",
        Params := some [("name", JVal.str "test_inst"), ("unknown_param", JVal.num 5),
                        ("env", JVal.arr [JVal.str "TRYAM=true"])] }
      ["env", "restartable", "name"] ["env", "restartable", "unknown_param", "name"]
      command.zero _ _ rfl rfl (by decide)).2 "unknown_param" (by decide) rfl
    (by decide)⟩

/-! ## parseCommand: defaults and values -/

/-- C27 (failing input): a stop request without params, `{"command_name":
"stop"}`, leaves the nil map in `cmdJSON.Params`.  When the loop over the
spec takes "force" before "id" it writes the default into the nil map and
`parseCommand` panics; when it takes "id" first it returns the error for
the absent "id".  The same holds for a start request without params, with
"restartable" before or after "name". -/
theorem C27_nil_params_abort :
    parseCommand msT (Except.ok { Name := "stop", Params := none }) ["force", "id"] []
        command.zero = (command.zero, Exit.panic)
      ∧ parseCommand msT (Except.ok { Name := "stop", Params := none }) ["id", "force"] []
          command.zero
        = (command.zero, Exit.ret (some (Err.new "A required parameter \"id\" is absent.")))
      ∧ parseCommand msT (Except.ok { Name := "start", Params := none })
          ["restartable", "name", "env"] [] command.zero = (command.zero, Exit.panic)
      ∧ parseCommand msT (Except.ok { Name := "start", Params := none })
          ["name", "env", "restartable"] [] command.zero
        = (command.zero, Exit.ret (some (Err.new "A required parameter \"name\" is absent."))) := by
  decide

/-- With params that `Decode` has allocated, and for the commands without
defaults, `parseCommand` returns: the only abort is the write into the nil
map. -/
theorem parseCommand_returns (ms : Mapstructure) (dec : Except Nat commandJSON)
    (visitSpec visitParams : List String) (cmd : command)
    (h : ∀ cmdJSON, dec = Except.ok cmdJSON → cmdJSON.Params ≠ none) :
    ∃ e, (parseCommand ms dec visitSpec visitParams cmd).2 = Exit.ret e := by
  unfold parseCommand
  cases dec with
  | error code => exact ⟨_, rfl⟩
  | ok cmdJSON =>
    dsimp only
    cases hs : cmdParamsSpec.lookup cmdJSON.Name with
    | none => exact ⟨_, rfl⟩
    | some cmdSpec =>
      dsimp only
      cases hp : cmdJSON.Params with
      | none => exact absurd hp (h cmdJSON rfl)
      | some m =>
        cases hc : checkParams cmdSpec visitSpec (some m) 0 with
        | absent name => exact ⟨_, rfl⟩
        | nilMap => exact absurd hc (checkParams_some_ne_nilMap cmdSpec visitSpec m 0)
        | done params2 count =>
          dsimp only
          split
          · exact ⟨_, rfl⟩
          · exact ⟨_, rfl⟩

/-! ## parseCfg -/

/-- Whether a document sets a field, member by member. -/
theorem setsField_cons (fold : String → String → Bool) (f : CfgField) (e : String × CfgVal)
    (rest : List (String × CfgVal)) :
    setsField fold f (e :: rest) = (cfgField fold e.1 == some f || setsField fold f rest) := by
  simp [setsField]

/-- Members that give the directory as the string `d` and the timeout as
the integer `n`, which fits `int64`, are decoded without error: a field
that some member addresses gets that value, the others stay. -/
theorem unmarshal_members (fold : String → String → Bool) (d : String) (n : Int)
    (hlo : -9223372036854775808 ≤ n) (hhi : n ≤ 9223372036854775807) :
    ∀ (ms : List (String × CfgVal)) (cfg : Cfg),
      (∀ e ∈ ms, cfgField fold e.1 = some CfgField.instancesDir → e.2 = CfgVal.str d) →
      (∀ e ∈ ms, cfgField fold e.1 = some CfgField.termTimeout → e.2 = CfgVal.int n) →
      ms.foldl (unmarshalMember fold) (cfg, none)
        = ({ InstancesDir := if setsField fold CfgField.instancesDir ms then d
                             else cfg.InstancesDir,
             TermTimeout := if setsField fold CfgField.termTimeout ms then n
                            else cfg.TermTimeout }, none) := by
  intro ms
  induction ms with
  | nil =>
    intro cfg _ _
    simp [setsField]
  | cons e rest ih =>
    intro cfg hd ht
    have hd2 : ∀ x ∈ rest, cfgField fold x.1 = some CfgField.instancesDir → x.2 = CfgVal.str d :=
      fun x hx => hd x (List.mem_cons_of_mem _ hx)
    have ht2 : ∀ x ∈ rest, cfgField fold x.1 = some CfgField.termTimeout → x.2 = CfgVal.int n :=
      fun x hx => ht x (List.mem_cons_of_mem _ hx)
    rw [List.foldl_cons]
    cases hf : cfgField fold e.1 with
    | none =>
      have hs : unmarshalMember fold (cfg, none) e = (cfg, none) := by
        unfold unmarshalMember
        rw [hf]
      rw [hs, ih cfg hd2 ht2, setsField_cons, setsField_cons, hf]
      rfl
    | some f =>
      cases f with
      | instancesDir =>
        have hv := hd e (List.mem_cons_self _ _) hf
        have hs : unmarshalMember fold (cfg, none) e
            = ({ cfg with InstancesDir := d }, none) := by
          unfold unmarshalMember
          rw [hf, hv]
        rw [hs, ih _ hd2 ht2, setsField_cons, setsField_cons, hf]
        simp
      | termTimeout =>
        have hv := ht e (List.mem_cons_self _ _) hf
        have hs : unmarshalMember fold (cfg, none) e
            = ({ cfg with TermTimeout := n }, none) := by
          unfold unmarshalMember
          rw [hf, hv]
          simp only [hlo, hhi, and_self, if_true]
        rw [hs, ih _ hd2 ht2, setsField_cons, setsField_cons, hf]
        simp

/-- A product that fits `int64` is not changed by the wrap. -/
theorem mul64_exact (a b : Int) (hlo : -9223372036854775808 ≤ a * b)
    (hhi : a * b ≤ 9223372036854775807) : mul64 a b = a * b := by
  unfold mul64
  omega

/-- C21 (counterexample): a config file that sets `instances_dir` to
"test_instances" and `termination_timeout` to 9223372037 is parsed without
error, and `TermTimeout` is -9223372036709551616 ns, a negative duration,
not 9223372037 seconds. -/
theorem C21_counterexample_timeout_wraps :
    parseCfg noFold (cfgFileT (CfgDoc.object
        [("instances_dir", CfgVal.str "test_instances"),
         ("termination_timeout", CfgVal.int 9223372037)]))
        = (some { InstancesDir := "test_instances", TermTimeout := -9223372036709551616 }, none)
      ∧ (-9223372036709551616 : Int) ≠ 9223372037 * Second := by
  decide

/-- C21 (as amended): let the config file be readable and hold an object
in which every member that addresses `instances_dir` has the string `d`
and every member that addresses `termination_timeout` has the integer `n`,
with `-9223372036 ≤ n ≤ 9223372036`.  Then `parseCfg` returns no error;
`InstancesDir` is `d` when the file sets it and
"/etc/tarantool/tvisor/instances" when the key is absent; `TermTimeout` is
`n` seconds (`n * 10^9` ns) when the file sets it and 30 seconds when the
key is absent. -/
theorem C21_parse_cfg (fold : String → String → Bool) (file : CfgFile)
    (ms : List (String × CfgVal)) (d : String) (n : Int)
    (hstat : file.stat = none) (hopen : file.opened = none) (hread : file.read = none)
    (hdoc : file.doc = CfgDoc.object ms)
    (hd : ∀ e ∈ ms, cfgField fold e.1 = some CfgField.instancesDir → e.2 = CfgVal.str d)
    (ht : ∀ e ∈ ms, cfgField fold e.1 = some CfgField.termTimeout → e.2 = CfgVal.int n)
    (hlo : -9223372036 ≤ n) (hhi : n ≤ 9223372036) :
    parseCfg fold file
        = (some { InstancesDir := if setsField fold CfgField.instancesDir ms then d
                                  else "/etc/tarantool/tvisor/instances",
                  TermTimeout := if setsField fold CfgField.termTimeout ms then n * Second
                                 else 30 * Second }, none)
      ∧ cfgField fold "instances_dir" = some CfgField.instancesDir
      ∧ cfgField fold "termination_timeout" = some CfgField.termTimeout
      ∧ Second = 1000000000 := by
  refine ⟨?_, rfl, rfl, rfl⟩
  unfold parseCfg
  simp only [hstat, hopen, hread, hdoc, jsonUnmarshal]
  rw [unmarshal_members fold d n (by omega) (by omega) ms _ hd ht]
  dsimp only
  by_cases h : setsField fold CfgField.termTimeout ms = true
  · simp only [h, if_true]
    rw [mul64_exact n Second (by unfold Second; omega) (by unfold Second; omega)]
  · simp only [h, Bool.false_eq_true, if_false]
    rw [mul64_exact 30 Second (by decide) (by decide)]

/-- C21 (amended) at concrete inputs: the file of `TestCfgParse`, and a
file with an empty object. -/
theorem C21_parse_cfg_witness :
    parseCfg noFold (cfgFileT (CfgDoc.object
        [("instances_dir", CfgVal.str "test_instances"),
         ("termination_timeout", CfgVal.int 1)]))
        = (some { InstancesDir := "test_instances", TermTimeout := 1000000000 }, none)
      ∧ parseCfg noFold (cfgFileT (CfgDoc.object []))
        = (some { InstancesDir := "/etc/tarantool/tvisor/instances",
                  TermTimeout := 30000000000 }, none) :=
  ⟨(C21_parse_cfg noFold _ [("instances_dir", CfgVal.str "test_instances"),
      ("termination_timeout", CfgVal.int 1)] "test_instances" 1 rfl rfl rfl rfl
      (by decide) (by decide) (by decide) (by decide)).1,
   (C21_parse_cfg noFold _ [] "" 0 rfl rfl rfl rfl (by decide) (by decide) (by decide)
      (by decide)).1⟩

/-! ## The path of the executable -/

/-- A path always has a first piece. -/
theorem splitSlash_ne_nil (cs : List Char) : splitSlash cs ≠ [] := by
  cases cs with
  | nil => simp [splitSlash]
  | cons c rest =>
    unfold splitSlash
    split
    · simp
    · split <;> simp

/-- The pieces of a path that starts with the character `c`. -/
theorem splitSlash_cons (c : Char) (cs : List Char) :
    splitSlash (c :: cs)
      = if c = '/' then [] :: splitSlash cs
        else match splitSlash cs with
          | [] => [[c]]
          | x :: xs => (c :: x) :: xs := by
  rw [splitSlash]

/-- The pieces of two paths joined by a slash are the pieces of the one
followed by the pieces of the other. -/
theorem splitSlash_append (a b : List Char) :
    splitSlash (a ++ '/' :: b) = splitSlash a ++ splitSlash b := by
  induction a with
  | nil =>
    rw [List.nil_append, splitSlash_cons, if_pos rfl]
    rfl
  | cons c rest ih =>
    rw [List.cons_append, splitSlash_cons c (rest ++ '/' :: b), splitSlash_cons c rest, ih]
    by_cases hc : c = '/'
    · rw [if_pos hc, if_pos hc]
      rfl
    · rw [if_neg hc, if_neg hc]
      cases hs : splitSlash rest with
      | nil => exact absurd hs (splitSlash_ne_nil rest)
      | cons x xs => rfl

/-- What the helper of `String.intercalate` builds. -/
theorem intercalate_go_data (s : String) :
    ∀ (l : List String) (acc : String),
      (String.intercalate.go acc s l).data
        = acc.data ++ (l.map (fun x => s.data ++ x.data)).flatten := by
  intro l
  induction l with
  | nil =>
    intro acc
    simp [String.intercalate.go]
  | cons a rest ih =>
    intro acc
    simp [String.intercalate.go, ih, String.data_append]

/-- Joining more components only extends the joined string. -/
theorem intercalate_prefix (s : String) (a b : List String) :
    (s.intercalate a).data <+: (s.intercalate (a ++ b)).data := by
  cases a with
  | nil =>
    simp [String.intercalate]
  | cons x rest =>
    simp only [String.intercalate, List.cons_append, intercalate_go_data, List.map_append,
      List.flatten_append]
    rw [← List.append_assoc]
    exact List.prefix_append _ _

/-- Components none of which is ".." are all kept by `path.Clean`. -/
theorem foldl_cleanStep_keep (rooted : Bool) :
    ∀ (cs st : List String), ".." ∉ cs →
      cs.foldl (cleanStep rooted) st = cs.reverse ++ st := by
  intro cs
  induction cs with
  | nil =>
    intro st _
    rfl
  | cons c rest ih =>
    intro st h
    have hc : c ≠ ".." := fun e => h (by rw [e]; exact List.mem_cons_self _ _)
    have hr : ".." ∉ rest := fun e => h (List.mem_cons_of_mem _ e)
    rw [List.foldl_cons]
    have hs : cleanStep rooted st c = c :: st := by
      unfold cleanStep
      have : (c == "..") = false := by
        simp only [beq_eq_false_iff_ne, ne_eq]
        exact hc
      rw [this]
      rfl
    rw [hs, ih (c :: st) hr]
    simp

/-- The components of two paths joined by a slash. -/
theorem components_join (a b : String) :
    components (a ++ "/" ++ b) = components a ++ components b := by
  unfold components
  have : (a ++ "/" ++ b).data = a.data ++ '/' :: b.data := by
    simp [String.data_append]
  rw [this, splitSlash_append, List.map_append]

/-- When the directory is in the form `path.Clean` leaves it and is not
".", and no component of the file is "..", the joined path starts with
the directory. -/
theorem pathJoin_prefix (dir file : String) (hclean : pathClean dir = dir) (hdot : dir ≠ ".")
    (hfile : noDotDot file = true) (hne : file ≠ "") :
    dir.data <+: (pathJoin [dir, file]).data := by
  have hdne : dir ≠ "" := by
    intro e
    rw [e] at hclean
    exact absurd hclean (by decide)
  have hdata : dir.data ≠ [] := by
    intro e
    apply hdne
    exact String.ext e
  have hjoin : pathJoin [dir, file] = pathClean (dir ++ "/" ++ file) := by
    unfold pathJoin
    have hf : [dir, file].filter (fun e => e != "") = [dir, file] := by
      simp [hdne, hne]
    rw [hf]
    rfl
  have hroot : ((dir ++ "/" ++ file).data.head? == some '/') = (dir.data.head? == some '/') := by
    have : (dir ++ "/" ++ file).data = dir.data ++ '/' :: file.data := by
      simp [String.data_append]
    rw [this]
    cases hd : dir.data with
    | nil => exact absurd hd hdata
    | cons c rest => rfl
  have hnodd : ".." ∉ (components file).filter (fun c => c != "" && c != ".") := by
    intro h
    have h2 := (List.mem_filter.mp h).1
    unfold noDotDot at hfile
    simp only [Bool.not_eq_true', List.contains_eq_any_beq, List.any_eq_false, beq_iff_eq] at hfile
    exact hfile ".." h2 rfl
  rw [hjoin]
  unfold pathClean at hclean ⊢
  dsimp only at hclean ⊢
  rw [hroot, components_join, List.filter_append, List.foldl_append,
    foldl_cleanStep_keep _ _ _ hnodd, List.reverse_append, List.reverse_reverse]
  have hpre := intercalate_prefix "/"
    (List.foldl (cleanStep (dir.data.head? == some '/')) []
      (List.filter (fun c => c != "" && c != ".") (components dir))).reverse
    (List.filter (fun c => c != "" && c != ".") (components file))
  by_cases hr : (dir.data.head? == some '/') = true
  · rw [if_pos hr] at hclean ⊢
    have key : ("/" ++ "/".intercalate
        (List.foldl (cleanStep (dir.data.head? == some '/')) []
          (List.filter (fun c => c != "" && c != ".") (components dir))).reverse).data
        <+: ("/" ++ "/".intercalate
          ((List.foldl (cleanStep (dir.data.head? == some '/')) []
            (List.filter (fun c => c != "" && c != ".") (components dir))).reverse
            ++ List.filter (fun c => c != "" && c != ".") (components file))).data := by
      rw [String.data_append, String.data_append]
      exact (List.prefix_append_right_inj _).mpr hpre
    rw [hclean] at key
    exact key
  · rw [if_neg hr] at hclean ⊢
    by_cases hb : ("/".intercalate
        (List.foldl (cleanStep (dir.data.head? == some '/')) []
          (List.filter (fun c => c != "" && c != ".") (components dir))).reverse == "") = true
    · rw [if_pos hb] at hclean
      exact absurd hclean.symm hdot
    · rw [if_neg hb] at hclean
      rw [hclean] at hpre
      have hne2 : ¬ (("/".intercalate
          ((List.foldl (cleanStep (dir.data.head? == some '/')) []
            (List.filter (fun c => c != "" && c != ".") (components dir))).reverse
            ++ List.filter (fun c => c != "" && c != ".") (components file)) == "") = true) := by
        intro h
        simp only [beq_iff_eq] at h
        rw [h] at hpre
        exact hdata (List.prefix_nil.mp hpre)
      rw [if_neg hne2]
      exact hpre

/-- A `StartInstance` with a name looks up the joined path and, if the
lookup succeeds, launches it; it makes no other call. -/
theorem StartInstance_calls (sv : Supervisor) (w : World) (name : String) (env : List String)
    (restartable : Bool) (ev : StartEvents) (hname : name ≠ "") :
    (sv.StartInstance w name env restartable ev).world.calls
        = w.calls ++ [Call.lookPath (pathJoin [sv.cfg.InstancesDir, name ++ ".lua"])]
      ∨ (sv.StartInstance w name env restartable ev).world.calls
        = w.calls ++ [Call.lookPath (pathJoin [sv.cfg.InstancesDir, name ++ ".lua"]),
            Call.start (pathJoin [sv.cfg.InstancesDir, name ++ ".lua"]) (w.environ ++ env)] := by
  unfold Supervisor.StartInstance
  rw [if_neg hname]
  dsimp only
  cases hl : ev.look with
  | some code => exact Or.inl rfl
  | none =>
    dsimp only
    right
    cases hs : ev.launch with
    | failed code => simp [Instance.Start, Cmd.Start, NewInstance, Command, World.log]
    | started pid pos =>
      simp [Instance.Start, Cmd.Start, NewInstance, Command, World.log, Supervisor.addInstance]

/-- C25 (counterexample): with the instances directory "/srv/instances" the
non-empty name "../x" makes `StartInstance` look up and launch
"/srv/x.lua", which does not have the directory as its prefix.  Nor has
the path built for "x" the directory as its prefix when the directory is
configured as "/srv//instances" or as ".". -/
theorem C25_counterexample_path_escapes :
    pathJoin ["/srv/instances", "../x" ++ ".lua"] = "/srv/x.lua"
      ∧ ¬ ("/srv/instances".data <+: (pathJoin ["/srv/instances", "../x" ++ ".lua"]).data)
      ∧ ((NewSupervisor cfgT).StartInstance worldT "../x" [] true startedT).world.calls
          = [Call.lookPath "/srv/x.lua", Call.start "/srv/x.lua" ["HOME=/root"]]
      ∧ pathJoin ["/srv//instances", "x" ++ ".lua"] = "/srv/instances/x.lua"
      ∧ ¬ ("/srv//instances".data <+: (pathJoin ["/srv//instances", "x" ++ ".lua"]).data)
      ∧ pathJoin [".", "x" ++ ".lua"] = "x.lua"
      ∧ ¬ (".".data <+: (pathJoin [".", "x" ++ ".lua"]).data) := by
  decide

/-- C25 (as amended): let the instances directory be in the form
`path.Clean` leaves it and not ".", and let the name be non-empty with no
".." among the slash-separated components of name + ".lua".  Then the path
`StartInstance` builds from `InstancesDir` and name + ".lua" has the
instances directory as its prefix, and it is the path of every lookup and
launch the call makes. -/
theorem C25_path_under_dir (sv : Supervisor) (w : World) (name : String) (env : List String)
    (restartable : Bool) (ev : StartEvents) (hname : name ≠ "")
    (hclean : pathClean sv.cfg.InstancesDir = sv.cfg.InstancesDir)
    (hdot : sv.cfg.InstancesDir ≠ ".") (hdd : noDotDot (name ++ ".lua") = true) :
    sv.cfg.InstancesDir.data <+: (pathJoin [sv.cfg.InstancesDir, name ++ ".lua"]).data
      ∧ ((sv.StartInstance w name env restartable ev).world.calls
          = w.calls ++ [Call.lookPath (pathJoin [sv.cfg.InstancesDir, name ++ ".lua"])]
        ∨ (sv.StartInstance w name env restartable ev).world.calls
          = w.calls ++ [Call.lookPath (pathJoin [sv.cfg.InstancesDir, name ++ ".lua"]),
              Call.start (pathJoin [sv.cfg.InstancesDir, name ++ ".lua"])
                (w.environ ++ env)]) := by
  refine ⟨?_, StartInstance_calls sv w name env restartable ev hname⟩
  apply pathJoin_prefix _ _ hclean hdot hdd
  intro e
  have := congrArg String.data e
  simp [String.data_append] at this

/-- C25 (amended) at a concrete input: "svc" under "/srv/instances". -/
theorem C25_path_under_dir_witness :
    "/srv/instances".data <+: (pathJoin ["/srv/instances", "svc" ++ ".lua"]).data
      ∧ pathJoin ["/srv/instances", "svc" ++ ".lua"] = "/srv/instances/svc.lua" :=
  ⟨(C25_path_under_dir (NewSupervisor cfgT) worldT "svc" [] true startedT (by decide)
      (by decide) (by decide) (by decide)).1, by decide⟩

end core
